import Mathlib

/-! IR receiver for the Panasonic TV protocol: embedding of `library.c`

The C translation unit is embedded shallowly.  All file-scope variables of
`library.c` (and the function-local statics of `IR_available`) are fields of one
`State` record.  Machine integers are `Nat` with an explicit `% 256` or
`% 65536` wherever the C arithmetic can wrap (`int` is 16 bits wide on the AVR
target).  Operations that can leave defined C behaviour (an access outside an
allocated block or outside `durationBuffer`) or that contain a loop which need
not terminate return `Except Fault`.

The file has three parts: the embedding of the code together with the notions the
statements are phrased in (frames, registry contents, reachable states), then the
lemmas about the embedding, then one block per claim of the specification.
-/

namespace IRPanasonic

/-! ## Constants (`library.c` lines 18-47, `IR_PanasonicTV.h` line 32) -/

def F_CPU : Nat := 8000000

def LEADING_PULSE : Nat := 3380
def INITIAL_SPACE : Nat := 1690
def FINAL_PULSE : Nat := 420
def LOGIC_SHORT : Nat := 420
def LOGIC_LONG : Nat := 1270

def TICK : Nat := 128
def NUM_OF_TICKS : Nat := 2

def SLEEP_STATE : Nat := 0
def LEADING_PULSE_STATE : Nat := 1
def LEADING_SPACE_STATE : Nat := 2
def NON_SAVING_STATE : Nat := 3
def SYSTEM_CODE_STATE : Nat := 4
def ADDRESS_STATE : Nat := 5
def COMMAND_STATE : Nat := 6
def FINAL_PULSE_STATE : Nat := 7
def WAIT_STATE : Nat := 8

def NUM_OF_OVFS : Nat := 3

/-- Macro `NUM_OF_CLEAR_BUFFER_OVFS(clearBufferTime)`:
`(clearBufferTime + 16) / (1UL * 1000UL * 256UL * 1024UL / F_CPU)`.
The argument is the `uint16_t` variable `clearBTime`; with a 16-bit `int` the sum
`clearBTime + 16` is computed in `unsigned int` and wraps modulo 65536 before it is
widened to `unsigned long` for the division.  The divisor is evaluated in 32-bit
`unsigned long` (262144000 fits). -/
def NUM_OF_CLEAR_BUFFER_OVFS (clearBufferTime : Nat) : Nat :=
  ((clearBufferTime + 16) % 65536) / (1 * 1000 * 256 * 1024 / F_CPU)

/-- Number of elements of `durationBuffer`; the buffer itself is typed `Fin 36 → Bool`. -/
abbrev BUFFER_SIZE : Nat := 36

/-- The file-scope `static uint16_t timeRange = TICK * NUM_OF_TICKS;` which is never
assigned afterwards. -/
def timeRange : Nat := TICK * NUM_OF_TICKS

/-! ## State -/

/-- Ways in which a call can fail to produce a result. -/
inductive Fault where
  | undefinedBehaviour
  | outOfFuel
  deriving DecidableEq, Repr

/-- The struct `IR_data` of `IR_PanasonicTV.h`. -/
structure IR_data where
  systemCode : Nat
  address : Nat
  command : Nat
  deriving DecidableEq, Repr

/-- All variables of `library.c`.  `buttonsPtr` is `none` for `NULL` and
`some block` for a pointer to a heap block holding the bytes `block`.
`lastSystemCode`, `lastCommand` and `lastAvailable` are the function-local statics
of `IR_available`.  `TCNT0` is the hardware timer count register. -/
@[ext]
structure State where
  IR : IR_data
  numOfButtons : Nat
  buttonsPtr : Option (List Nat)
  clearBTime : Nat
  durationBuffer : Fin 36 → Bool
  bufferIndex : Nat
  nonSavingCounter : Nat
  bufferReady : Bool
  clearBuffer : Bool
  level : Bool
  state : Nat
  ovfCounter : Nat
  available : Bool
  lastSystemCode : Nat
  lastCommand : Nat
  lastAvailable : Bool
  TCNT0 : Nat

/-- The values given by the static initialisers of `library.c` (lines 49-61 and
182-183); the timer register is 0 after reset. -/
def initState : State where
  IR := ⟨0, 0, 0⟩
  numOfButtons := 0
  buttonsPtr := none
  clearBTime := 0
  durationBuffer := fun _ => false
  bufferIndex := 0
  nonSavingCounter := 0
  bufferReady := false
  clearBuffer := false
  level := true
  state := SLEEP_STATE
  ovfCounter := 1
  available := false
  lastSystemCode := 0
  lastCommand := 0
  lastAvailable := false
  TCNT0 := 0

/-! ## Edge handler `ISR(INT0_vect)` (lines 270-473) -/

/-- The comparison `TICK * TCNT0 >= X - timeRange && TICK * TCNT0 <= X + timeRange`
that the edge handler repeats for every nominal duration `X`.  `TICK * TCNT0` is an
`int` product (at most 128 * 255 = 32640 for an 8-bit register, so it does not
overflow); `X - timeRange` and `X + timeRange` are `unsigned int` (16 bits) because
`timeRange` is `uint16_t`, and the product is converted to `unsigned int` for the
comparison. -/
def inWindow (nominal tcnt : Nat) : Bool :=
  decide ((TICK * tcnt) % 65536 ≥ (nominal + 65536 - timeRange) % 65536) &&
  decide ((TICK * tcnt) % 65536 ≤ (nominal + timeRange) % 65536)

/-- The function `setSleepState` (lines 270-278). -/
def setSleepState (s : State) : State :=
  { s with
    clearBuffer := true
    state := SLEEP_STATE
    level := true
    bufferIndex := 0
    nonSavingCounter := 0
    available := false }

/-- The body shared by both accepting branches of `case NON_SAVING_STATE`
(lines 320-335 and 340-355): the `switch (nonSavingCounter)`, then
`level = !level; nonSavingCounter++;`. -/
def nonSavingAccept (s : State) : State :=
  { s with
    state :=
      match s.nonSavingCounter with
      | 39 => SYSTEM_CODE_STATE
      | 43 => ADDRESS_STATE
      | 59 => FINAL_PULSE_STATE
      | _ => s.state
    level := !s.level
    nonSavingCounter := (s.nonSavingCounter + 1) % 256 }

/-- The body shared by the accepting branches of the three field states
(lines 368-373, 378-383, 396-401, ...): `if (bufferIndex == last) state = next;
level = !level; durationBuffer[bufferIndex++] = value;`.  A store outside the
36-element array is undefined behaviour. -/
def saveInterval (s : State) (last next : Nat) (value : Bool) : Except Fault State :=
  if h : s.bufferIndex < BUFFER_SIZE then
    .ok { s with
          state := if s.bufferIndex = last then next else s.state
          level := !s.level
          durationBuffer := Function.update s.durationBuffer ⟨s.bufferIndex, h⟩ value
          bufferIndex := (s.bufferIndex + 1) % 256 }
  else .error .undefinedBehaviour

/-- The three field cases of the switch have the same shape; `last` is the value
`bufferIndex` is compared with and `next` the state entered at that index. -/
def fieldCase (s : State) (last next : Nat) : Except Fault State :=
  if inWindow LOGIC_SHORT s.TCNT0 then saveInterval s last next true
  else if inWindow LOGIC_LONG s.TCNT0 && !s.level then saveInterval s last next false
  else .ok (setSleepState s)

/-- The `switch (state)` of the edge handler (lines 285-469), executed when
`bufferReady` is false. -/
def INT0_switch (s : State) : Except Fault State :=
  match s.state with
  | 0 => .ok { s with state := LEADING_PULSE_STATE }
  | 1 =>
    if inWindow LEADING_PULSE s.TCNT0 then .ok { s with state := LEADING_SPACE_STATE }
    else .ok (setSleepState s)
  | 2 =>
    if inWindow INITIAL_SPACE s.TCNT0 then .ok { s with state := NON_SAVING_STATE }
    else .ok (setSleepState s)
  | 3 =>
    if inWindow LOGIC_SHORT s.TCNT0 then .ok (nonSavingAccept s)
    else if inWindow LOGIC_LONG s.TCNT0 && !s.level then .ok (nonSavingAccept s)
    else .ok (setSleepState s)
  | 4 => fieldCase s 7 NON_SAVING_STATE
  | 5 => fieldCase s 19 COMMAND_STATE
  | 6 => fieldCase s 35 NON_SAVING_STATE
  | 7 =>
    if inWindow FINAL_PULSE s.TCNT0 then
      .ok { s with
            clearBuffer := false
            state := WAIT_STATE
            ovfCounter := 1
            level := true
            bufferIndex := 0
            nonSavingCounter := 0
            bufferReady := true }
    else .ok (setSleepState s)
  | 8 => .ok { s with state := LEADING_PULSE_STATE }
  | _ => .ok s

/-- The handler `ISR(INT0_vect)` (lines 281-473). -/
def INT0_vect (s : State) : Except Fault State :=
  if !s.bufferReady then
    match INT0_switch s with
    | .ok s1 => .ok { s1 with TCNT0 := 0 }
    | .error e => .error e
  else .ok { s with TCNT0 := 0 }

/-- An edge event: the timer register holds `tcnt` ticks when the handler runs. -/
def edge (s : State) (tcnt : Nat) : Except Fault State :=
  INT0_vect { s with TCNT0 := tcnt }

/-- A sequence of edge events, given by the tick count of each. -/
def edges (s : State) (ts : List Nat) : Except Fault State :=
  ts.foldlM edge s

/-! ## Overflow handler `ISR(TIMER0_OVF_vect)` (lines 476-498) -/

/-- The handler `ISR(TIMER0_OVF_vect)`; `ovfCounter` is `uint16_t`. -/
def TIMER0_OVF_vect (s : State) : State :=
  let s1 : State :=
    if s.ovfCounter ≥ NUM_OF_OVFS then
      { s with
        state := SLEEP_STATE
        level := true
        bufferIndex := 0
        nonSavingCounter := 0
        available := false }
    else s
  if s1.ovfCounter ≥ NUM_OF_CLEAR_BUFFER_OVFS s1.clearBTime then
    { s1 with ovfCounter := 1, clearBuffer := true }
  else
    { s1 with ovfCounter := (s1.ovfCounter + 1) % 65536 }

/-! ## `IR_init` (lines 67-114) -/

/-- The loop `for (i = 0; i < BUFFER_SIZE; i++) durationBuffer[i] = 0;` used by
`IR_init` (lines 110-113) and by `IR_available` (lines 188-191). -/
def zeroBuffer (buf : Fin 36 → Bool) : Fin 36 → Bool :=
  (List.finRange BUFFER_SIZE).foldl (fun b i => Function.update b i false) buf

/-- The function `IR_init`; the writes to hardware configuration registers are not
part of the state. -/
def IR_init (clearBufferTime : Nat) (s : State) : State :=
  { s with
    clearBTime := if clearBufferTime < 83 then 83 else clearBufferTime
    durationBuffer := zeroBuffer s.durationBuffer }

/-! ## Repetition registry (lines 50-51, 117-176, 245-256) -/

/-- Read `*(ptr + i)`.  Dereferencing `NULL` or reading outside the allocated block
is undefined behaviour. -/
def load (ptr : Option (List Nat)) (i : Nat) : Except Fault Nat :=
  match ptr with
  | none => .error .undefinedBehaviour
  | some block =>
    match block[i]? with
    | some v => .ok v
    | none => .error .undefinedBehaviour

/-- Write `*(block + i) = v` into an allocated block; a write outside the block is
undefined behaviour. -/
def store (block : List Nat) (i v : Nat) : Except Fault (List Nat) :=
  if i < block.length then .ok (block.set i v) else .error .undefinedBehaviour

/-- The test `*(ptr + 2 * i) == systemCode && *(ptr + 2 * i + 1) == command` of
lines 138 and 250; the second byte is read only when the first one matches. -/
def entryMatches (ptr : Option (List Nat)) (i systemCode command : Nat) :
    Except Fault Bool :=
  match load ptr (2 * i) with
  | .error e => .error e
  | .ok a =>
    if a = systemCode then
      match load ptr (2 * i + 1) with
      | .error e => .error e
      | .ok b => .ok (decide (b = command))
    else .ok false

/-- The loop of `isRepDisabled` (lines 248-254) from index `i` on; `i` is `uint8_t`. -/
def isRepDisabledLoop (ptr : Option (List Nat)) (numOfButtons systemCode command : Nat) :
    Nat → Nat → Except Fault Bool
  | 0, _ => .error .outOfFuel
  | fuel + 1, i =>
    if i < numOfButtons then
      match entryMatches ptr i systemCode command with
      | .error e => .error e
      | .ok true => .ok true
      | .ok false =>
        isRepDisabledLoop ptr numOfButtons systemCode command fuel ((i + 1) % 256)
    else .ok false

/-- The function `isRepDisabled` (lines 245-256).  The counter `i` and the bound
`numOfButtons` are both `uint8_t`, so the loop test fails after at most 255
iterations: 256 evaluations of the test always suffice. -/
def isRepDisabled (s : State) (systemCode command : Nat) : Except Fault Bool :=
  isRepDisabledLoop s.buttonsPtr s.numOfButtons systemCode command 256 0

/-- Result of `realloc(ptr, size)`.  When the allocation succeeds (`ok`) the new
block has `size` bytes and keeps the old contents up to the smaller of the two
sizes; bytes beyond the old contents are unspecified and taken as 0 here (the
caller overwrites them before they are read).  When it fails the result is `NULL`. -/
def realloc (ok : Bool) (ptr : Option (List Nat)) (size : Nat) : Option (List Nat) :=
  if ok then
    match ptr with
    | none => some (List.replicate size 0)
    | some block => some ((block ++ List.replicate size 0).take size)
  else none

/-- Result of `calloc(n, 1)`: a zero-filled block of `n` bytes, or `NULL`. -/
def calloc (ok : Bool) (n : Nat) : Option (List Nat) :=
  if ok then some (List.replicate n 0) else none

/-- The function `IR_disableRepetition` (lines 117-130).  `ok` tells whether the
`realloc` call succeeds.  `numOfButtons++` is `uint8_t` arithmetic; the index
`2 * (numOfButtons - 1)` is `int` arithmetic and is negative when `numOfButtons`
is 0, which addresses memory before the block. -/
def IR_disableRepetition (ok : Bool) (systemCode command : Nat) (s : State) :
    Except Fault State :=
  match isRepDisabled s systemCode command with
  | .error e => .error e
  | .ok true => .ok s
  | .ok false =>
    let n := (s.numOfButtons + 1) % 256
    match realloc ok s.buttonsPtr (2 * n) with
    | none => .ok { s with numOfButtons := n, buttonsPtr := none }
    | some block =>
      if n = 0 then .error .undefinedBehaviour
      else
        match store block (2 * (n - 1)) systemCode with
        | .error e => .error e
        | .ok block1 =>
          match store block1 (2 * (n - 1) + 1) command with
          | .error e => .error e
          | .ok block2 => .ok { s with numOfButtons := n, buttonsPtr := some block2 }

/-- The loop `for (uint8_t j = 0; j < 2 * numOfButtons; j++)
*(tempButtonsPtr + j) = *(buttonsPtr + j);` (lines 144-147).  The bound is an `int`
while `j` wraps at 256, so the loop is given fuel. -/
def copyLoop (src : Option (List Nat)) (numOfButtons : Nat) :
    Nat → Nat → List Nat → Except Fault (List Nat)
  | 0, _, _ => .error .outOfFuel
  | fuel + 1, j, dst =>
    if j < 2 * numOfButtons then
      match load src j with
      | .error e => .error e
      | .ok v =>
        match store dst j v with
        | .error e => .error e
        | .ok dst1 => copyLoop src numOfButtons fuel ((j + 1) % 256) dst1
    else .ok dst

/-- The test `*(temp + 2 * j) != systemCode || *(temp + 2 * j + 1) != command` of
line 160; the second byte is read only when the first one equals `systemCode`. -/
def entryDiffers (temp : List Nat) (j systemCode command : Nat) : Except Fault Bool :=
  match load (some temp) (2 * j) with
  | .error e => .error e
  | .ok a =>
    if a ≠ systemCode then .ok true
    else
      match load (some temp) (2 * j + 1) with
      | .error e => .error e
      | .ok b => .ok (decide (b ≠ command))

/-- The loop of lines 158-166, copying back every entry except the deleted one.
`numOfButtons` is the decremented count; `j` and `k` are `uint8_t`. -/
def copyBackLoop (temp : List Nat) (numOfButtons systemCode command : Nat) :
    Nat → Nat → Nat → List Nat → Except Fault (List Nat)
  | 0, _, _, _ => .error .outOfFuel
  | fuel + 1, j, k, dst =>
    if j < numOfButtons + 1 then
      match entryDiffers temp j systemCode command with
      | .error e => .error e
      | .ok false =>
        copyBackLoop temp numOfButtons systemCode command fuel ((j + 1) % 256) k dst
      | .ok true =>
        match load (some temp) (2 * j) with
        | .error e => .error e
        | .ok a =>
          match store dst (2 * k) a with
          | .error e => .error e
          | .ok dst1 =>
            match load (some temp) (2 * j + 1) with
            | .error e => .error e
            | .ok b =>
              match store dst1 (2 * k + 1) b with
              | .error e => .error e
              | .ok dst2 =>
                copyBackLoop temp numOfButtons systemCode command fuel
                  ((j + 1) % 256) ((k + 1) % 256) dst2
    else .ok dst

/-- Lines 140-171 of `IR_enableRepetition`: what is executed once the entry has
been found.  `ok1` and `ok2` tell whether the two `calloc` calls succeed; `fuel`
bounds the first copy loop.  The second loop has the `int` bound
`numOfButtons + 1 <= 255`, so 256 evaluations of its test suffice. -/
def enableBody (fuel : Nat) (ok1 ok2 : Bool) (systemCode command : Nat) (s : State) :
    Except Fault State :=
  match calloc ok1 (2 * s.numOfButtons) with
  | none => .ok s
  | some temp0 =>
    match copyLoop s.buttonsPtr s.numOfButtons fuel 0 temp0 with
    | .error e => .error e
    | .ok temp =>
      let n := (s.numOfButtons + 255) % 256
      match calloc ok2 (2 * n) with
      | none => .ok { s with numOfButtons := n, buttonsPtr := none }
      | some dst0 =>
        match copyBackLoop temp n systemCode command 256 0 0 dst0 with
        | .error e => .error e
        | .ok dst => .ok { s with numOfButtons := n, buttonsPtr := some dst }

/-- The search loop of `IR_enableRepetition` (lines 136-175) from index `i` on. -/
def enableLoop (fuel : Nat) (ok1 ok2 : Bool) (systemCode command : Nat) (s : State) :
    Nat → Nat → Except Fault State
  | 0, _ => .error .outOfFuel
  | searchFuel + 1, i =>
    if i < s.numOfButtons then
      match entryMatches s.buttonsPtr i systemCode command with
      | .error e => .error e
      | .ok true => enableBody fuel ok1 ok2 systemCode command s
      | .ok false => enableLoop fuel ok1 ok2 systemCode command s searchFuel ((i + 1) % 256)
    else .ok s

/-- The function `IR_enableRepetition` (lines 133-176). -/
def IR_enableRepetition (fuel : Nat) (ok1 ok2 : Bool) (systemCode command : Nat)
    (s : State) : Except Fault State :=
  enableLoop fuel ok1 ok2 systemCode command s 256 0

/-! ## `IR_available` (lines 179-268) -/

/-- The function `writeBit` (lines 258-268).  `++index` is `uint8_t` arithmetic;
`~(1 << n)` is a 16-bit `int` whose bit pattern is `65535 - 2 ^ n`, and the result
of the `&` or `|` is stored back into a `uint8_t`.  Reading `durationBuffer`
outside its 36 elements is undefined behaviour. -/
def writeBit (buf : Fin 36 → Bool) (index offset data : Nat) : Except Fault Nat :=
  let index1 := (index + 1) % 256
  if h : index1 + offset < BUFFER_SIZE then
    if buf ⟨index1 + offset, h⟩ then
      .ok ((data &&& (65535 - (1 <<< ((index1 - 1) / 2)))) % 256)
    else
      .ok ((data ||| (1 <<< ((index1 - 1) / 2))) % 256)
  else .error .undefinedBehaviour

/-- One of the three decoding loops `for (index = 0; index < n * 2; index += 2)
writeBit(index, offset, &field);` (lines 201-214); `indices` lists the values that
`index` takes and the field starts at 0. -/
def decodeField (buf : Fin 36 → Bool) (offset : Nat) (indices : List Nat) :
    Except Fault Nat :=
  indices.foldlM (fun data index => writeBit buf index offset data) 0

/-- Lines 186-193: service a pending buffer-clear request. -/
def serviceClear (s : State) : State :=
  if s.clearBuffer then
    { s with durationBuffer := zeroBuffer s.durationBuffer, clearBuffer := false }
  else s

/-- Lines 240-241: `lastAvailable = available; return available;`. -/
def finishPoll (s : State) : Bool × State :=
  (s.available, { s with lastAvailable := s.available })

/-- The function `IR_available` (lines 179-242).  After the first loop `index` is
8, so `offset` becomes 8; after the second loop `index` is 12, so `offset` becomes
20.  The `&&` chains call `isRepDisabled` only when the operands to its left are
true. -/
def IR_available (s : State) : Except Fault (Bool × State) :=
  let s1 := serviceClear s
  if s1.bufferReady then
    let s2 : State := { s1 with available := true }
    match decodeField s2.durationBuffer 0 [0, 2, 4, 6] with
    | .error e => .error e
    | .ok systemCode =>
      match decodeField s2.durationBuffer 8 [0, 2, 4, 6, 8, 10] with
      | .error e => .error e
      | .ok address =>
        match decodeField s2.durationBuffer 20 [0, 2, 4, 6, 8, 10, 12, 14] with
        | .error e => .error e
        | .ok command =>
          let s3 : State := { s2 with IR := ⟨systemCode, address, command⟩ }
          let accept : Bool × State :=
            finishPoll { s3 with
                         lastSystemCode := s3.IR.systemCode
                         lastCommand := s3.IR.command
                         bufferReady := false }
          if s3.IR.systemCode = s3.lastSystemCode ∧ s3.IR.command = s3.lastCommand ∧
              s3.lastAvailable = true then
            match isRepDisabled s3 s3.IR.systemCode s3.IR.command with
            | .error e => .error e
            | .ok true => .ok (false, { s3 with bufferReady := false })
            | .ok false => .ok accept
          else .ok accept
  else if s1.available then
    match isRepDisabled s1 s1.IR.systemCode s1.IR.command with
    | .error e => .error e
    | .ok true => .ok (false, s1)
    | .ok false => .ok (finishPoll s1)
  else .ok (finishPoll s1)

/-! ## Transmitted frames

A frame is described by the tick counts that the timer register holds at each of
its edges. -/

/-- One transmitted bit: the tick counts of its mark and of its space, each within
the short window (2..5 ticks) or, for the space, the long window (8..11 ticks). -/
def validBit (b : Nat × Nat) : Prop :=
  (2 ≤ b.1 ∧ b.1 ≤ 5) ∧ ((2 ≤ b.2 ∧ b.2 ≤ 5) ∨ (8 ≤ b.2 ∧ b.2 ≤ 11))

instance : DecidablePred validBit := fun b => by
  unfold validBit
  infer_instance

/-- The logical value of a transmitted bit: 1 for a long space, 0 for a short one. -/
def bitValue (b : Nat × Nat) : Bool := decide (8 ≤ b.2)

/-- A transmission: the tick count at its initial edge, the leading mark, the
leading gap, the (mark, space) tick counts of its bits and the final mark. -/
structure Frame where
  first : Nat
  lead : Nat
  gap : Nat
  bits : List (Nat × Nat)
  final : Nat

/-- A valid frame: leading mark of 25..28 ticks, leading gap of 12..15 ticks,
48 valid bits and a final mark of 2..5 ticks. -/
def Frame.valid (f : Frame) : Prop :=
  (25 ≤ f.lead ∧ f.lead ≤ 28) ∧ (12 ≤ f.gap ∧ f.gap ≤ 15) ∧ f.bits.length = 48 ∧
  (∀ b ∈ f.bits, validBit b) ∧ (2 ≤ f.final ∧ f.final ≤ 5)

instance (f : Frame) : Decidable f.valid := by
  unfold Frame.valid
  infer_instance

/-- The edges of the bits of a frame: mark then space for every bit. -/
def bitTicks (bits : List (Nat × Nat)) : List Nat :=
  bits.flatMap fun b => [b.1, b.2]

/-- The tick counts of all edges of a frame, in order. -/
def Frame.ticks (f : Frame) : List Nat :=
  f.first :: f.lead :: f.gap :: (bitTicks f.bits ++ [f.final])

/-- The value of the transmitted bit number `k` (counted from 0). -/
def Frame.bit (f : Frame) (k : Nat) : Bool :=
  bitValue (f.bits.getD k (0, 0))

/-- The number whose binary digits, least significant first, are
`bit 0, ..., bit (width - 1)`. -/
def ofBits (bit : Nat → Bool) : Nat → Nat
  | 0 => 0
  | width + 1 => ofBits bit width + (bit width).toNat * 2 ^ width

/-- The value of the field of `width` bits that starts at transmitted bit `start`,
least significant bit first. -/
def Frame.field (f : Frame) (start width : Nat) : Nat :=
  ofBits (fun k => f.bit (start + k)) width

/-! ## The capture of a frame, bit by bit -/

/-- The two edges of one bit. -/
def stepBit (s : State) (b : Nat × Nat) : Except Fault State :=
  match edge s b.1 with
  | .error e => .error e
  | .ok s1 => edge s1 b.2

/-- Protocol phase of the decoder after `j` bits of a frame. -/
def phaseAt (j : Nat) : Nat :=
  if j < 20 then 3 else if j < 24 then 4 else if j < 26 then 3 else if j < 32 then 5
  else if j < 40 then 6 else if j < 48 then 3 else 7

/-- Value of `nonSavingCounter` after `j` bits of a frame. -/
def counterAt (j : Nat) : Nat :=
  if j < 20 then 2 * j else if j < 24 then 40 else if j < 26 then 40 + 2 * (j - 24)
  else if j < 40 then 44 else if j < 48 then 44 + 2 * (j - 40) else 60

/-- Value of `bufferIndex` after `j` bits of a frame. -/
def indexAt (j : Nat) : Nat :=
  if j < 20 then 0 else if j < 24 then 2 * (j - 20) else if j < 26 then 8
  else if j < 32 then 8 + 2 * (j - 26) else if j < 40 then 20 + 2 * (j - 32) else 36

/-- The transmitted bit whose intervals are stored at buffer entries `i` (mark)
and `i + 1` (space), for even `i`. -/
def frameBitOf (i : Nat) : Nat :=
  if i < 8 then 20 + i / 2 else if i < 20 then 26 + (i - 8) / 2 else 32 + (i - 20) / 2

/-- The buffer contents after the capture of a frame with the given bits: every
mark entry is `true` (short), every space entry is `true` for a short space. -/
def captured (bits : List (Nat × Nat)) : Fin 36 → Bool :=
  fun i => if i.val % 2 = 0 then true else !bitValue (bits.getD (frameBitOf i.val) (0, 0))

/-- The decoder state after the leading gap and `j` bits of a frame, starting the
capture in `s`. -/
def mid (s : State) (bits : List (Nat × Nat)) (j : Nat) : State :=
  { s with
    state := phaseAt j
    nonSavingCounter := counterAt j
    bufferIndex := indexAt j
    level := true
    TCNT0 := 0
    durationBuffer := fun i =>
      if i.val < indexAt j then captured bits i else s.durationBuffer i }

/-- The state after the final mark of a frame whose capture started in `s`. -/
def frameDone (s : State) (f : Frame) : State :=
  { s with
    clearBuffer := false
    state := WAIT_STATE
    ovfCounter := 1
    level := true
    bufferIndex := 0
    nonSavingCounter := 0
    bufferReady := true
    TCNT0 := 0
    durationBuffer := captured f.bits }

/-- What an edge of `tcnt` ticks is accepted as in each phase: a leading mark
(25..28 ticks) in phase 1, a leading gap (12..15) in phase 2, a short interval
(2..5) or, on a space, a long interval (8..11) in phases 3 to 6, and a final mark
(2..5) in phase 7. -/
def accepts (phase : Nat) (level : Bool) (tcnt : Nat) : Bool :=
  match phase with
  | 1 => decide (25 ≤ tcnt ∧ tcnt ≤ 28)
  | 2 => decide (12 ≤ tcnt ∧ tcnt ≤ 15)
  | 7 => decide (2 ≤ tcnt ∧ tcnt ≤ 5)
  | _ => decide (2 ≤ tcnt ∧ tcnt ≤ 5) || (decide (8 ≤ tcnt ∧ tcnt ≤ 11) && !level)

/-! ## What a poll decodes and leaves -/

/-- The buffer entry holding the space of bit `k` of the field that starts at buffer
entry `offset`. -/
def spaceEntry (buf : Fin 36 → Bool) (offset k : Nat) : Bool :=
  if h : 2 * k + 1 + offset < BUFFER_SIZE then buf ⟨2 * k + 1 + offset, h⟩ else false

/-- The field value that decoding yields: bit `k` is the complement of the space
entry of bit `k`. -/
def decoded (buf : Fin 36 → Bool) (offset width : Nat) : Nat :=
  ofBits (fun k => !spaceEntry buf offset k) width

/-- The result structure that `IR_available` writes when a frame is ready: the three
fields decoded from the buffer as left by the clear service. -/
def decodedIR (s : State) : IR_data :=
  ⟨decoded (serviceClear s).durationBuffer 0 4,
   decoded (serviceClear s).durationBuffer 8 6,
   decoded (serviceClear s).durationBuffer 20 8⟩

/-- The state after a poll that accepted a newly decoded frame. -/
def pollAccepted (s : State) : State :=
  { serviceClear s with
    available := true
    IR := decodedIR s
    lastSystemCode := (decodedIR s).systemCode
    lastCommand := (decodedIR s).command
    bufferReady := false
    lastAvailable := true }

/-- The state after a poll that decoded a frame and suppressed it as a repeat. -/
def pollSuppressed (s : State) : State :=
  { serviceClear s with
    available := true
    IR := decodedIR s
    bufferReady := false }

/-- The test of line 221 without its last operand. -/
def sameAsLast (s : State) : Prop :=
  (decodedIR s).systemCode = s.lastSystemCode ∧ (decodedIR s).command = s.lastCommand ∧
  s.lastAvailable = true

instance (s : State) : Decidable (sameAsLast s) := by
  unfold sameAsLast
  infer_instance

/-- The poll number `n` (counted from 0) of a run of consecutive polls with no
other event in between: its return value and the state it leaves. -/
def laterPoll (s : State) : Nat → Except Fault (Bool × State)
  | 0 => IR_available s
  | n + 1 =>
    match IR_available s with
    | .error e => .error e
    | .ok (_, s1) => laterPoll s1 n

/-- The state after `n` consecutive overflow ticks with no other event in between. -/
def overflowTicks (s : State) : Nat → State
  | 0 => s
  | n + 1 => TIMER0_OVF_vect (overflowTicks s n)

/-! ## The registry as a list of pairs -/

/-- The bytes of the block that `ptr` points to (none for `NULL`). -/
def blockBytes (ptr : Option (List Nat)) : List Nat := ptr.getD []

/-- Entry number `j` of the registry block. -/
def entryAt (ptr : Option (List Nat)) (j : Nat) : Nat × Nat :=
  ((blockBytes ptr).getD (2 * j) 0, (blockBytes ptr).getD (2 * j + 1) 0)

/-- The registry is well formed: the count fits its `uint8_t` variable and the block
holds exactly two bytes per entry. -/
def registryOk (s : State) : Prop :=
  s.numOfButtons < 256 ∧ (blockBytes s.buttonsPtr).length = 2 * s.numOfButtons

instance (s : State) : Decidable (registryOk s) := by
  unfold registryOk
  infer_instance

/-- The entries of the registry, in order. -/
def registryEntries (s : State) : List (Nat × Nat) :=
  (List.range s.numOfButtons).map (entryAt s.buttonsPtr)

/-- The pair `(a, b)` is in the Repetition Registry. -/
def registryHas (s : State) (a b : Nat) : Prop := (a, b) ∈ registryEntries s

instance (s : State) (a b : Nat) : Decidable (registryHas s a b) := by
  unfold registryHas
  infer_instance

/-- The number of registry entries equal to the pair `(a, b)`. -/
def occurrences (s : State) (a b : Nat) : Nat :=
  ((registryEntries s).filter fun p => decide (p = (a, b))).length

/-- The bytes of a block that holds the given entries, two bytes per entry. -/
def pack : List (Nat × Nat) → List Nat
  | [] => []
  | p :: ps => p.1 :: p.2 :: pack ps

/-- A state that differs from the initial state only in its registry, which holds
the given entries. -/
def withRegistry (es : List (Nat × Nat)) : State :=
  { initState with numOfButtons := es.length, buttonsPtr := some (pack es) }

/-! ## Events, reachable states and their invariants -/

/-- The events that drive the program: an edge with the tick count read from the
timer, a timer overflow, a poll, and the calls of the three other public
functions (with the outcomes of their allocations and the fuel of the copy loop). -/
inductive Event where
  | edge (tcnt : Nat)
  | overflow
  | poll
  | init (clearBufferTime : Nat)
  | disable (ok : Bool) (systemCode command : Nat)
  | enable (fuel : Nat) (ok1 ok2 : Bool) (systemCode command : Nat)

/-- The state after one event, when the event completes with defined behaviour. -/
def step (s : State) : Event → Except Fault State
  | .edge tcnt => edge s tcnt
  | .overflow => .ok (TIMER0_OVF_vect s)
  | .poll =>
    match IR_available s with
    | .error e => .error e
    | .ok (_, s1) => .ok s1
  | .init clearBufferTime => .ok (IR_init clearBufferTime s)
  | .disable ok systemCode command => IR_disableRepetition ok systemCode command s
  | .enable fuel ok1 ok2 systemCode command =>
    IR_enableRepetition fuel ok1 ok2 systemCode command s

/-- The states reachable from the initial state by any sequence of events. -/
inductive Reachable : State → Prop where
  | init : Reachable initState
  | step (s s1 : State) (e : Event) : Reachable s → step s e = .ok s1 → Reachable s1

/-- How phase, preamble counter and buffer index belong together during a capture.
In the non-saving phase the counter is in one of its three windows and the buffer
holds 0, 8 or 36 entries; each field phase fills its own range of the buffer. -/
def phaseInv (s : State) : Prop :=
  s.state ≤ 8 ∧
  (s.state ≤ 2 ∨ s.state = 8 → s.bufferIndex = 0 ∧ s.nonSavingCounter = 0) ∧
  (s.state = 3 →
    (s.nonSavingCounter < 40 ∧ s.bufferIndex = 0) ∨
    (40 ≤ s.nonSavingCounter ∧ s.nonSavingCounter < 44 ∧ s.bufferIndex = 8) ∨
    (44 ≤ s.nonSavingCounter ∧ s.nonSavingCounter < 60 ∧ s.bufferIndex = 36)) ∧
  (s.state = 4 → s.nonSavingCounter = 40 ∧ s.bufferIndex < 8) ∧
  (s.state = 5 → s.nonSavingCounter = 44 ∧ 8 ≤ s.bufferIndex ∧ s.bufferIndex < 20) ∧
  (s.state = 6 → s.nonSavingCounter = 44 ∧ 20 ≤ s.bufferIndex ∧ s.bufferIndex < 36) ∧
  (s.state = 7 → s.nonSavingCounter = 60 ∧ s.bufferIndex = 36)

/-- The stored result agrees with the pair remembered by `IR_available`. -/
def lastInv (s : State) : Prop :=
  s.IR.systemCode = s.lastSystemCode ∧ s.IR.command = s.lastCommand

/-! ## Concrete frames and states used in the worked examples -/

/-- The frame of the worked example: leading mark of 26 ticks, leading gap of 13
ticks, a preamble of alternating bits, system code bits 1,0,1,1, address bits all 0,
command bits 1,0,0,0,0,0,0,0 and a final mark of 3 ticks (marks and short spaces
last 3 ticks, long spaces 10 ticks). -/
def exampleFrame : Frame where
  first := 0
  lead := 26
  gap := 13
  bits :=
    [(3, 3), (3, 10), (3, 3), (3, 10), (3, 3), (3, 10), (3, 3), (3, 10), (3, 3), (3, 10),
     (3, 3), (3, 10), (3, 3), (3, 10), (3, 3), (3, 10), (3, 3), (3, 10), (3, 3), (3, 10),
     (3, 10), (3, 3), (3, 10), (3, 10),
     (3, 3), (3, 10),
     (3, 3), (3, 3), (3, 3), (3, 3), (3, 3), (3, 3),
     (3, 10), (3, 3), (3, 3), (3, 3), (3, 3), (3, 3), (3, 3), (3, 3),
     (3, 3), (3, 10), (3, 3), (3, 10), (3, 3), (3, 10), (3, 3), (3, 10)]
  final := 3

/-- The example frame with address bits 1,0,1,0,0,0 (address 5) instead of 0; system
code and command are those of the example frame. -/
def otherAddressFrame : Frame where
  first := 0
  lead := 26
  gap := 13
  bits :=
    [(3, 3), (3, 10), (3, 3), (3, 10), (3, 3), (3, 10), (3, 3), (3, 10), (3, 3), (3, 10),
     (3, 3), (3, 10), (3, 3), (3, 10), (3, 3), (3, 10), (3, 3), (3, 10), (3, 3), (3, 10),
     (3, 10), (3, 3), (3, 10), (3, 10),
     (3, 3), (3, 10),
     (3, 10), (3, 3), (3, 10), (3, 3), (3, 3), (3, 3),
     (3, 10), (3, 3), (3, 3), (3, 3), (3, 3), (3, 3), (3, 3), (3, 3),
     (3, 3), (3, 10), (3, 3), (3, 10), (3, 3), (3, 10), (3, 3), (3, 10)]
  final := 3

/-- The state right after the example frame has been captured from the initial
state: frame-ready is set and nothing has been polled yet. -/
def exampleReady : State := frameDone initState exampleFrame

/-- The state after the first edge of a transmission has been seen from the initial
state: the decoder waits for the end of the leading mark. -/
def leadingState : State := { initState with state := LEADING_PULSE_STATE }

/-- The state reached from the initial state by all edges of the example frame
except the last one: the decoder waits for the end of the final mark. -/
def finalPulseState : State := mid initState exampleFrame.bits 48

/-- The initial state after `IR_disableRepetition(13, 1)` with a successful
allocation. -/
def suppressingState : State :=
  { initState with numOfButtons := 1, buttonsPtr := some [13, 1] }

/-- The state in which the example frame has been captured and reported with the
pair (13, 1) in the registry, and the frame with the other address has then been
captured: frame-ready is set and the repeat has not been polled yet. -/
def repeatReady : State :=
  frameDone (pollAccepted (frameDone suppressingState exampleFrame)) otherAddressFrame

/-- The state after `IR_init(65520)` and the first edge of a transmission: the
decoder waits for the end of the leading mark and the idle-tick counter has its
reset value 1. -/
def wrappedIntervalState : State :=
  { IR_init 65520 initState with state := LEADING_PULSE_STATE }

/-- A registry of 255 distinct entries (1, 0), ..., (1, 254). -/
def fullRegistry : State := withRegistry ((List.range 255).map fun j => (1, j))

/-- A registry of 128 distinct entries (1, 0), ..., (1, 127). -/
def halfRegistry : State := withRegistry ((List.range 128).map fun j => (1, j))

/-- The state reached from the initial state by the leading burst and the first 21
bits of the example frame: the decoder is in the system-code field, two entries are
stored and the next edge ends a mark. -/
def fieldMarkState : State := mid initState exampleFrame.bits 21

/-- The state one edge (a mark of 3 ticks) after `fieldMarkState`: three entries are
stored and the next edge ends a space. -/
def fieldSpaceState : State :=
  { fieldMarkState with
    level := false
    bufferIndex := 3
    durationBuffer := Function.update fieldMarkState.durationBuffer ⟨2, by decide⟩ true }

/-- The initial state after two edges of which the second is rejected as a leading
mark (0 ticks): `setSleepState` has left a buffer-clear request pending. -/
def glitchState : State := { initState with clearBuffer := true }

/-- The state `glitchState` after the leading burst and the first 22 bits of the
example frame: the capture is in the system-code field, four entries are stored and
the clear request is still pending. -/
def interruptedCapture : State := mid glitchState exampleFrame.bits 22

/-- The state left by a poll of `interruptedCapture`. -/
def afterClear : State := { serviceClear interruptedCapture with lastAvailable := false }

/-- The edges of the example frame that follow its first 22 bits. -/
def remainingTicks : List Nat :=
  bitTicks (exampleFrame.bits.drop 22) ++ [exampleFrame.final]

/-- The initial state after `IR_disableRepetition(15, 255)` with a successful
allocation and `IR_init(83)`. -/
def lateRegistryState : State := IR_init 83 (withRegistry [(15, 255)])

/-- The state `lateRegistryState` after the example frame, three overflow ticks and
a poll: the poll has zeroed the buffer and reported the pair (15, 255). -/
def latePolled : State :=
  pollAccepted (overflowTicks (frameDone lateRegistryState exampleFrame) 3)

/-- The state `latePolled` after the example frame and three overflow ticks:
frame-ready is set, the buffer holds the example frame and a clear request is
pending. -/
def lateRepeatReady : State := overflowTicks (frameDone latePolled exampleFrame) 3

/-! ## Timing windows -/

theorem inWindow_short_iff (t : Nat) (ht : t < 256) :
    inWindow LOGIC_SHORT t = true ↔ 2 ≤ t ∧ t ≤ 5 := by
  simp only [inWindow, LOGIC_SHORT, TICK, timeRange, NUM_OF_TICKS, Bool.and_eq_true,
    decide_eq_true_eq]
  omega

theorem inWindow_long_iff (t : Nat) (ht : t < 256) :
    inWindow LOGIC_LONG t = true ↔ 8 ≤ t ∧ t ≤ 11 := by
  simp only [inWindow, LOGIC_LONG, TICK, timeRange, NUM_OF_TICKS, Bool.and_eq_true,
    decide_eq_true_eq]
  omega

theorem inWindow_leading_iff (t : Nat) (ht : t < 256) :
    inWindow LEADING_PULSE t = true ↔ 25 ≤ t ∧ t ≤ 28 := by
  simp only [inWindow, LEADING_PULSE, TICK, timeRange, NUM_OF_TICKS, Bool.and_eq_true,
    decide_eq_true_eq]
  omega

theorem inWindow_initial_iff (t : Nat) (ht : t < 256) :
    inWindow INITIAL_SPACE t = true ↔ 12 ≤ t ∧ t ≤ 15 := by
  simp only [inWindow, INITIAL_SPACE, TICK, timeRange, NUM_OF_TICKS, Bool.and_eq_true,
    decide_eq_true_eq]
  omega

theorem inWindow_final_iff (t : Nat) (ht : t < 256) :
    inWindow FINAL_PULSE t = true ↔ 2 ≤ t ∧ t ≤ 5 := by
  simp only [inWindow, FINAL_PULSE, TICK, timeRange, NUM_OF_TICKS, Bool.and_eq_true,
    decide_eq_true_eq]
  omega

/-! ## One edge, one bit -/

theorem INT0_vect_of_switch (s s1 : State) (hr : s.bufferReady = false)
    (h : INT0_switch s = .ok s1) : INT0_vect s = .ok { s1 with TCNT0 := 0 } := by
  simp [INT0_vect, hr, h]

theorem INT0_switch_nonSaving (s : State) (hst : s.state = 3)
    (ht : inWindow LOGIC_SHORT s.TCNT0 = true ∨
      (inWindow LOGIC_LONG s.TCNT0 = true ∧ s.level = false)) :
    INT0_switch s = .ok (nonSavingAccept s) := by
  unfold INT0_switch
  rw [hst]
  rcases ht with h | ⟨h, hl⟩
  · simp [h]
  · simp [h, hl]

theorem INT0_switch_field (s : State) (last next : Nat)
    (hst : (s.state = 4 ∧ last = 7 ∧ next = 3) ∨ (s.state = 5 ∧ last = 19 ∧ next = 6) ∨
      (s.state = 6 ∧ last = 35 ∧ next = 3))
    (hm : inWindow LOGIC_SHORT s.TCNT0 = true) :
    INT0_switch s = saveInterval s last next true := by
  unfold INT0_switch
  rcases hst with ⟨h, rfl, rfl⟩ | ⟨h, rfl, rfl⟩ | ⟨h, rfl, rfl⟩ <;>
    rw [h] <;> simp [fieldCase, hm, NON_SAVING_STATE, COMMAND_STATE]

theorem INT0_switch_field_space (s : State) (last next : Nat)
    (hst : (s.state = 4 ∧ last = 7 ∧ next = 3) ∨ (s.state = 5 ∧ last = 19 ∧ next = 6) ∨
      (s.state = 6 ∧ last = 35 ∧ next = 3))
    (hl : s.level = false) (v : Bool)
    (ht : (inWindow LOGIC_SHORT s.TCNT0 = true ∧ v = true) ∨
      (inWindow LOGIC_SHORT s.TCNT0 = false ∧ inWindow LOGIC_LONG s.TCNT0 = true ∧ v = false)) :
    INT0_switch s = saveInterval s last next v := by
  unfold INT0_switch
  rcases ht with ⟨h1, rfl⟩ | ⟨h1, h2, rfl⟩
  · rcases hst with ⟨h, rfl, rfl⟩ | ⟨h, rfl, rfl⟩ | ⟨h, rfl, rfl⟩ <;>
      rw [h] <;> simp [fieldCase, h1, NON_SAVING_STATE, COMMAND_STATE]
  · rcases hst with ⟨h, rfl, rfl⟩ | ⟨h, rfl, rfl⟩ | ⟨h, rfl, rfl⟩ <;>
      rw [h] <;> simp [fieldCase, h1, h2, hl, NON_SAVING_STATE, COMMAND_STATE]

theorem validBit_mark {b : Nat × Nat} (hb : validBit b) : inWindow LOGIC_SHORT b.1 = true :=
  (inWindow_short_iff b.1 (by have := hb.1; omega)).2 hb.1

theorem validBit_space {b : Nat × Nat} (hb : validBit b) :
    (inWindow LOGIC_SHORT b.2 = true ∧ (!bitValue b) = true) ∨
    (inWindow LOGIC_SHORT b.2 = false ∧ inWindow LOGIC_LONG b.2 = true ∧
      (!bitValue b) = false) := by
  rcases hb.2 with h | h
  · left
    exact ⟨(inWindow_short_iff b.2 (by omega)).2 h, by simp [bitValue]; omega⟩
  · right
    refine ⟨?_, (inWindow_long_iff b.2 (by omega)).2 h, by simp [bitValue]; omega⟩
    rw [Bool.eq_false_iff]
    intro hc
    have := (inWindow_short_iff b.2 (by omega)).1 hc
    omega


theorem buf_step (bits : List (Nat × Nat)) (old : Fin 36 → Bool) (n : Nat)
    (hn : n + 1 < 36) (heven : n % 2 = 0) (v : Bool)
    (hv : v = !bitValue (bits.getD (frameBitOf (n + 1)) (0, 0))) :
    Function.update (Function.update
      (fun i : Fin 36 => if i.val < n then captured bits i else old i)
      ⟨n, by omega⟩ true) ⟨n + 1, hn⟩ v =
    fun i => if i.val < n + 2 then captured bits i else old i := by
  funext i
  simp only [Function.update_apply, Fin.ext_iff]
  by_cases h1 : i.val = n + 1
  · have : i.val < n + 2 := by omega
    have h2 : i.val % 2 ≠ 0 := by omega
    simp [h1, captured, hv]
    intro h; omega
  · by_cases h0 : i.val = n
    · have : i.val < n + 2 := by omega
      have h2 : i.val % 2 = 0 := by omega
      simp [h1, h0, captured, h2, heven]
    · have : i.val < n ↔ i.val < n + 2 := by omega
      simp [h1, h0, this]

set_option maxHeartbeats 4000000 in
theorem stepBit_mid_short (s : State) (bits : List (Nat × Nat)) (j : Nat) (hj : j < 48)
    (hr : s.bufferReady = false) (b : Nat × Nat) (hbj : b = bits.getD j (0, 0))
    (hm : inWindow LOGIC_SHORT b.1 = true) (h1 : inWindow LOGIC_SHORT b.2 = true)
    (h2 : (!bitValue b) = true) :
    stepBit (mid s bits j) b = .ok (mid s bits (j + 1)) := by
  interval_cases j <;>
    simp [stepBit, edge, INT0_vect, INT0_switch, mid, phaseAt, counterAt, indexAt, hr, hm, h1,
      nonSavingAccept, fieldCase, saveInterval, NON_SAVING_STATE, COMMAND_STATE, BUFFER_SIZE,
      SYSTEM_CODE_STATE, ADDRESS_STATE, FINAL_PULSE_STATE] <;>
    first
    | exact buf_step bits s.durationBuffer _ (by decide) rfl _ (hbj ▸ h2.symm)
    | exact (buf_step bits s.durationBuffer 34 (by decide) rfl _ (hbj ▸ h2.symm)).trans
        (funext fun i => if_pos (by have := i.isLt; omega))

set_option maxHeartbeats 4000000 in
theorem stepBit_mid_long (s : State) (bits : List (Nat × Nat)) (j : Nat) (hj : j < 48)
    (hr : s.bufferReady = false) (b : Nat × Nat) (hbj : b = bits.getD j (0, 0))
    (hm : inWindow LOGIC_SHORT b.1 = true) (h1 : inWindow LOGIC_SHORT b.2 = false)
    (h2 : inWindow LOGIC_LONG b.2 = true) (h3 : (!bitValue b) = false) :
    stepBit (mid s bits j) b = .ok (mid s bits (j + 1)) := by
  interval_cases j <;>
    simp [stepBit, edge, INT0_vect, INT0_switch, mid, phaseAt, counterAt, indexAt, hr, hm, h1, h2,
      nonSavingAccept, fieldCase, saveInterval, NON_SAVING_STATE, COMMAND_STATE, BUFFER_SIZE,
      SYSTEM_CODE_STATE, ADDRESS_STATE, FINAL_PULSE_STATE] <;>
    first
    | exact buf_step bits s.durationBuffer _ (by decide) rfl _ (hbj ▸ h3.symm)
    | exact (buf_step bits s.durationBuffer 34 (by decide) rfl _ (hbj ▸ h3.symm)).trans
        (funext fun i => if_pos (by have := i.isLt; omega))

theorem stepBit_mid (s : State) (bits : List (Nat × Nat)) (j : Nat) (hj : j < 48)
    (hr : s.bufferReady = false) (hb : validBit (bits.getD j (0, 0))) :
    stepBit (mid s bits j) (bits.getD j (0, 0)) = .ok (mid s bits (j + 1)) := by
  rcases validBit_space hb with ⟨h1, h2⟩ | ⟨h1, h2, h3⟩
  · exact stepBit_mid_short s bits j hj hr _ rfl (validBit_mark hb) h1 h2
  · exact stepBit_mid_long s bits j hj hr _ rfl (validBit_mark hb) h1 h2 h3

theorem edges_nil (s : State) : edges s [] = .ok s := rfl

theorem edges_cons (s : State) (t : Nat) (ts : List Nat) :
    edges s (t :: ts) = (match edge s t with
      | .error e => .error e
      | .ok s1 => edges s1 ts) := by
  simp only [edges, List.foldlM_cons]
  cases edge s t <;> rfl

theorem edges_bit (s : State) (b : Nat × Nat) (ts : List Nat) :
    edges s (b.1 :: b.2 :: ts) = (match stepBit s b with
      | .error e => .error e
      | .ok s1 => edges s1 ts) := by
  rw [edges_cons]
  unfold stepBit
  cases h : edge s b.1 with
  | error e => rfl
  | ok s1 => simp only [edges_cons]

theorem edges_bits (s : State) (bits : List (Nat × Nat)) (tail : List Nat)
    (hr : s.bufferReady = false) (hlen : bits.length = 48)
    (hv : ∀ b ∈ bits, validBit b) :
    ∀ k j, j + k = 48 →
      edges (mid s bits j) (bitTicks (bits.drop j) ++ tail) = edges (mid s bits 48) tail := by
  intro k
  induction k with
  | zero =>
    intro j hj
    have : j = 48 := by omega
    subst this
    have : bits.drop 48 = [] := List.drop_eq_nil_of_le (by omega)
    simp [this, bitTicks]
  | succ k ih =>
    intro j hj
    have hjlt : j < bits.length := by omega
    have hd : bits.drop j = bits.getD j (0, 0) :: bits.drop (j + 1) := by
      rw [List.getD_eq_getElem _ _ hjlt]
      exact List.drop_eq_getElem_cons hjlt
    have hvb : validBit (bits.getD j (0, 0)) := by
      rw [List.getD_eq_getElem _ _ hjlt]
      exact hv _ (List.getElem_mem _)
    rw [hd]
    simp only [bitTicks, List.flatMap_cons, List.cons_append, List.nil_append]
    rw [edges_bit, stepBit_mid s bits j (by omega) hr hvb]
    exact ih (j + 1) (by omega)

theorem edges_lead (s : State) (f : Frame) (hf : f.valid)
    (hst : s.state = 0 ∨ s.state = 8) (hi : s.bufferIndex = 0) (hc : s.nonSavingCounter = 0)
    (hl : s.level = true) (hr : s.bufferReady = false) (rest : List Nat) :
    edges s (f.first :: f.lead :: f.gap :: rest) = edges (mid s f.bits 0) rest := by
  obtain ⟨hlead, hgap, -, -, -⟩ := hf
  have h1 := (inWindow_leading_iff f.lead (by omega)).2 hlead
  have h2 := (inWindow_initial_iff f.gap (by omega)).2 hgap
  rcases hst with hst | hst <;>
    simp [edges_cons, edge, INT0_vect, INT0_switch, hst, hr, h1, h2, LEADING_PULSE_STATE,
      LEADING_SPACE_STATE, NON_SAVING_STATE, mid, phaseAt, counterAt, indexAt, hi, hc, hl]

theorem edge_final (s : State) (f : Frame) (hf : f.valid) (hr : s.bufferReady = false) :
    edges (mid s f.bits 48) [f.final] = .ok (frameDone s f) := by
  obtain ⟨-, -, -, -, hfin⟩ := hf
  have h1 := (inWindow_final_iff f.final (by omega)).2 hfin
  simp [edges_cons, edges_nil, edge, INT0_vect, INT0_switch, hr, h1, mid, phaseAt, counterAt,
    indexAt, frameDone, WAIT_STATE]

/-- A valid frame, received by a decoder that is idle or waiting after the previous
frame, leaves the decoder in `frameDone`. -/
theorem frame_run (s : State) (f : Frame) (hf : f.valid)
    (hst : s.state = 0 ∨ s.state = 8) (hi : s.bufferIndex = 0) (hc : s.nonSavingCounter = 0)
    (hl : s.level = true) (hr : s.bufferReady = false) :
    edges s f.ticks = .ok (frameDone s f) := by
  unfold Frame.ticks
  rw [edges_lead s f hf hst hi hc hl hr]
  have := edges_bits s f.bits [f.final] hr hf.2.2.1 hf.2.2.2.1 48 0 rfl
  rw [List.drop_zero] at this
  rw [this]
  exact edge_final s f hf hr

/-! ## Decoding -/

theorem writeBit_arith : ∀ k < 8, ∀ data < 2 ^ k,
    (data ||| (1 <<< k)) % 256 = data + 2 ^ k ∧
    (data &&& (65535 - (1 <<< k))) % 256 = data := by
  decide

theorem ofBits_lt (bit : Nat → Bool) (w : Nat) : ofBits bit w < 2 ^ w := by
  induction w with
  | zero => simp [ofBits]
  | succ w ih =>
    simp only [ofBits, pow_succ]
    cases bit w <;> simp <;> omega

/-- One call of `writeBit` for bit `k` of a field whose bits below `k` have been
written: it appends the complement of the space entry as bit `k`. -/
theorem writeBit_ofBits (buf : Fin 36 → Bool) (offset k : Nat) (bit : Nat → Bool)
    (hk : k < 8) (h : 2 * k + 1 + offset < BUFFER_SIZE)
    (hb : bit k = !buf ⟨2 * k + 1 + offset, h⟩) :
    writeBit buf (2 * k) offset (ofBits bit k) = .ok (ofBits bit (k + 1)) := by
  have hidx : (2 * k + 1) % 256 = 2 * k + 1 := by omega
  have hdiv : (2 * k + 1 - 1) / 2 = k := by omega
  obtain ⟨h1, h2⟩ := writeBit_arith k hk (ofBits bit k) (ofBits_lt bit k)
  simp only [writeBit, hidx, hdiv, h, dite_true, ofBits, hb]
  cases buf ⟨2 * k + 1 + offset, h⟩ <;> simp [h1, h2]

theorem writeBit_decoded (buf : Fin 36 → Bool) (offset k : Nat)
    (hk : k < 8) (h : 2 * k + 1 + offset < BUFFER_SIZE) :
    writeBit buf (2 * k) offset (decoded buf offset k) = .ok (decoded buf offset (k + 1)) :=
  writeBit_ofBits buf offset k _ hk h (by simp [spaceEntry, h])

theorem ok_bind {α β : Type} (a : α) (g : α → Except Fault β) :
    ((Except.ok a : Except Fault α) >>= g) = g a := rfl

theorem pure_eq_ok {α : Type} (a : α) : (pure a : Except Fault α) = .ok a := rfl

theorem decodeField_systemCode (buf : Fin 36 → Bool) :
    decodeField buf 0 [0, 2, 4, 6] = .ok (decoded buf 0 4) := by
  have e0 : writeBit buf 0 0 0 = .ok (decoded buf 0 1) :=
    writeBit_decoded buf 0 0 (by decide) (by decide)
  have e1 : writeBit buf 2 0 (decoded buf 0 1) = .ok (decoded buf 0 2) :=
    writeBit_decoded buf 0 1 (by decide) (by decide)
  have e2 : writeBit buf 4 0 (decoded buf 0 2) = .ok (decoded buf 0 3) :=
    writeBit_decoded buf 0 2 (by decide) (by decide)
  have e3 : writeBit buf 6 0 (decoded buf 0 3) = .ok (decoded buf 0 4) :=
    writeBit_decoded buf 0 3 (by decide) (by decide)
  simp only [decodeField, List.foldlM_cons, List.foldlM_nil, e0, e1, e2, e3, ok_bind, pure_eq_ok]

theorem decodeField_address (buf : Fin 36 → Bool) :
    decodeField buf 8 [0, 2, 4, 6, 8, 10] = .ok (decoded buf 8 6) := by
  have e0 : writeBit buf 0 8 0 = .ok (decoded buf 8 1) :=
    writeBit_decoded buf 8 0 (by decide) (by decide)
  have e1 : writeBit buf 2 8 (decoded buf 8 1) = .ok (decoded buf 8 2) :=
    writeBit_decoded buf 8 1 (by decide) (by decide)
  have e2 : writeBit buf 4 8 (decoded buf 8 2) = .ok (decoded buf 8 3) :=
    writeBit_decoded buf 8 2 (by decide) (by decide)
  have e3 : writeBit buf 6 8 (decoded buf 8 3) = .ok (decoded buf 8 4) :=
    writeBit_decoded buf 8 3 (by decide) (by decide)
  have e4 : writeBit buf 8 8 (decoded buf 8 4) = .ok (decoded buf 8 5) :=
    writeBit_decoded buf 8 4 (by decide) (by decide)
  have e5 : writeBit buf 10 8 (decoded buf 8 5) = .ok (decoded buf 8 6) :=
    writeBit_decoded buf 8 5 (by decide) (by decide)
  simp only [decodeField, List.foldlM_cons, List.foldlM_nil, e0, e1, e2, e3, e4, e5, ok_bind,
    pure_eq_ok]

theorem decodeField_command (buf : Fin 36 → Bool) :
    decodeField buf 20 [0, 2, 4, 6, 8, 10, 12, 14] = .ok (decoded buf 20 8) := by
  have e0 : writeBit buf 0 20 0 = .ok (decoded buf 20 1) :=
    writeBit_decoded buf 20 0 (by decide) (by decide)
  have e1 : writeBit buf 2 20 (decoded buf 20 1) = .ok (decoded buf 20 2) :=
    writeBit_decoded buf 20 1 (by decide) (by decide)
  have e2 : writeBit buf 4 20 (decoded buf 20 2) = .ok (decoded buf 20 3) :=
    writeBit_decoded buf 20 2 (by decide) (by decide)
  have e3 : writeBit buf 6 20 (decoded buf 20 3) = .ok (decoded buf 20 4) :=
    writeBit_decoded buf 20 3 (by decide) (by decide)
  have e4 : writeBit buf 8 20 (decoded buf 20 4) = .ok (decoded buf 20 5) :=
    writeBit_decoded buf 20 4 (by decide) (by decide)
  have e5 : writeBit buf 10 20 (decoded buf 20 5) = .ok (decoded buf 20 6) :=
    writeBit_decoded buf 20 5 (by decide) (by decide)
  have e6 : writeBit buf 12 20 (decoded buf 20 6) = .ok (decoded buf 20 7) :=
    writeBit_decoded buf 20 6 (by decide) (by decide)
  have e7 : writeBit buf 14 20 (decoded buf 20 7) = .ok (decoded buf 20 8) :=
    writeBit_decoded buf 20 7 (by decide) (by decide)
  simp only [decodeField, List.foldlM_cons, List.foldlM_nil, e0, e1, e2, e3, e4, e5, e6, e7,
    ok_bind, pure_eq_ok]

/-- Bit `k` of a number given by its binary digits. -/
theorem testBit_ofBits (bit : Nat → Bool) (w k : Nat) :
    (ofBits bit w).testBit k = (decide (k < w) && bit k) := by
  induction w with
  | zero => simp [ofBits]
  | succ w ih =>
    have hlt := ofBits_lt bit w
    simp only [ofBits]
    cases hb : bit w with
    | false =>
      simp only [Bool.toNat_false, zero_mul, add_zero, ih]
      by_cases hk : k = w
      · subst hk; simp [hb]
      · have : (k < w + 1) = (k < w) := by
          apply propext; omega
        simp [this]
    | true =>
      simp only [Bool.toNat_true, one_mul]
      rw [Nat.add_comm]
      rcases Nat.lt_trichotomy k w with h | h | h
      · rw [Nat.testBit_two_pow_add_gt h, ih]
        have : k < w + 1 := by omega
        simp [h, this]
      · subst h
        rw [Nat.testBit_two_pow_add_eq, ih]
        simp [hb]
      · have h2 : 2 ^ w + ofBits bit w < 2 ^ k := by
          have : 2 ^ (w + 1) ≤ 2 ^ k := Nat.pow_le_pow_right (by decide) h
          rw [pow_succ] at this
          omega
        rw [Nat.testBit_lt_two_pow h2]
        have : ¬ k < w + 1 := by omega
        simp [this]

/-- The fields decoded from the buffer captured from a frame are the transmitted
bits 20..23, 26..31 and 32..39. -/
theorem decoded_captured (f : Frame) :
    decoded (captured f.bits) 0 4 = f.field 20 4 ∧
    decoded (captured f.bits) 8 6 = f.field 26 6 ∧
    decoded (captured f.bits) 20 8 = f.field 32 8 := by
  simp [decoded, Frame.field, ofBits, spaceEntry, captured, frameBitOf, Frame.bit, BUFFER_SIZE]

/-! ## Polling -/

theorem serviceClear_bufferReady (s : State) : (serviceClear s).bufferReady = s.bufferReady := by
  unfold serviceClear; split <;> rfl

theorem serviceClear_registry (s : State) (a b : Nat) :
    isRepDisabled (serviceClear s) a b = isRepDisabled s a b := by
  unfold serviceClear; split <;> rfl

theorem serviceClear_last (s : State) :
    (serviceClear s).lastSystemCode = s.lastSystemCode ∧
    (serviceClear s).lastCommand = s.lastCommand ∧
    (serviceClear s).lastAvailable = s.lastAvailable := by
  unfold serviceClear; split <;> exact ⟨rfl, rfl, rfl⟩

theorem serviceClear_of_not (s : State) (h : s.clearBuffer = false) : serviceClear s = s := by
  simp [serviceClear, h]

/-- What `IR_available` does when a frame is ready. -/
theorem IR_available_ready (s : State) (hr : s.bufferReady = true) :
    IR_available s =
      if sameAsLast s then
        match isRepDisabled s (decodedIR s).systemCode (decodedIR s).command with
        | .error e => .error e
        | .ok true => .ok (false, pollSuppressed s)
        | .ok false => .ok (true, pollAccepted s)
      else .ok (true, pollAccepted s) := by
  have hr1 := serviceClear_bufferReady s
  obtain ⟨hl1, hl2, hl3⟩ := serviceClear_last s
  simp only [IR_available, hr1, hr, if_true, decodeField_systemCode, decodeField_address,
    decodeField_command, finishPoll, sameAsLast, decodedIR, hl1, hl2, hl3, pollAccepted,
    pollSuppressed]
  have hb1 : (serviceClear s).buttonsPtr = s.buttonsPtr := by
    unfold serviceClear; split <;> rfl
  have hb2 : (serviceClear s).numOfButtons = s.numOfButtons := by
    unfold serviceClear; split <;> rfl
  simp only [isRepDisabled, hb1, hb2]

theorem IR_available_idle (s : State) (hr : s.bufferReady = false) :
    IR_available s =
      if s.available then
        match isRepDisabled s s.IR.systemCode s.IR.command with
        | .error e => .error e
        | .ok true => .ok (false, serviceClear s)
        | .ok false => .ok (true, { serviceClear s with lastAvailable := true })
      else .ok (false, { serviceClear s with lastAvailable := false }) := by
  have hr1 := serviceClear_bufferReady s
  have hb1 : (serviceClear s).buttonsPtr = s.buttonsPtr := by
    unfold serviceClear; split <;> rfl
  have hb2 : (serviceClear s).numOfButtons = s.numOfButtons := by
    unfold serviceClear; split <;> rfl
  have hb3 : (serviceClear s).available = s.available := by
    unfold serviceClear; split <;> rfl
  have hb4 : (serviceClear s).IR = s.IR := by
    unfold serviceClear; split <;> rfl
  simp only [IR_available, hr1, hr, finishPoll, isRepDisabled, hb1, hb2, hb3, hb4]
  cases h : s.available <;> simp


/-! ## Registry lookups -/

theorem load_of_lt (ptr : Option (List Nat)) (i : Nat) (h : i < (blockBytes ptr).length) :
    load ptr i = .ok ((blockBytes ptr).getD i 0) := by
  cases ptr with
  | none => simp [blockBytes] at h
  | some blk =>
    simp only [blockBytes, Option.getD_some] at h ⊢
    simp [load, List.getD_eq_getElem _ _ h, List.getElem?_eq_getElem h]

theorem entryMatches_of_lt (ptr : Option (List Nat)) (i a b : Nat)
    (h : 2 * i + 1 < (blockBytes ptr).length) :
    entryMatches ptr i a b = .ok (decide (entryAt ptr i = (a, b))) := by
  simp only [entryMatches, load_of_lt ptr (2 * i) (by omega), load_of_lt ptr (2 * i + 1) h, entryAt,
    Prod.mk.injEq]
  split_ifs with h1 <;> simp only [h1, true_and, false_and, decide_False]

theorem isRepDisabledLoop_ok (ptr : Option (List Nat)) (n a b : Nat) (hn : n < 256)
    (hlen : 2 * n ≤ (blockBytes ptr).length) :
    ∀ fuel i, n - i < fuel →
      ∃ r, isRepDisabledLoop ptr n a b fuel i = .ok r ∧
        (r = true ↔ ∃ j, i ≤ j ∧ j < n ∧ entryAt ptr j = (a, b)) := by
  intro fuel
  induction fuel with
  | zero => intro i h; omega
  | succ fuel ih =>
    intro i h
    unfold isRepDisabledLoop
    by_cases hi : i < n
    · rw [if_pos hi, entryMatches_of_lt ptr i a b (by omega)]
      by_cases hm : entryAt ptr i = (a, b)
      · simp only [hm, decide_True]
        exact ⟨true, rfl, by simpa using ⟨i, le_refl i, hi, hm⟩⟩
      · simp only [hm, decide_False]
        have hmod : (i + 1) % 256 = i + 1 := by omega
        rw [hmod]
        obtain ⟨r, hr, hiff⟩ := ih (i + 1) (by omega)
        refine ⟨r, hr, hiff.trans ⟨?_, ?_⟩⟩
        · rintro ⟨j, h1, h2, h3⟩
          exact ⟨j, by omega, h2, h3⟩
        · rintro ⟨j, h1, h2, h3⟩
          have : j ≠ i := by
            rintro rfl
            exact hm h3
          exact ⟨j, by omega, h2, h3⟩
    · rw [if_neg hi]
      refine ⟨false, rfl, ?_⟩
      simp only [Bool.false_eq_true, false_iff, not_exists, not_and]
      intro j h1 h2
      omega

/-- On a well-formed registry `isRepDisabled` returns, and it returns true exactly
for the pairs that the registry contains. -/
theorem isRepDisabled_ok (s : State) (a b : Nat) (hreg : registryOk s) :
    isRepDisabled s a b = .ok (decide (registryHas s a b)) := by
  obtain ⟨r, hr, hiff⟩ := isRepDisabledLoop_ok s.buttonsPtr s.numOfButtons a b hreg.1
    (by rw [hreg.2]) 256 0 (by have := hreg.1; omega)
  rw [isRepDisabled, hr]
  congr 1
  have : registryHas s a b ↔ ∃ j, 0 ≤ j ∧ j < s.numOfButtons ∧ entryAt s.buttonsPtr j = (a, b) := by
    simp [registryHas, registryEntries]
  cases r <;> simp_all

theorem ofBits_congr (f g : Nat → Bool) (w : Nat) (h : ∀ k, k < w → f k = g k) :
    ofBits f w = ofBits g w := by
  induction w with
  | zero => rfl
  | succ w ih =>
    simp only [ofBits]
    rw [ih (fun k hk => h k (by omega)), h w (by omega)]

theorem testBit_decoded (buf : Fin 36 → Bool) (offset w k : Nat) :
    (decoded buf offset w).testBit k = (decide (k < w) && !spaceEntry buf offset k) :=
  testBit_ofBits _ w k

theorem decoded_congr (buf1 buf2 : Fin 36 → Bool) (offset w : Nat) (ho : offset % 2 = 0)
    (h : ∀ i : Fin 36, i.val % 2 = 1 → buf1 i = buf2 i) :
    decoded buf1 offset w = decoded buf2 offset w := by
  apply ofBits_congr
  intro k _
  simp only [spaceEntry]
  split
  · rw [h _ (by simp only []; omega)]
  · rfl

/-- When a frame is ready, the poll stores the decoded fields whatever it returns. -/
theorem IR_available_ready_IR (s : State) (hr : s.bufferReady = true) (r : Bool) (s1 : State)
    (h : IR_available s = .ok (r, s1)) : s1.IR = decodedIR s := by
  rw [IR_available_ready s hr] at h
  split at h
  · split at h
    · cases h
    · cases h; rfl
    · cases h; rfl
  · cases h; rfl

theorem serviceClear_clearBuffer (s : State) : (serviceClear s).clearBuffer = false := by
  unfold serviceClear; split
  · rfl
  · simpa using ‹¬ s.clearBuffer = true›

theorem serviceClear_fields (s : State) :
    (serviceClear s).IR = s.IR ∧ (serviceClear s).numOfButtons = s.numOfButtons ∧
    (serviceClear s).buttonsPtr = s.buttonsPtr ∧ (serviceClear s).clearBTime = s.clearBTime ∧
    (serviceClear s).bufferIndex = s.bufferIndex ∧
    (serviceClear s).nonSavingCounter = s.nonSavingCounter ∧
    (serviceClear s).level = s.level ∧ (serviceClear s).state = s.state ∧
    (serviceClear s).ovfCounter = s.ovfCounter ∧ (serviceClear s).available = s.available ∧
    (serviceClear s).TCNT0 = s.TCNT0 := by
  unfold serviceClear; split <;> simp

/-- The state left by an accepted poll of a captured frame answers every further
poll in the same way and is not changed by it. -/
theorem poll_after_accept (s : State) (f : Frame) (hreg : registryOk s) :
    IR_available (pollAccepted (frameDone s f)) =
      .ok (!decide (registryHas s (f.field 20 4) (f.field 32 8)),
        pollAccepted (frameDone s f)) := by
  have hsc : serviceClear (frameDone s f) = frameDone s f := serviceClear_of_not _ rfl
  obtain ⟨h1, h2, h3⟩ := decoded_captured f
  have hIR : (pollAccepted (frameDone s f)).IR = ⟨f.field 20 4, f.field 26 6, f.field 32 8⟩ := by
    simp only [pollAccepted, decodedIR, hsc]
    simp only [frameDone, h1, h2, h3]
  have hn : (pollAccepted (frameDone s f)).numOfButtons = s.numOfButtons := by
    simp only [pollAccepted, hsc]; rfl
  have hp : (pollAccepted (frameDone s f)).buttonsPtr = s.buttonsPtr := by
    simp only [pollAccepted, hsc]; rfl
  have hreg2 : registryOk (pollAccepted (frameDone s f)) := by
    simpa only [registryOk, hn, hp] using hreg
  have hhas : registryHas (pollAccepted (frameDone s f)) (f.field 20 4) (f.field 32 8) ↔
      registryHas s (f.field 20 4) (f.field 32 8) := by
    simp only [registryHas, registryEntries, hn, hp]
  have hcl : serviceClear (pollAccepted (frameDone s f)) = pollAccepted (frameDone s f) :=
    serviceClear_of_not _ (by simp only [pollAccepted, hsc]; rfl)
  have hav : (pollAccepted (frameDone s f)).available = true := rfl
  rw [IR_available_idle _ rfl, hav, if_pos rfl, hIR, isRepDisabled_ok _ _ _ hreg2, hcl]
  simp only [hhas]
  by_cases h : registryHas s (f.field 20 4) (f.field 32 8)
  · simp [h]
  · simp [h]
    rfl

theorem laterPoll_after_accept (s : State) (f : Frame) (hreg : registryOk s) (n : Nat) :
    laterPoll (pollAccepted (frameDone s f)) n =
      .ok (!decide (registryHas s (f.field 20 4) (f.field 32 8)),
        pollAccepted (frameDone s f)) := by
  induction n with
  | zero => exact poll_after_accept s f hreg
  | succ n ih =>
    simp only [laterPoll, poll_after_accept s f hreg, ih]

/-- The first poll after a frame captured by a decoder whose last poll reported
nothing accepts the frame. -/
theorem first_poll_accepts (s : State) (f : Frame) (hla : s.lastAvailable = false) :
    IR_available (frameDone s f) = .ok (true, pollAccepted (frameDone s f)) := by
  rw [IR_available_ready _ rfl]
  have : ¬ sameAsLast (frameDone s f) := by
    intro h
    have := h.2.2
    simp [frameDone, hla] at this
  rw [if_neg this]

/-! ## Invariants of the reachable states -/

theorem phaseInv_init : phaseInv initState := by
  simp [phaseInv, initState, SLEEP_STATE]

theorem phaseInv_setSleepState (s : State) : phaseInv (setSleepState s) := by
  simp [phaseInv, setSleepState, SLEEP_STATE]

theorem phaseInv_nonSavingAccept (s : State) (h : phaseInv s) (hst : s.state = 3) :
    phaseInv (nonSavingAccept s) := by
  obtain ⟨h8, h0, h3, h4, h5, h6, h7⟩ := h
  have h3 := h3 hst
  by_cases c39 : s.nonSavingCounter = 39
  · simp [phaseInv, nonSavingAccept, c39, SYSTEM_CODE_STATE]
    omega
  by_cases c43 : s.nonSavingCounter = 43
  · simp [phaseInv, nonSavingAccept, c43, ADDRESS_STATE]
    omega
  by_cases c59 : s.nonSavingCounter = 59
  · simp [phaseInv, nonSavingAccept, c59, FINAL_PULSE_STATE]
    omega
  have hm : (match s.nonSavingCounter with
      | 39 => SYSTEM_CODE_STATE
      | 43 => ADDRESS_STATE
      | 59 => FINAL_PULSE_STATE
      | _ => s.state) = 3 := by
    split <;> simp_all
  simp only [phaseInv, nonSavingAccept, hm]
  omega

theorem phaseInv_saveInterval (s s1 : State) (last next : Nat) (v : Bool) (h : phaseInv s)
    (hst : (s.state = 4 ∧ last = 7 ∧ next = 3) ∨ (s.state = 5 ∧ last = 19 ∧ next = 6) ∨
      (s.state = 6 ∧ last = 35 ∧ next = 3))
    (he : saveInterval s last next v = .ok s1) : phaseInv s1 := by
  obtain ⟨h8, h0, h3, h4, h5, h6, h7⟩ := h
  unfold saveInterval at he
  split at he
  · cases he
    unfold phaseInv
    simp only []
    rcases hst with ⟨hs, rfl, rfl⟩ | ⟨hs, rfl, rfl⟩ | ⟨hs, rfl, rfl⟩
    · have := h4 hs
      split <;> omega
    · have := h5 hs
      split <;> omega
    · have := h6 hs
      split <;> omega
  · cases he

theorem phaseInv_of_eq (s s1 : State) (h : phaseInv s) (h1 : s1.state = s.state)
    (h2 : s1.bufferIndex = s.bufferIndex) (h3 : s1.nonSavingCounter = s.nonSavingCounter) :
    phaseInv s1 := by
  unfold phaseInv at *
  rw [h1, h2, h3]
  exact h

theorem phaseInv_INT0_switch (s s1 : State) (h : phaseInv s) (he : INT0_switch s = .ok s1) :
    phaseInv s1 := by
  have h8 := h.1
  have h0 := h.2.1
  have h7 := h.2.2.2.2.2.2
  have hs : s.state = 0 ∨ s.state = 1 ∨ s.state = 2 ∨ s.state = 3 ∨ s.state = 4 ∨ s.state = 5 ∨
      s.state = 6 ∨ s.state = 7 ∨ s.state = 8 := by omega
  unfold INT0_switch at he
  rcases hs with hs | hs | hs | hs | hs | hs | hs | hs | hs <;> rw [hs] at he <;>
    simp only [fieldCase] at he
  · cases he
    have := h0 (by omega)
    simp [phaseInv, LEADING_PULSE_STATE, this]
  · split at he <;> cases he
    · have := h0 (by omega)
      simp [phaseInv, LEADING_SPACE_STATE, this]
    · exact phaseInv_setSleepState s
  · split at he <;> cases he
    · have := h0 (by omega)
      simp [phaseInv, NON_SAVING_STATE, this]
    · exact phaseInv_setSleepState s
  · split at he
    · cases he; exact phaseInv_nonSavingAccept s h hs
    · split at he <;> cases he
      · exact phaseInv_nonSavingAccept s h hs
      · exact phaseInv_setSleepState s
  · split at he
    · exact phaseInv_saveInterval s s1 _ _ _ h (Or.inl ⟨hs, rfl, rfl⟩) he
    · split at he
      · exact phaseInv_saveInterval s s1 _ _ _ h (Or.inl ⟨hs, rfl, rfl⟩) he
      · cases he; exact phaseInv_setSleepState s
  · split at he
    · exact phaseInv_saveInterval s s1 _ _ _ h (Or.inr (Or.inl ⟨hs, rfl, rfl⟩)) he
    · split at he
      · exact phaseInv_saveInterval s s1 _ _ _ h (Or.inr (Or.inl ⟨hs, rfl, rfl⟩)) he
      · cases he; exact phaseInv_setSleepState s
  · split at he
    · exact phaseInv_saveInterval s s1 _ _ _ h (Or.inr (Or.inr ⟨hs, rfl, rfl⟩)) he
    · split at he
      · exact phaseInv_saveInterval s s1 _ _ _ h (Or.inr (Or.inr ⟨hs, rfl, rfl⟩)) he
      · cases he; exact phaseInv_setSleepState s
  · split at he <;> cases he
    · simp [phaseInv, WAIT_STATE]
    · exact phaseInv_setSleepState s
  · cases he
    have := h0 (by omega)
    simp [phaseInv, LEADING_PULSE_STATE, this]

theorem phaseInv_edge (s s1 : State) (t : Nat) (h : phaseInv s) (he : edge s t = .ok s1) :
    phaseInv s1 := by
  unfold edge INT0_vect at he
  split at he
  · split at he
    · rename_i s2 hsw
      cases he
      exact phaseInv_of_eq _ _ (phaseInv_INT0_switch { s with TCNT0 := t } s2
        (phaseInv_of_eq s _ h rfl rfl rfl) hsw)
        rfl rfl rfl
    · cases he
  · cases he
    exact phaseInv_of_eq s _ h rfl rfl rfl

theorem phaseInv_overflow (s : State) (h : phaseInv s) : phaseInv (TIMER0_OVF_vect s) := by
  unfold TIMER0_OVF_vect
  simp only []
  split <;> split <;>
    first
    | exact phaseInv_of_eq s _ h rfl rfl rfl
    | simp [phaseInv, SLEEP_STATE]

/-- The edge handler touches neither the stored result, nor the statics of
`IR_available`, nor the registry, nor the clear interval. -/
theorem edge_frame (s s1 : State) (t : Nat) (he : edge s t = .ok s1) :
    s1.IR = s.IR ∧ s1.lastSystemCode = s.lastSystemCode ∧ s1.lastCommand = s.lastCommand ∧
    s1.lastAvailable = s.lastAvailable ∧ s1.numOfButtons = s.numOfButtons ∧
    s1.buttonsPtr = s.buttonsPtr ∧ s1.clearBTime = s.clearBTime := by
  unfold edge INT0_vect at he
  split at he
  · split at he
    · rename_i s2 hsw
      cases he
      simp only []
      unfold INT0_switch at hsw
      simp only [fieldCase, saveInterval, nonSavingAccept, setSleepState] at hsw
      split at hsw <;> (repeat' split at hsw) <;> cases hsw <;> simp
    · cases he
  · cases he
    simp

theorem overflow_frame (s : State) :
    (TIMER0_OVF_vect s).IR = s.IR ∧ (TIMER0_OVF_vect s).lastSystemCode = s.lastSystemCode ∧
    (TIMER0_OVF_vect s).lastCommand = s.lastCommand ∧
    (TIMER0_OVF_vect s).lastAvailable = s.lastAvailable ∧
    (TIMER0_OVF_vect s).numOfButtons = s.numOfButtons ∧
    (TIMER0_OVF_vect s).buttonsPtr = s.buttonsPtr ∧
    (TIMER0_OVF_vect s).clearBTime = s.clearBTime := by
  unfold TIMER0_OVF_vect
  simp only []
  split <;> split <;> simp

/-- A call of `IR_disableRepetition` changes at most the registry. -/
theorem disable_frame (ok : Bool) (a b : Nat) (s s1 : State)
    (he : IR_disableRepetition ok a b s = .ok s1) :
    s1 = { s with numOfButtons := s1.numOfButtons, buttonsPtr := s1.buttonsPtr } := by
  unfold IR_disableRepetition at he
  simp only [] at he
  repeat' split at he
  all_goals first | (cases he; rfl) | cases he

theorem enableBody_frame (fuel : Nat) (ok1 ok2 : Bool) (a b : Nat) (s s1 : State)
    (he : enableBody fuel ok1 ok2 a b s = .ok s1) :
    s1 = { s with numOfButtons := s1.numOfButtons, buttonsPtr := s1.buttonsPtr } := by
  unfold enableBody at he
  simp only [] at he
  repeat' split at he
  all_goals first | (cases he; rfl) | cases he

theorem enableLoop_frame (fuel : Nat) (ok1 ok2 : Bool) (a b : Nat) (s s1 : State) :
    ∀ searchFuel i, enableLoop fuel ok1 ok2 a b s searchFuel i = .ok s1 →
      s1 = { s with numOfButtons := s1.numOfButtons, buttonsPtr := s1.buttonsPtr } := by
  intro searchFuel
  induction searchFuel with
  | zero => intro i he; cases he
  | succ n ih =>
    intro i he
    unfold enableLoop at he
    split at he
    · split at he
      · cases he
      · exact enableBody_frame fuel ok1 ok2 a b s s1 he
      · exact ih _ he
    · cases he; rfl

/-- A call of `IR_enableRepetition` changes at most the registry. -/
theorem enable_frame (fuel : Nat) (ok1 ok2 : Bool) (a b : Nat) (s s1 : State)
    (he : IR_enableRepetition fuel ok1 ok2 a b s = .ok s1) :
    s1 = { s with numOfButtons := s1.numOfButtons, buttonsPtr := s1.buttonsPtr } :=
  enableLoop_frame fuel ok1 ok2 a b s s1 256 0 he

/-- A poll changes neither phase nor counters nor the registry. -/
theorem poll_frame (s s1 : State) (r : Bool) (he : IR_available s = .ok (r, s1)) :
    s1.state = s.state ∧ s1.bufferIndex = s.bufferIndex ∧
    s1.nonSavingCounter = s.nonSavingCounter ∧ s1.numOfButtons = s.numOfButtons ∧
    s1.buttonsPtr = s.buttonsPtr ∧ s1.clearBTime = s.clearBTime := by
  obtain ⟨-, f2, f3, f4, f5, f6, -, f8, -, -, -⟩ := serviceClear_fields s
  cases hr : s.bufferReady with
  | true =>
    rw [IR_available_ready s hr] at he
    split at he
    · split at he
      · cases he
      · cases he; exact ⟨f8, f5, f6, f2, f3, f4⟩
      · cases he; exact ⟨f8, f5, f6, f2, f3, f4⟩
    · cases he; exact ⟨f8, f5, f6, f2, f3, f4⟩
  | false =>
    rw [IR_available_idle s hr] at he
    split at he
    · split at he
      · cases he
      · cases he; exact ⟨f8, f5, f6, f2, f3, f4⟩
      · cases he; exact ⟨f8, f5, f6, f2, f3, f4⟩
    · cases he; exact ⟨f8, f5, f6, f2, f3, f4⟩

theorem poll_lastInv (s s1 : State) (r : Bool) (h : lastInv s)
    (he : IR_available s = .ok (r, s1)) : lastInv s1 := by
  obtain ⟨f1, -⟩ := serviceClear_fields s
  obtain ⟨l1, l2, -⟩ := serviceClear_last s
  cases hr : s.bufferReady with
  | true =>
    rw [IR_available_ready s hr] at he
    split at he
    · rename_i hsame
      split at he
      · cases he
      · cases he
        exact ⟨hsame.1.trans l1.symm, hsame.2.1.trans l2.symm⟩
      · cases he; exact ⟨rfl, rfl⟩
    · cases he; exact ⟨rfl, rfl⟩
  | false =>
    rw [IR_available_idle s hr] at he
    have hk : lastInv (serviceClear s) := by
      unfold lastInv; rw [f1, l1, l2]; exact h
    split at he
    · split at he
      · cases he
      · cases he; exact hk
      · cases he; exact hk
    · cases he; exact hk

/-- Every reachable state satisfies the phase invariant and stores a result that
agrees with the remembered pair. -/
theorem reachable_inv (s : State) (h : Reachable s) : phaseInv s ∧ lastInv s := by
  induction h with
  | init => exact ⟨phaseInv_init, rfl, rfl⟩
  | step s s1 e _ he ih =>
    obtain ⟨ih1, ih2⟩ := ih
    cases e with
    | edge t =>
      obtain ⟨f1, f2, f3, -⟩ := edge_frame s s1 t he
      refine ⟨phaseInv_edge s s1 t ih1 he, ?_⟩
      unfold lastInv; rw [f1, f2, f3]; exact ih2
    | overflow =>
      cases he
      obtain ⟨f1, f2, f3, -⟩ := overflow_frame s
      refine ⟨phaseInv_overflow s ih1, ?_⟩
      unfold lastInv; rw [f1, f2, f3]; exact ih2
    | poll =>
      simp only [step] at he
      split at he
      · cases he
      · rename_i r s2 hp
        cases he
        obtain ⟨f1, f2, f3, -⟩ := poll_frame s s1 r hp
        exact ⟨phaseInv_of_eq s s1 ih1 f1 f2 f3, poll_lastInv s s1 r ih2 hp⟩
    | init t =>
      cases he
      exact ⟨phaseInv_of_eq s _ ih1 rfl rfl rfl, ih2⟩
    | disable ok a b =>
      have := disable_frame ok a b s s1 he
      rw [this]
      exact ⟨phaseInv_of_eq s _ ih1 rfl rfl rfl, ih2⟩
    | enable fuel ok1 ok2 a b =>
      have := enable_frame fuel ok1 ok2 a b s s1 he
      rw [this]
      exact ⟨phaseInv_of_eq s _ ih1 rfl rfl rfl, ih2⟩

theorem reachable_edges (s s1 : State) (ts : List Nat) (h : Reachable s)
    (he : edges s ts = .ok s1) : Reachable s1 := by
  induction ts generalizing s with
  | nil => cases he; exact h
  | cons t ts ih =>
    rw [edges_cons] at he
    split at he
    · cases he
    · rename_i s2 h2
      exact ih s2 (Reachable.step s s2 (.edge t) h h2) he

/-- The edge handler raises frame-ready only in the final-pulse phase. -/
theorem edge_raises_ready (s s1 : State) (t : Nat) (he : edge s t = .ok s1)
    (hr : s.bufferReady = false) (hr1 : s1.bufferReady = true) : s.state = 7 := by
  unfold edge INT0_vect at he
  simp only [hr] at he
  split at he
  · split at he
    · rename_i s2 hsw
      cases he
      simp only [] at hr1
      unfold INT0_switch at hsw
      simp only [fieldCase, saveInterval, nonSavingAccept, setSleepState] at hsw
      split at hsw <;> first
        | assumption
        | ((repeat' split at hsw) <;> cases hsw <;> simp [hr] at hr1)
    · cases he
  · simp at *

theorem reachable_finalPulseState : Reachable finalPulseState := by
  have hv : exampleFrame.valid := by decide
  have h1 := edges_lead initState exampleFrame hv (Or.inl rfl) rfl rfl rfl rfl
    (bitTicks exampleFrame.bits ++ [])
  have h2 := edges_bits initState exampleFrame.bits [] rfl hv.2.2.1 hv.2.2.2.1 48 0 rfl
  rw [List.drop_zero] at h2
  rw [h2, edges_nil] at h1
  exact reachable_edges initState _ _ Reachable.init h1

/-- A poll of a ready frame that repeats the remembered pair while the pair is in
the registry is suppressed. -/
theorem poll_suppress (s : State) (hr : s.bufferReady = true) (hsame : sameAsLast s)
    (hreg : registryOk s)
    (hhas : registryHas s (decodedIR s).systemCode (decodedIR s).command) :
    IR_available s = .ok (false, pollSuppressed s) := by
  rw [IR_available_ready s hr, if_pos hsame, isRepDisabled_ok s _ _ hreg]
  simp [hhas]

theorem disable_example : IR_disableRepetition true 13 1 initState = .ok suppressingState := rfl

theorem repeatReady_run :
    edges suppressingState exampleFrame.ticks = .ok (frameDone suppressingState exampleFrame) ∧
    IR_available (frameDone suppressingState exampleFrame) =
      .ok (true, pollAccepted (frameDone suppressingState exampleFrame)) ∧
    edges (pollAccepted (frameDone suppressingState exampleFrame)) otherAddressFrame.ticks =
      .ok repeatReady ∧
    IR_available repeatReady = .ok (false, pollSuppressed repeatReady) := by
  refine ⟨frame_run _ _ (by decide) (Or.inl rfl) rfl rfl rfl rfl, first_poll_accepts _ _ rfl,
    frame_run _ _ (by decide) (Or.inr rfl) rfl rfl rfl rfl,
    poll_suppress _ rfl (by decide) (by decide) (by decide)⟩

theorem reachable_repeatReady : Reachable repeatReady := by
  obtain ⟨h1, h2, h3, -⟩ := repeatReady_run
  have r0 : Reachable suppressingState :=
    Reachable.step initState _ (.disable true 13 1) Reachable.init disable_example
  have r1 := reachable_edges _ _ _ r0 h1
  have r2 : Reachable (pollAccepted (frameDone suppressingState exampleFrame)) :=
    Reachable.step _ _ .poll r1 (by simp only [step, h2])
  exact reachable_edges _ _ _ r2 h3

/-- With a clear interval of 65520 or more the sum `clearBTime + 16` wraps and the
clear threshold is 0. -/
theorem clear_threshold_wraps (t : Nat) (h1 : 65520 ≤ t) (h2 : t < 65536) :
    NUM_OF_CLEAR_BUFFER_OVFS t = 0 := by
  simp only [NUM_OF_CLEAR_BUFFER_OVFS, F_CPU]
  omega

/-- Without the wrap the clear threshold is at least 3 once the interval has been
raised to the floor of 83. -/
theorem clear_threshold_ge (t : Nat) (h1 : 83 ≤ t) (h2 : t < 65520) :
    3 ≤ NUM_OF_CLEAR_BUFFER_OVFS t := by
  simp only [NUM_OF_CLEAR_BUFFER_OVFS, F_CPU]
  omega

theorem overflow_counts (u : State) (h3 : u.ovfCounter < 3)
    (hN : u.ovfCounter < NUM_OF_CLEAR_BUFFER_OVFS u.clearBTime) :
    TIMER0_OVF_vect u = { u with ovfCounter := u.ovfCounter + 1 } := by
  have h1 : ¬ (u.ovfCounter ≥ NUM_OF_OVFS) := by simp only [NUM_OF_OVFS]; omega
  have h2 : ¬ (u.ovfCounter ≥ NUM_OF_CLEAR_BUFFER_OVFS u.clearBTime) := by omega
  have h4 : (u.ovfCounter + 1) % 65536 = u.ovfCounter + 1 := by omega
  simp only [TIMER0_OVF_vect, if_neg h1, if_neg h2, h4]

theorem overflow_resets (u : State) (h3 : 3 ≤ u.ovfCounter) :
    (TIMER0_OVF_vect u).state = SLEEP_STATE ∧ (TIMER0_OVF_vect u).bufferIndex = 0 ∧
    (TIMER0_OVF_vect u).nonSavingCounter = 0 ∧ (TIMER0_OVF_vect u).available = false := by
  have h1 : u.ovfCounter ≥ NUM_OF_OVFS := h3
  simp only [TIMER0_OVF_vect, if_pos h1]
  split <;> exact ⟨rfl, rfl, rfl, rfl⟩

/-- Silence timeout for every clear interval below 65520: three overflow ticks,
starting with the idle-tick counter at 1, reset the decoder to Idle. -/
theorem silence_timeout_without_wrap (s : State) (clearBufferTime : Nat)
    (ht : clearBufferTime < 65520) (hc : s.clearBTime = (IR_init clearBufferTime s).clearBTime)
    (ho : s.ovfCounter = 1) :
    (overflowTicks s 3).state = SLEEP_STATE ∧ (overflowTicks s 3).bufferIndex = 0 ∧
    (overflowTicks s 3).nonSavingCounter = 0 ∧ (overflowTicks s 3).available = false := by
  have hb : 83 ≤ s.clearBTime ∧ s.clearBTime < 65520 := by
    rw [hc]; simp only [IR_init]; split <;> omega
  have hN := clear_threshold_ge s.clearBTime hb.1 hb.2
  have e1 := overflow_counts s (by omega) (by omega)
  have e2 := overflow_counts { s with ovfCounter := s.ovfCounter + 1 }
    (by simp only []; omega) (by simp only []; omega)
  have h3 : overflowTicks s 3 = TIMER0_OVF_vect (TIMER0_OVF_vect (TIMER0_OVF_vect s)) := rfl
  rw [h3, e1, e2]
  exact overflow_resets _ (by simp only []; omega)

theorem overflow_requests_clear (u : State) (h3 : u.ovfCounter < 3)
    (hN : NUM_OF_CLEAR_BUFFER_OVFS u.clearBTime ≤ u.ovfCounter) :
    TIMER0_OVF_vect u = { u with ovfCounter := 1, clearBuffer := true } := by
  have h1 : ¬ (u.ovfCounter ≥ NUM_OF_OVFS) := by simp only [NUM_OF_OVFS]; omega
  have h2 : u.ovfCounter ≥ NUM_OF_CLEAR_BUFFER_OVFS u.clearBTime := hN
  simp only [TIMER0_OVF_vect, if_neg h1, if_pos h2]

/-! ## The registry block as a list of pairs -/

theorem pack_length (es : List (Nat × Nat)) : (pack es).length = 2 * es.length := by
  induction es with
  | nil => rfl
  | cons p ps ih => simp only [pack, List.length_cons, ih]; omega

theorem pack_getD (es : List (Nat × Nat)) :
    ∀ j, (pack es).getD (2 * j) 0 = (es.getD j (0, 0)).1 ∧
      (pack es).getD (2 * j + 1) 0 = (es.getD j (0, 0)).2 := by
  induction es with
  | nil => intro j; simp [pack]
  | cons p ps ih =>
    intro j
    cases j with
    | zero => simp [pack]
    | succ j =>
      have h1 : 2 * (j + 1) = (2 * j) + 1 + 1 := by omega
      have h2 : 2 * (j + 1) + 1 = (2 * j + 1) + 1 + 1 := by omega
      rw [h1]
      simp only [pack, List.getD_cons_succ]
      exact ih j

theorem pack_append (es fs : List (Nat × Nat)) : pack (es ++ fs) = pack es ++ pack fs := by
  induction es with
  | nil => rfl
  | cons p ps ih => simp [pack, ih]

theorem pack_set (es : List (Nat × Nat)) :
    ∀ k x y, ((pack es).set (2 * k) x).set (2 * k + 1) y = pack (es.set k (x, y)) := by
  induction es with
  | nil => intro k x y; simp [pack]
  | cons p ps ih =>
    intro k x y
    cases k with
    | zero => simp [pack]
    | succ k =>
      have h1 : 2 * (k + 1) = (2 * k) + 1 + 1 := by omega
      have h2 : 2 * (k + 1) + 1 = (2 * k + 1) + 1 + 1 := by omega
      rw [h1]
      simp only [pack, List.set_cons_succ]
      rw [ih k x y]

theorem entryAt_pack (es : List (Nat × Nat)) (j : Nat) :
    entryAt (some (pack es)) j = es.getD j (0, 0) := by
  obtain ⟨h1, h2⟩ := pack_getD es j
  simp only [entryAt, blockBytes, Option.getD_some, h1, h2]

/-- The entries of a registry whose block packs `es` are `es`. -/
theorem registryEntries_pack (s : State) (es : List (Nat × Nat))
    (hn : s.numOfButtons = es.length) (hp : s.buttonsPtr = some (pack es)) :
    registryEntries s = es := by
  simp only [registryEntries, hn, hp]
  apply List.ext_getElem
  · simp
  · intro i h1 h2
    simp only [List.getElem_map, List.getElem_range, entryAt_pack]
    exact List.getD_eq_getElem _ _ h2

/-- The block of a well-formed registry packs its entries. -/
theorem pack_registryEntries (s : State) (h : registryOk s) :
    pack (registryEntries s) = blockBytes s.buttonsPtr := by
  apply List.ext_getElem
  · rw [pack_length, h.2]; simp [registryEntries]
  · intro i h1 h2
    have hlen : (registryEntries s).length = s.numOfButtons := by simp [registryEntries]
    have hi : i / 2 < s.numOfButtons := by
      rw [pack_length, hlen] at h1; omega
    have hg : (registryEntries s).getD (i / 2) (0, 0) = entryAt s.buttonsPtr (i / 2) := by
      rw [List.getD_eq_getElem _ _ (by rw [hlen]; exact hi)]
      simp [registryEntries]
    obtain ⟨e1, e2⟩ := pack_getD (registryEntries s) (i / 2)
    rw [hg] at e1 e2
    rw [← List.getD_eq_getElem _ 0 h1, ← List.getD_eq_getElem _ 0 h2]
    rcases Nat.mod_two_eq_zero_or_one i with hm | hm
    · have : i = 2 * (i / 2) := by omega
      rw [this, e1]
      simp only [entryAt]
    · have : i = 2 * (i / 2) + 1 := by omega
      rw [this, e2]
      simp only [entryAt]

theorem registryOk_withRegistry (es : List (Nat × Nat)) (h : es.length < 256) :
    registryOk (withRegistry es) := by
  simp [registryOk, withRegistry, blockBytes, pack_length, h]

theorem registryEntries_withRegistry (es : List (Nat × Nat)) :
    registryEntries (withRegistry es) = es :=
  registryEntries_pack _ es rfl rfl

theorem realloc_grow (ptr : Option (List Nat)) (n : Nat)
    (h : (blockBytes ptr).length = 2 * n) :
    realloc true ptr (2 * (n + 1)) = some (blockBytes ptr ++ [0, 0]) := by
  cases ptr with
  | none =>
    have : n = 0 := by simp [blockBytes] at h; omega
    subst this
    rfl
  | some blk =>
    simp only [blockBytes, Option.getD_some] at h ⊢
    simp only [realloc, if_true]
    congr 1
    have h2 : 2 * (n + 1) = blk.length + 2 := by omega
    rw [h2, List.take_append_eq_append_take]
    simp [List.take_of_length_le]

theorem store_pair (es : List (Nat × Nat)) (k x y : Nat) (hk : k < es.length) :
    store (pack es) (2 * k) x = .ok ((pack es).set (2 * k) x) ∧
    store ((pack es).set (2 * k) x) (2 * k + 1) y = .ok (pack (es.set k (x, y))) := by
  have hl := pack_length es
  constructor
  · simp only [store]
    rw [if_pos (by omega)]
  · simp only [store, List.length_set]
    rw [if_pos (by omega), pack_set]

/-- Disabling a pair that the registry holds changes nothing, whatever the
allocator does. -/
theorem disable_present (ok : Bool) (a b : Nat) (s : State) (hreg : registryOk s)
    (hhas : registryHas s a b) : IR_disableRepetition ok a b s = .ok s := by
  simp [IR_disableRepetition, isRepDisabled_ok s a b hreg, hhas]

/-- Disabling a pair that a registry of fewer than 255 entries does not hold, with a
successful allocation, appends the pair. -/
theorem disable_absent (a b : Nat) (s : State) (hreg : registryOk s)
    (hno : ¬ registryHas s a b) (hn : s.numOfButtons < 255) :
    IR_disableRepetition true a b s = .ok { s with
      numOfButtons := s.numOfButtons + 1
      buttonsPtr := some (pack (registryEntries s ++ [(a, b)])) } := by
  have hmod : (s.numOfButtons + 1) % 256 = s.numOfButtons + 1 := by omega
  have hlen : (registryEntries s).length = s.numOfButtons := by simp [registryEntries]
  have hblk : blockBytes s.buttonsPtr ++ [0, 0] = pack (registryEntries s ++ [(0, 0)]) := by
    rw [pack_append, pack_registryEntries s hreg]; rfl
  have hk : s.numOfButtons < (registryEntries s ++ [(0, 0)]).length := by
    simp [hlen]
  obtain ⟨e1, e2⟩ := store_pair (registryEntries s ++ [(0, 0)]) s.numOfButtons a b hk
  have hset : (registryEntries s ++ [(0, 0)]).set s.numOfButtons (a, b) =
      registryEntries s ++ [(a, b)] := by
    rw [← hlen, List.set_append_right _ _ (le_refl _)]
    simp
  simp only [IR_disableRepetition, isRepDisabled_ok s a b hreg, hno, decide_False, hmod,
    realloc_grow s.buttonsPtr s.numOfButtons hreg.2, hblk, Nat.add_sub_cancel, e1, e2, hset]
  simp

theorem filter_eq_length_of_not_mem (l : List (Nat × Nat)) (x : Nat × Nat) (h : x ∉ l) :
    (l.filter fun p => decide (p = x)).length = 0 := by
  induction l with
  | nil => rfl
  | cons p ps ih =>
    have hp : p ≠ x := fun e => h (e ▸ List.mem_cons_self _ _)
    have hps : x ∉ ps := fun e => h (List.mem_cons_of_mem _ e)
    simp [List.filter_cons, hp, ih hps]

theorem filter_eq_length_of_nodup (l : List (Nat × Nat)) (x : Nat × Nat) (hnd : l.Nodup)
    (h : x ∈ l) : (l.filter fun p => decide (p = x)).length = 1 := by
  induction l with
  | nil => cases h
  | cons p ps ih =>
    rw [List.nodup_cons] at hnd
    by_cases hp : p = x
    · subst hp
      have := filter_eq_length_of_not_mem ps p hnd.1
      simp [List.filter_cons, this]
    · have hps : x ∈ ps := by
        rcases List.mem_cons.1 h with e | e
        · exact absurd e.symm hp
        · exact e
      simp [List.filter_cons, hp, ih hnd.2 hps]

/-! ## `IR_enableRepetition` -/

/-- On a well-formed registry the search loop of `IR_enableRepetition` runs the
removal when the pair is present and returns the unchanged state when it is not. -/
theorem enableLoop_search (fuel : Nat) (ok1 ok2 : Bool) (a b : Nat) (s : State)
    (hreg : registryOk s) :
    ∀ searchFuel i, s.numOfButtons - i < searchFuel →
      ((∃ j, i ≤ j ∧ j < s.numOfButtons ∧ entryAt s.buttonsPtr j = (a, b)) →
        enableLoop fuel ok1 ok2 a b s searchFuel i = enableBody fuel ok1 ok2 a b s) ∧
      ((¬ ∃ j, i ≤ j ∧ j < s.numOfButtons ∧ entryAt s.buttonsPtr j = (a, b)) →
        enableLoop fuel ok1 ok2 a b s searchFuel i = .ok s) := by
  intro searchFuel
  induction searchFuel with
  | zero => intro i h; omega
  | succ n ih =>
    intro i h
    unfold enableLoop
    by_cases hi : i < s.numOfButtons
    · rw [if_pos hi, entryMatches_of_lt s.buttonsPtr i a b (by have := hreg.2; omega)]
      by_cases hm : entryAt s.buttonsPtr i = (a, b)
      · simp only [hm, decide_True]
        exact ⟨fun _ => trivial, fun hno => absurd ⟨i, le_refl i, hi, hm⟩ hno⟩
      · simp only [hm, decide_False]
        have hmod : (i + 1) % 256 = i + 1 := by have := hreg.1; omega
        rw [hmod]
        have hiff : (∃ j, i + 1 ≤ j ∧ j < s.numOfButtons ∧ entryAt s.buttonsPtr j = (a, b)) ↔
            (∃ j, i ≤ j ∧ j < s.numOfButtons ∧ entryAt s.buttonsPtr j = (a, b)) := by
          constructor
          · rintro ⟨j, h1, h2, h3⟩
            exact ⟨j, by omega, h2, h3⟩
          · rintro ⟨j, h1, h2, h3⟩
            have : j ≠ i := by
              rintro rfl
              exact hm h3
            exact ⟨j, by omega, h2, h3⟩
        rw [← hiff]
        exact ih (i + 1) (by omega)
    · rw [if_neg hi]
      refine ⟨?_, fun _ => rfl⟩
      rintro ⟨j, h1, h2, -⟩
      omega

theorem registryHas_iff (s : State) (a b : Nat) :
    registryHas s a b ↔ ∃ j, 0 ≤ j ∧ j < s.numOfButtons ∧ entryAt s.buttonsPtr j = (a, b) := by
  simp [registryHas, registryEntries]

/-- Enabling a pair that the registry does not hold changes nothing. -/
theorem enable_absent (fuel : Nat) (ok1 ok2 : Bool) (a b : Nat) (s : State)
    (hreg : registryOk s) (hno : ¬ registryHas s a b) :
    IR_enableRepetition fuel ok1 ok2 a b s = .ok s := by
  rw [IR_enableRepetition]
  exact (enableLoop_search fuel ok1 ok2 a b s hreg 256 0 (by have := hreg.1; omega)).2
    (by rwa [← registryHas_iff])

/-- Enabling a pair that the registry holds runs the removal. -/
theorem enable_present (fuel : Nat) (ok1 ok2 : Bool) (a b : Nat) (s : State)
    (hreg : registryOk s) (hhas : registryHas s a b) :
    IR_enableRepetition fuel ok1 ok2 a b s = enableBody fuel ok1 ok2 a b s := by
  rw [IR_enableRepetition]
  exact (enableLoop_search fuel ok1 ok2 a b s hreg 256 0 (by have := hreg.1; omega)).1
    (by rwa [← registryHas_iff])

/-- When the first `calloc` fails the removal does nothing. -/
theorem enableBody_alloc_fails (fuel : Nat) (ok2 : Bool) (a b : Nat) (s : State) :
    enableBody fuel false ok2 a b s = .ok s := rfl

/-- The first copy loop never ends when the block has 256 bytes or more: the
`uint8_t` index stays below the bound. -/
theorem copyLoop_diverges (src : List Nat) (n : Nat) (hlen : src.length = 2 * n)
    (hn : 128 ≤ n) :
    ∀ fuel j dst, j < 256 → dst.length = 2 * n →
      copyLoop (some src) n fuel j dst = .error .outOfFuel := by
  intro fuel
  induction fuel with
  | zero => intro j dst _ _; rfl
  | succ fuel ih =>
    intro j dst hj hd
    unfold copyLoop
    rw [if_pos (by omega), load_of_lt (some src) j (by simp [blockBytes]; omega)]
    simp only [store]
    rw [if_pos (by omega)]
    exact ih _ _ (Nat.mod_lt _ (by decide)) (by simp [hd])

/-- With fewer than 128 entries the first copy loop copies the whole block. -/
theorem copyLoop_copies (src : List Nat) (n : Nat) (hlen : src.length = 2 * n)
    (hn : n < 128) :
    ∀ fuel j dst, 2 * n - j < fuel → dst.length = 2 * n → j ≤ 2 * n →
      dst.take j = src.take j →
      copyLoop (some src) n fuel j dst = .ok src := by
  intro fuel
  induction fuel with
  | zero => intro j dst h; omega
  | succ fuel ih =>
    intro j dst hf hd hj ht
    unfold copyLoop
    by_cases hlt : j < 2 * n
    · rw [if_pos hlt, load_of_lt (some src) j (by simp [blockBytes]; omega)]
      simp only [store]
      rw [if_pos (by omega)]
      have hmod : (j + 1) % 256 = j + 1 := by omega
      rw [hmod]
      apply ih (j + 1) _ (by omega) (by simp [hd]) (by omega)
      have hs : src[j]? = some (src.getD j 0) := by
        rw [List.getD_eq_getElem _ _ (by omega), List.getElem?_eq_getElem]
      rw [List.take_succ, List.take_succ, List.set_take, ht,
        List.getElem?_set_self (by omega), hs,
        List.set_eq_of_length_le (by simp [List.length_take])]
      rfl
    · rw [if_neg hlt]
      have : j = 2 * n := by omega
      subst this
      rw [← hd, List.take_length, hd, ← hlen, List.take_length] at ht
      rw [ht]

theorem load_pack (es : List (Nat × Nat)) (j : Nat) (hj : j < es.length) :
    load (some (pack es)) (2 * j) = .ok (es.getD j (0, 0)).1 ∧
    load (some (pack es)) (2 * j + 1) = .ok (es.getD j (0, 0)).2 := by
  have hl := pack_length es
  obtain ⟨h1, h2⟩ := pack_getD es j
  constructor
  · rw [load_of_lt _ _ (by simp only [blockBytes, Option.getD_some]; omega)]
    simp only [blockBytes, Option.getD_some, h1]
  · rw [load_of_lt _ _ (by simp only [blockBytes, Option.getD_some]; omega)]
    simp only [blockBytes, Option.getD_some, h2]

theorem entryDiffers_pack (es : List (Nat × Nat)) (j a b : Nat) (hj : j < es.length) :
    entryDiffers (pack es) j a b = .ok (decide (es.getD j (0, 0) ≠ (a, b))) := by
  obtain ⟨h1, h2⟩ := load_pack es j hj
  simp only [entryDiffers, h1, h2]
  rcases hp : es.getD j (0, 0) with ⟨x, y⟩
  by_cases hx : x = a
  · subst hx
    simp
  · simp [hx]

/-- The second loop of the removal writes the entries that differ from the pair,
in order, from position `k` of the new block on. -/
theorem copyBackLoop_filters (es : List (Nat × Nat)) (n a b : Nat)
    (hes : es.length = n + 1) (hn : n + 1 < 256) :
    ∀ fuel j k ds, n + 1 - j < fuel → j ≤ n + 1 → k ≤ j → ds.length = n →
      k + ((es.drop j).filter fun p => decide (p ≠ (a, b))).length ≤ n →
      copyBackLoop (pack es) n a b fuel j k (pack ds) =
        .ok (pack (ds.take k ++ ((es.drop j).filter fun p => decide (p ≠ (a, b))) ++
          ds.drop (k + ((es.drop j).filter fun p => decide (p ≠ (a, b))).length))) := by
  intro fuel
  induction fuel with
  | zero => intro j k ds h; omega
  | succ fuel ih =>
    intro j k ds hf hj hk hds hcap
    unfold copyBackLoop
    by_cases hlt : j < n + 1
    · have hjl : j < es.length := by omega
      have hd : es.drop j = es.getD j (0, 0) :: es.drop (j + 1) := by
        rw [List.getD_eq_getElem _ _ hjl]
        exact List.drop_eq_getElem_cons hjl
      have hmj : (j + 1) % 256 = j + 1 := by omega
      obtain ⟨l1, l2⟩ := load_pack es j hjl
      have hdiff := entryDiffers_pack es j a b hjl
      rw [if_pos hlt, hdiff, hd]
      generalize es.getD j (0, 0) = e at l1 l2 hd hcap ⊢
      rw [hd] at hcap
      by_cases hne : e ≠ (a, b)
      · have hfil : ((e :: es.drop (j + 1)).filter fun p => decide (p ≠ (a, b))) =
            e :: ((es.drop (j + 1)).filter fun p => decide (p ≠ (a, b))) := by
          rw [List.filter_cons]
          simp [hne]
        rw [hfil] at hcap ⊢
        simp only [List.length_cons] at hcap ⊢
        have hkl : k < ds.length := by omega
        have hmk : (k + 1) % 256 = k + 1 := by omega
        obtain ⟨s1, s2⟩ := store_pair ds k e.1 e.2 hkl
        have hdec : decide (e ≠ (a, b)) = true := by simpa using hne
        simp only [hdec, l1, l2, s1, s2, hmj, hmk]
        rw [ih (j + 1) (k + 1) _ (by omega) (by omega) (by omega) (by simp [hds]) (by omega)]
        congr 2
        have e1 : List.take (k + 1) (ds.set k e) = List.take k ds ++ [e] := by
          rw [List.take_succ, List.set_take, List.getElem?_set_self hkl,
            List.set_eq_of_length_le (by simp [List.length_take])]
          rfl
        have e2 : ∀ m, List.drop (k + 1 + m) (ds.set k e) = List.drop (k + (m + 1)) ds := by
          intro m
          rw [List.drop_set_of_lt _ _ (by omega)]
          congr 1
          omega
        rw [e1, e2]
        simp
      · have hfil : ((e :: es.drop (j + 1)).filter fun p => decide (p ≠ (a, b))) =
            ((es.drop (j + 1)).filter fun p => decide (p ≠ (a, b))) := by
          rw [List.filter_cons]
          simp [hne]
        rw [hfil] at hcap ⊢
        have hdec : decide (e ≠ (a, b)) = false := by simpa using hne
        simp only [hdec, hmj]
        exact ih (j + 1) k ds (by omega) (by omega) (by omega) hds hcap
    · have hj2 : es.drop j = [] := List.drop_eq_nil_of_le (by omega)
      rw [if_neg hlt, hj2]
      simp

theorem pack_replicate (n : Nat) : pack (List.replicate n (0, 0)) = List.replicate (2 * n) 0 := by
  induction n with
  | zero => rfl
  | succ n ih =>
    have : 2 * (n + 1) = 2 * n + 1 + 1 := by omega
    rw [this]
    simp only [List.replicate_succ, pack, ih]

theorem filter_ne_length (l : List (Nat × Nat)) (x : Nat × Nat) :
    (l.filter fun p => decide (p ≠ x)).length + (l.filter fun p => decide (p = x)).length =
      l.length := by
  induction l with
  | nil => rfl
  | cons p ps ih =>
    by_cases hp : p = x
    · simp [List.filter_cons, hp] at ih ⊢
      omega
    · simp [List.filter_cons, hp] at ih ⊢
      omega

/-- On a well-formed, duplicate-free registry of fewer than 128 entries that holds
the pair, `IR_enableRepetition` with both allocations succeeding and fuel for 256
loop tests returns the registry without the pair, the other entries in order. -/
theorem enable_removes (fuel a b : Nat) (s : State) (hreg : registryOk s)
    (hnd : (registryEntries s).Nodup) (hhas : registryHas s a b)
    (hn : s.numOfButtons < 128) (hfuel : 256 ≤ fuel) :
    IR_enableRepetition fuel true true a b s = .ok { s with
      numOfButtons := s.numOfButtons - 1
      buttonsPtr := some (pack ((registryEntries s).filter fun p => decide (p ≠ (a, b)))) } := by
  have hlen : (registryEntries s).length = s.numOfButtons := by simp [registryEntries]
  have hpos : 1 ≤ s.numOfButtons := by
    rw [← hlen]
    exact List.length_pos_of_mem hhas
  have hpk := pack_registryEntries s hreg
  obtain ⟨src, hsrc⟩ : ∃ src, s.buttonsPtr = some src := by
    cases hp : s.buttonsPtr with
    | none =>
      have := hreg.2
      rw [hp] at this
      simp [blockBytes] at this
      omega
    | some src => exact ⟨src, rfl⟩
  have hsrc2 : src = pack (registryEntries s) := by
    rw [hpk, hsrc]; rfl
  have hsl : src.length = 2 * s.numOfButtons := by
    have := hreg.2
    rwa [hsrc] at this
  have hocc := filter_eq_length_of_nodup _ _ hnd hhas
  have hsum := filter_ne_length (registryEntries s) (a, b)
  have hfl : ((registryEntries s).filter fun p => decide (p ≠ (a, b))).length =
      s.numOfButtons - 1 := by omega
  have hcopy := copyLoop_copies src s.numOfButtons hsl hn fuel 0
    (List.replicate (2 * s.numOfButtons) 0) (by omega) (by simp) (by omega) (by simp)
  have hmod : (s.numOfButtons + 255) % 256 = s.numOfButtons - 1 := by omega
  have hback := copyBackLoop_filters (registryEntries s) (s.numOfButtons - 1) a b
    (by omega) (by omega) 256 0 0 (List.replicate (s.numOfButtons - 1) (0, 0))
    (by omega) (by omega) (le_refl 0) (by simp) (by simp only [List.drop_zero]; omega)
  rw [enable_present fuel true true a b s hreg hhas]
  simp only [enableBody, calloc, if_true, hsrc, hcopy, hmod]
  rw [← pack_replicate, hsrc2, hback]
  simp only [List.drop_zero, List.take_zero, List.nil_append, hfl, zero_add]
  rw [List.drop_of_length_le (by simp), List.append_nil]

/-- With 128 entries or more, the removal of a pair that the registry holds never
returns when the first allocation succeeds: the first copy loop does not end. -/
theorem enable_diverges (fuel a b : Nat) (ok2 : Bool) (s : State) (hreg : registryOk s)
    (hhas : registryHas s a b) (hn : 128 ≤ s.numOfButtons) :
    IR_enableRepetition fuel true ok2 a b s = .error .outOfFuel := by
  obtain ⟨src, hsrc⟩ : ∃ src, s.buttonsPtr = some src := by
    cases hp : s.buttonsPtr with
    | none =>
      have := hreg.2
      rw [hp] at this
      simp [blockBytes] at this
      omega
    | some src => exact ⟨src, rfl⟩
  have hsl : src.length = 2 * s.numOfButtons := by
    have := hreg.2
    rwa [hsrc] at this
  have hcopy := copyLoop_diverges src s.numOfButtons hsl hn fuel 0
    (List.replicate (2 * s.numOfButtons) 0) (by decide) (by simp)
  rw [enable_present fuel true ok2 a b s hreg hhas]
  simp only [enableBody, calloc, if_true, hsrc, hcopy]

/-- The registry views of two states with the same count and block agree. -/
theorem registry_congr (s t : State) (h1 : t.numOfButtons = s.numOfButtons)
    (h2 : t.buttonsPtr = s.buttonsPtr) :
    registryEntries t = registryEntries s ∧ (registryOk t ↔ registryOk s) ∧
    ∀ a b, (registryHas t a b ↔ registryHas s a b) := by
  have he : registryEntries t = registryEntries s := by
    simp only [registryEntries, h1, h2]
  refine ⟨he, ?_, fun a b => ?_⟩
  · simp only [registryOk, h1, h2]
  · simp only [registryHas, he]

theorem decodedIR_frameDone (s : State) (f : Frame) :
    decodedIR (frameDone s f) = ⟨f.field 20 4, f.field 26 6, f.field 32 8⟩ := by
  obtain ⟨h1, h2, h3⟩ := decoded_captured f
  have hsc : serviceClear (frameDone s f) = frameDone s f := serviceClear_of_not _ rfl
  simp only [decodedIR, hsc]
  simp only [frameDone, h1, h2, h3]

theorem pollAccepted_fields (s : State) :
    (pollAccepted s).numOfButtons = s.numOfButtons ∧
    (pollAccepted s).buttonsPtr = s.buttonsPtr ∧ (pollAccepted s).state = s.state ∧
    (pollAccepted s).bufferIndex = s.bufferIndex ∧
    (pollAccepted s).nonSavingCounter = s.nonSavingCounter ∧
    (pollAccepted s).level = s.level := by
  obtain ⟨-, f2, f3, -, f5, f6, f7, f8, -, -, -⟩ := serviceClear_fields s
  exact ⟨f2, f3, f8, f5, f6, f7⟩

theorem pollSuppressed_fields (s : State) :
    (pollSuppressed s).numOfButtons = s.numOfButtons ∧
    (pollSuppressed s).buttonsPtr = s.buttonsPtr ∧ (pollSuppressed s).state = s.state ∧
    (pollSuppressed s).bufferIndex = s.bufferIndex ∧
    (pollSuppressed s).nonSavingCounter = s.nonSavingCounter ∧
    (pollSuppressed s).level = s.level ∧
    (pollSuppressed s).lastSystemCode = s.lastSystemCode ∧
    (pollSuppressed s).lastCommand = s.lastCommand ∧
    (pollSuppressed s).lastAvailable = s.lastAvailable := by
  obtain ⟨-, f2, f3, -, f5, f6, f7, f8, -, -, -⟩ := serviceClear_fields s
  obtain ⟨l1, l2, l3⟩ := serviceClear_last s
  exact ⟨f2, f3, f8, f5, f6, f7, l1, l2, l3⟩

/-- A frame that repeats the pair reported by the previous poll, captured while the
pair is in the registry, is suppressed by the next poll. -/
theorem repeat_poll_suppressed (s : State) (f : Frame) (hreg : registryOk s)
    (hs : s.lastSystemCode = f.field 20 4) (hc : s.lastCommand = f.field 32 8)
    (hla : s.lastAvailable = true) (hhas : registryHas s (f.field 20 4) (f.field 32 8)) :
    IR_available (frameDone s f) = .ok (false, pollSuppressed (frameDone s f)) := by
  have hd := decodedIR_frameDone s f
  obtain ⟨-, hro, hrh⟩ := registry_congr s (frameDone s f) rfl rfl
  apply poll_suppress _ rfl
  · refine ⟨?_, ?_, hla⟩
    · rw [hd]; exact hs.symm
    · rw [hd]; exact hc.symm
  · exact hro.2 hreg
  · rw [hd]; exact (hrh _ _).2 hhas

/-- A frame that repeats the pair reported by the previous poll, captured while the
pair is not in the registry, is accepted by the next poll. -/
theorem repeat_poll_accepted (s : State) (f : Frame) (hreg : registryOk s)
    (hno : ¬ registryHas s (f.field 20 4) (f.field 32 8)) :
    IR_available (frameDone s f) = .ok (true, pollAccepted (frameDone s f)) := by
  have hd := decodedIR_frameDone s f
  obtain ⟨-, hro, hrh⟩ := registry_congr s (frameDone s f) rfl rfl
  rw [IR_available_ready _ rfl, isRepDisabled_ok _ _ _ (hro.2 hreg), hd]
  have : ¬ registryHas (frameDone s f) (f.field 20 4) (f.field 32 8) := fun h => hno ((hrh _ _).1 h)
  simp [this]

/-- A held button whose pair is in the registry: the first frame is reported, every
poll before the repeat returns false and changes nothing, and the repeat is
suppressed. -/
theorem suppression_run (s : State) (f1 f2 : Frame) (hv1 : f1.valid) (hv2 : f2.valid)
    (hst : s.state = SLEEP_STATE) (hi : s.bufferIndex = 0) (hc : s.nonSavingCounter = 0)
    (hl : s.level = true) (hr : s.bufferReady = false) (hla : s.lastAvailable = false)
    (hreg : registryOk s) (hhas : registryHas s (f1.field 20 4) (f1.field 32 8))
    (h2 : f2.field 20 4 = f1.field 20 4 ∧ f2.field 32 8 = f1.field 32 8) :
    edges s f1.ticks = .ok (frameDone s f1) ∧
    IR_available (frameDone s f1) = .ok (true, pollAccepted (frameDone s f1)) ∧
    (∀ n, laterPoll (pollAccepted (frameDone s f1)) n =
      .ok (false, pollAccepted (frameDone s f1))) ∧
    edges (pollAccepted (frameDone s f1)) f2.ticks =
      .ok (frameDone (pollAccepted (frameDone s f1)) f2) ∧
    IR_available (frameDone (pollAccepted (frameDone s f1)) f2) =
      .ok (false, pollSuppressed (frameDone (pollAccepted (frameDone s f1)) f2)) := by
  obtain ⟨p1, p2, p3, p4, p5, p6⟩ := pollAccepted_fields (frameDone s f1)
  obtain ⟨-, hro, hrh⟩ := registry_congr s (pollAccepted (frameDone s f1)) p1 p2
  have hd := decodedIR_frameDone s f1
  refine ⟨frame_run s f1 hv1 (Or.inl hst) hi hc hl hr, first_poll_accepts s f1 hla, ?_,
    frame_run _ f2 hv2 (Or.inr p3) p4 p5 p6 rfl, ?_⟩
  · intro n
    rw [laterPoll_after_accept s f1 hreg n]
    simp [hhas]
  · apply repeat_poll_suppressed _ f2 (hro.2 hreg)
    · show (decodedIR (frameDone s f1)).systemCode = _
      rw [hd, h2.1]
    · show (decodedIR (frameDone s f1)).command = _
      rw [hd, h2.2]
    · rfl
    · rw [h2.1, h2.2]
      exact (hrh _ _).2 hhas

/-- The state left by the suppressed poll of a repeat: the decoder waits for the
next frame, the registry is that of the start state, and the reported pair is
remembered as available. -/
theorem suppressed_state (s : State) (f1 f2 : Frame) :
    let t := pollSuppressed (frameDone (pollAccepted (frameDone s f1)) f2)
    t.numOfButtons = s.numOfButtons ∧ t.buttonsPtr = s.buttonsPtr ∧ t.state = 8 ∧
    t.bufferIndex = 0 ∧ t.nonSavingCounter = 0 ∧ t.level = true ∧ t.bufferReady = false ∧
    t.lastSystemCode = f1.field 20 4 ∧ t.lastCommand = f1.field 32 8 ∧
    t.lastAvailable = true := by
  intro t
  obtain ⟨p1, p2, -⟩ := pollAccepted_fields (frameDone s f1)
  obtain ⟨q1, q2, q3, q4, q5, q6, q7, q8, q9⟩ :=
    pollSuppressed_fields (frameDone (pollAccepted (frameDone s f1)) f2)
  have hd := decodedIR_frameDone s f1
  refine ⟨q1.trans p1, q2.trans p2, q3, q4, q5, q6, rfl, ?_, ?_, q9⟩
  · rw [q7]
    show (decodedIR (frameDone s f1)).systemCode = _
    rw [hd]
  · rw [q8]
    show (decodedIR (frameDone s f1)).command = _
    rw [hd]

/-- The registry left by a successful removal: well formed, the former entries other
than the pair in their former order, the pair no longer contained. -/
theorem removed_registry (a b : Nat) (s : State) (hreg : registryOk s)
    (hnd : (registryEntries s).Nodup) (hhas : registryHas s a b) :
    let t : State := { s with
      numOfButtons := s.numOfButtons - 1
      buttonsPtr := some (pack ((registryEntries s).filter fun p => decide (p ≠ (a, b)))) }
    registryOk t ∧
    registryEntries t = ((registryEntries s).filter fun p => decide (p ≠ (a, b))) ∧
    ¬ registryHas t a b := by
  intro t
  have hlen : (registryEntries s).length = s.numOfButtons := by simp [registryEntries]
  have hocc := filter_eq_length_of_nodup _ _ hnd hhas
  have hsum := filter_ne_length (registryEntries s) (a, b)
  have hfl : ((registryEntries s).filter fun p => decide (p ≠ (a, b))).length =
      s.numOfButtons - 1 := by omega
  have hent : registryEntries t = ((registryEntries s).filter fun p => decide (p ≠ (a, b))) :=
    registryEntries_pack t _ hfl.symm rfl
  refine ⟨⟨?_, ?_⟩, hent, ?_⟩
  · show s.numOfButtons - 1 < 256
    have := hreg.1
    omega
  · show (pack _).length = 2 * (s.numOfButtons - 1)
    rw [pack_length, hfl]
  · unfold registryHas
    rw [hent]
    simp

/-! ## Zeroing the buffer -/

theorem foldl_update_false (l : List (Fin 36)) :
    ∀ (buf : Fin 36 → Bool) (i : Fin 36),
      (l.foldl (fun b j => Function.update b j false) buf) i =
        if i ∈ l then false else buf i := by
  induction l with
  | nil => intro buf i; simp
  | cons j l ih =>
    intro buf i
    rw [List.foldl_cons, ih]
    by_cases h1 : i ∈ l
    · simp [h1]
    · by_cases h2 : i = j
      · subst h2
        simp [h1]
      · simp [h1, h2, Function.update_noteq h2]

/-- The clearing loop leaves every one of the 36 entries false. -/
theorem zeroBuffer_eq (buf : Fin 36 → Bool) : zeroBuffer buf = fun _ => false := by
  funext i
  rw [zeroBuffer, foldl_update_false]
  simp [List.mem_finRange]

/-- A zeroed buffer decodes to fields with all bits set. -/
theorem decoded_zero :
    decoded (fun _ => false) 0 4 = 15 ∧ decoded (fun _ => false) 8 6 = 63 ∧
    decoded (fun _ => false) 20 8 = 255 := by
  decide


/-! ## Frame-ready and the phase -/

/-- An edge that raises frame-ready leaves the phase at Wait. -/
theorem edge_ready_state (s s1 : State) (t : Nat) (he : edge s t = .ok s1)
    (hr : s.bufferReady = false) (hr1 : s1.bufferReady = true) : s1.state = 8 := by
  unfold edge INT0_vect at he
  simp only [hr] at he
  split at he
  · split at he
    · rename_i s2 hsw
      cases he
      simp only [] at hr1 ⊢
      unfold INT0_switch at hsw
      simp only [fieldCase, saveInterval, nonSavingAccept, setSleepState] at hsw
      split at hsw <;>
        ((repeat' split at hsw) <;> cases hsw <;>
          first
          | (simp [hr] at hr1; done)
          | rfl)
    · cases he
  · simp at *

theorem edge_ignored (s : State) (t : Nat) (hr : s.bufferReady = true) :
    edge s t = .ok { s with TCNT0 := 0 } := by
  simp [edge, INT0_vect, hr]

theorem overflow_ready (s : State) :
    (TIMER0_OVF_vect s).bufferReady = s.bufferReady ∧
    ((TIMER0_OVF_vect s).state = s.state ∨ (TIMER0_OVF_vect s).state = 0) := by
  unfold TIMER0_OVF_vect
  simp only []
  split <;> split <;> simp [SLEEP_STATE]

/-- Every poll that returns leaves frame-ready clear. -/
theorem poll_clears_ready (s s1 : State) (r : Bool) (he : IR_available s = .ok (r, s1)) :
    s1.bufferReady = false := by
  have hc := serviceClear_bufferReady s
  cases hr : s.bufferReady with
  | true =>
    rw [IR_available_ready s hr] at he
    split at he
    · split at he
      · cases he
      · cases he; rfl
      · cases he; rfl
    · cases he; rfl
  | false =>
    rw [IR_available_idle s hr] at he
    split at he
    · split at he
      · cases he
      · cases he; rw [hc, hr]
      · cases he; simp only []; rw [hc, hr]
    · cases he; simp only []; rw [hc, hr]

/-- While a frame waits for its poll the phase is Wait, or Idle after a timeout. -/
theorem reachable_ready (s : State) (h : Reachable s) :
    s.bufferReady = true → s.state = 0 ∨ s.state = 8 := by
  induction h with
  | init => intro h; cases h
  | step s s1 e _ he ih =>
    intro hr1
    cases e with
    | edge t =>
      cases hr : s.bufferReady with
      | true =>
        have he2 : edge s t = .ok s1 := he
        rw [edge_ignored s t hr] at he2
        cases he2
        exact ih hr
      | false => exact Or.inr (edge_ready_state s s1 t he hr hr1)
    | overflow =>
      cases he
      obtain ⟨f1, f2⟩ := overflow_ready s
      rw [f1] at hr1
      rcases f2 with f2 | f2
      · rw [f2]; exact ih hr1
      · exact Or.inl f2
    | poll =>
      simp only [step] at he
      split at he
      · cases he
      · rename_i r s2 hp
        cases he
        rw [poll_clears_ready s s1 r hp] at hr1
        cases hr1
    | init t =>
      cases he
      exact ih hr1
    | disable ok a b =>
      have := disable_frame ok a b s s1 he
      rw [this] at hr1 ⊢
      exact ih hr1
    | enable fuel ok1 ok2 a b =>
      have := enable_frame fuel ok1 ok2 a b s s1 he
      rw [this] at hr1 ⊢
      exact ih hr1

theorem fieldCase_defined (s : State) (last next : Nat) (h : s.bufferIndex < 36) :
    ∃ s1, fieldCase s last next = .ok s1 := by
  have hidx : s.bufferIndex < BUFFER_SIZE := h
  unfold fieldCase saveInterval
  simp only [hidx, dite_true]
  split_ifs <;> exact ⟨_, rfl⟩

theorem INT0_switch_defined (s : State)
    (h : 4 ≤ s.state ∧ s.state ≤ 6 → s.bufferIndex < 36) : ∃ s1, INT0_switch s = .ok s1 := by
  unfold INT0_switch
  split
  · exact ⟨_, rfl⟩
  · split_ifs <;> exact ⟨_, rfl⟩
  · split_ifs <;> exact ⟨_, rfl⟩
  · split_ifs <;> exact ⟨_, rfl⟩
  · rename_i heq
    exact fieldCase_defined s _ _ (h (by omega))
  · rename_i heq
    exact fieldCase_defined s _ _ (h (by omega))
  · rename_i heq
    exact fieldCase_defined s _ _ (h (by omega))
  · split_ifs <;> exact ⟨_, rfl⟩
  · exact ⟨_, rfl⟩
  · exact ⟨_, rfl⟩

/-- The edge handler completes with defined behaviour in every state whose buffer
index is inside the buffer while a field is captured. -/
theorem edge_defined (s : State) (t : Nat)
    (h : 4 ≤ s.state ∧ s.state ≤ 6 → s.bufferIndex < 36) : ∃ s1, edge s t = .ok s1 := by
  unfold edge INT0_vect
  simp only []
  split
  · obtain ⟨s2, h2⟩ := INT0_switch_defined { s with TCNT0 := t } h
    rw [h2]
    exact ⟨_, rfl⟩
  · exact ⟨_, rfl⟩

theorem phaseInv_field_index (s : State) (h : phaseInv s) :
    4 ≤ s.state ∧ s.state ≤ 6 → s.bufferIndex < 36 := by
  obtain ⟨-, -, -, h4, h5, h6, -⟩ := h
  intro hst
  have h3 : s.state = 4 ∨ s.state = 5 ∨ s.state = 6 := by omega
  rcases h3 with h3 | h3 | h3
  · have := h4 h3; omega
  · have := h5 h3; omega
  · have := h6 h3; omega

/-- The buffer entries read while the three fields are decoded. -/
theorem writeBit_defined (buf : Fin 36 → Bool) (index offset data : Nat)
    (h : (index + 1) % 256 + offset < 36) : ∃ d, writeBit buf index offset data = .ok d := by
  have hidx : (index + 1) % 256 + offset < BUFFER_SIZE := h
  unfold writeBit
  simp only [hidx, dite_true]
  split_ifs <;> exact ⟨_, rfl⟩

/-! ## Partial captures -/

theorem edges_bits_prefix (s : State) (bits : List (Nat × Nat)) (tail : List Nat)
    (hr : s.bufferReady = false) (hlen : bits.length = 48)
    (hv : ∀ b ∈ bits, validBit b) :
    ∀ k j, j + k ≤ 48 →
      edges (mid s bits j) (bitTicks ((bits.drop j).take k) ++ tail) =
        edges (mid s bits (j + k)) tail := by
  intro k
  induction k with
  | zero =>
    intro j _
    simp [bitTicks]
  | succ k ih =>
    intro j hj
    have hjlt : j < bits.length := by omega
    have hd : bits.drop j = bits.getD j (0, 0) :: bits.drop (j + 1) := by
      rw [List.getD_eq_getElem _ _ hjlt]
      exact List.drop_eq_getElem_cons hjlt
    have hvb : validBit (bits.getD j (0, 0)) := by
      rw [List.getD_eq_getElem _ _ hjlt]
      exact hv _ (List.getElem_mem _)
    rw [hd, List.take_succ_cons]
    simp only [bitTicks, List.flatMap_cons, List.cons_append, List.nil_append]
    rw [edges_bit, stepBit_mid s bits j (by omega) hr hvb]
    have := ih (j + 1) (by omega)
    simp only [bitTicks] at this
    have hm : j + (k + 1) = j + 1 + k := by omega
    rw [hm]
    exact this

/-- The leading burst and the first `m` bits of a valid frame take an idle decoder
to `mid s f.bits m`. -/
theorem prefix_run (s : State) (f : Frame) (hf : f.valid)
    (hst : s.state = 0 ∨ s.state = 8) (hi : s.bufferIndex = 0) (hc : s.nonSavingCounter = 0)
    (hl : s.level = true) (hr : s.bufferReady = false) (m : Nat) (hm : m ≤ 48) :
    edges s (f.first :: f.lead :: f.gap :: bitTicks (f.bits.take m)) =
      .ok (mid s f.bits m) := by
  have h1 := edges_lead s f hf hst hi hc hl hr (bitTicks (f.bits.take m) ++ [])
  have h2 := edges_bits_prefix s f.bits [] hr hf.2.2.1 hf.2.2.2.1 m 0 (by omega)
  rw [List.drop_zero, Nat.zero_add] at h2
  rw [h2, edges_nil, List.append_nil] at h1
  exact h1

theorem reachable_mid (s : State) (f : Frame) (hf : f.valid) (h : Reachable s)
    (hst : s.state = 0 ∨ s.state = 8) (hi : s.bufferIndex = 0) (hc : s.nonSavingCounter = 0)
    (hl : s.level = true) (hr : s.bufferReady = false) (m : Nat) (hm : m ≤ 48) :
    Reachable (mid s f.bits m) :=
  reachable_edges s _ _ h (prefix_run s f hf hst hi hc hl hr m hm)

theorem reachable_fieldMarkState : Reachable fieldMarkState :=
  reachable_mid initState exampleFrame (by decide) Reachable.init (Or.inl rfl) rfl rfl rfl rfl
    21 (by decide)

theorem edge_fieldMarkState : edge fieldMarkState 3 = .ok fieldSpaceState := by
  have h1 : inWindow LOGIC_SHORT 3 = true := by decide
  have h2 : 2 < BUFFER_SIZE := by decide
  simp [edge, INT0_vect, INT0_switch, fieldCase, saveInterval, fieldMarkState, fieldSpaceState,
    mid, phaseAt, counterAt, indexAt, initState, h1, h2]

theorem reachable_fieldSpaceState : Reachable fieldSpaceState :=
  Reachable.step _ _ (.edge 3) reachable_fieldMarkState edge_fieldMarkState


/-- The registry left by appending one pair to a registry of fewer than 255
entries. -/
theorem appended_registry (a b : Nat) (s : State) (hn : s.numOfButtons < 255) :
    let t : State := { s with
      numOfButtons := s.numOfButtons + 1
      buttonsPtr := some (pack (registryEntries s ++ [(a, b)])) }
    registryOk t ∧ registryEntries t = registryEntries s ++ [(a, b)] := by
  intro t
  have hlen : (registryEntries s).length = s.numOfButtons := by simp [registryEntries]
  have hent := registryEntries_pack t (registryEntries s ++ [(a, b)]) (by simp [t, hlen]) rfl
  refine ⟨?_, hent⟩
  simp only [registryOk, blockBytes, t, Option.getD_some, pack_length, List.length_append,
    hlen, List.length_singleton]
  exact ⟨by omega, trivial⟩

/-- On a well-formed, duplicate-free registry of fewer than 128 entries, with both
allocations succeeding, `IR_enableRepetition` returns; afterwards a pair is
contained iff it was contained before and is not the named pair, the entries are
the former entries without the named pair in their former order, and the state is
unchanged when the named pair was absent. -/
theorem enable_exact_below_128 (fuel a b : Nat) (s : State) (hreg : registryOk s)
    (hnd : (registryEntries s).Nodup) (hn : s.numOfButtons < 128) (hfuel : 256 ≤ fuel) :
    ∃ s1, IR_enableRepetition fuel true true a b s = .ok s1 ∧ registryOk s1 ∧
      (∀ x y, registryHas s1 x y ↔ registryHas s x y ∧ (x, y) ≠ (a, b)) ∧
      registryEntries s1 = (registryEntries s).filter (fun p => decide (p ≠ (a, b))) ∧
      (¬ registryHas s a b → s1 = s) := by
  by_cases hhas : registryHas s a b
  · obtain ⟨h1, h2, -⟩ := removed_registry a b s hreg hnd hhas
    refine ⟨_, enable_removes fuel a b s hreg hnd hhas hn hfuel, h1, ?_, h2, ?_⟩
    · intro x y
      simp only [registryHas, h2, List.mem_filter, decide_eq_true_eq]
    · intro h; exact absurd hhas h
  · have hf : (registryEntries s).filter (fun p => decide (p ≠ (a, b))) = registryEntries s := by
      rw [List.filter_eq_self]
      intro p hp
      simp only [decide_eq_true_eq]
      intro h
      subst h
      exact hhas hp
    refine ⟨s, enable_absent fuel true true a b s hreg hhas, hreg, ?_, hf.symm, fun _ => rfl⟩
    intro x y
    constructor
    · intro h
      refine ⟨h, ?_⟩
      intro he
      cases he
      exact hhas h
    · exact fun h => h.1

/-! ## Overflow ticks after a completed frame -/

/-- With a clear threshold of exactly 3 ticks, three overflow ticks that start with
the idle-tick counter at 1 reset the decoder and request a buffer clear. -/
theorem late_ticks (u : State) (ho : u.ovfCounter = 1)
    (hN : NUM_OF_CLEAR_BUFFER_OVFS u.clearBTime = 3) :
    overflowTicks u 3 = { u with
      state := SLEEP_STATE
      level := true
      bufferIndex := 0
      nonSavingCounter := 0
      available := false
      ovfCounter := 1
      clearBuffer := true } := by
  have e1 := overflow_counts u (by omega) (by omega)
  have e2 := overflow_counts { u with ovfCounter := u.ovfCounter + 1 }
    (by simp only []; omega) (by simp only []; omega)
  have h3 : overflowTicks u 3 = TIMER0_OVF_vect (TIMER0_OVF_vect (TIMER0_OVF_vect u)) := rfl
  rw [h3, e1, e2]
  simp [TIMER0_OVF_vect, ho, hN, NUM_OF_OVFS]

theorem default_threshold (t : Nat) (ht : t ≤ 83) (s : State) :
    NUM_OF_CLEAR_BUFFER_OVFS (IR_init t s).clearBTime = 3 := by
  have : (IR_init t s).clearBTime = 83 := by
    simp only [IR_init]; split <;> omega
  rw [this]
  decide

/-- A poll of a state with frame-ready set and a pending clear request decodes
the zeroed buffer. -/
theorem decodedIR_cleared (u : State) (hc : u.clearBuffer = true) :
    (serviceClear u).durationBuffer = (fun _ => false) ∧ decodedIR u = ⟨15, 63, 255⟩ := by
  have hz : (serviceClear u).durationBuffer = (fun _ => false) := by
    simp [serviceClear, hc, zeroBuffer_eq]
  obtain ⟨d1, d2, d3⟩ := decoded_zero
  refine ⟨hz, ?_⟩
  simp only [decodedIR, hz, d1, d2, d3]

/-- A poll with frame-ready set returns when the registry is well formed. -/
theorem poll_ready_returns (u : State) (hr : u.bufferReady = true) (hreg : registryOk u) :
    ∃ r s2, IR_available u = .ok (r, s2) ∧ s2.IR = decodedIR u ∧
      s2.durationBuffer = (serviceClear u).durationBuffer := by
  rw [IR_available_ready u hr, isRepDisabled_ok u _ _ hreg]
  by_cases h1 : sameAsLast u
  · by_cases h2 : registryHas u (decodedIR u).systemCode (decodedIR u).command
    · exact ⟨false, pollSuppressed u, by simp [h1, h2], rfl, rfl⟩
    · exact ⟨true, pollAccepted u, by simp [h1, h2], rfl, rfl⟩
  · exact ⟨true, pollAccepted u, by simp [h1], rfl, rfl⟩

/-! ## A silence timeout between two frames -/

/-- A poll changes nothing in a decoder that has nothing to report, no pending
clear request and no report remembered. -/
theorem idle_poll_fixed (v : State) (hr : v.bufferReady = false) (ha : v.available = false)
    (hc : v.clearBuffer = false) (hla : v.lastAvailable = false) :
    IR_available v = .ok (false, v) := by
  rw [IR_available_idle v hr, serviceClear_of_not v hc]
  simp only [ha, Bool.false_eq_true, if_false]
  congr 2
  apply State.ext <;> first | rfl | exact hla.symm | exact ha.symm

/-- Polls of a decoder that has nothing to report return false and clear what the
previous poll reported. -/
theorem idle_polls (u : State) (hr : u.bufferReady = false) (ha : u.available = false)
    (m : Nat) :
    laterPoll u m = .ok (false, { serviceClear u with lastAvailable := false }) := by
  have h1 : IR_available u = .ok (false, { serviceClear u with lastAvailable := false }) := by
    rw [IR_available_idle u hr]
    simp [ha]
  obtain ⟨-, -, -, -, -, -, -, -, -, f10, -⟩ := serviceClear_fields u
  have h2 : IR_available { serviceClear u with lastAvailable := false } =
      .ok (false, { serviceClear u with lastAvailable := false }) :=
    idle_poll_fixed _ ((serviceClear_bufferReady u).trans hr) (f10.trans ha)
      (serviceClear_clearBuffer u) rfl
  induction m with
  | zero => exact h1
  | succ m ih =>
    clear ih
    induction m with
    | zero => simp only [laterPoll, h1, h2]
    | succ m ih2 =>
      simp only [laterPoll, h1, h2] at ih2 ⊢
      exact ih2

/-! ## A poll during a capture -/

theorem edges_glitch : edges initState [0, 0] = .ok glitchState := by
  have h1 : inWindow LEADING_PULSE 0 = false := by decide
  simp [edges_cons, edges_nil, edge, INT0_vect, INT0_switch, initState, glitchState, h1,
    setSleepState, SLEEP_STATE, LEADING_PULSE_STATE]

theorem reachable_interruptedCapture : Reachable interruptedCapture :=
  reachable_mid glitchState exampleFrame (by decide)
    (reachable_edges initState _ _ Reachable.init edges_glitch) (Or.inl rfl) rfl rfl rfl rfl
    22 (by decide)

theorem edges_append (s s1 : State) (ts rest : List Nat) (h : edges s ts = .ok s1) :
    edges s (ts ++ rest) = edges s1 rest := by
  induction ts generalizing s with
  | nil =>
    rw [edges_nil] at h
    cases h
    rfl
  | cons t ts ih =>
    rw [List.cons_append, edges_cons]
    rw [edges_cons] at h
    split at h
    · cases h
    · rename_i s2 h2
      exact ih s2 h

theorem edges_interruptedCapture :
    edges initState (0 :: 0 :: exampleFrame.ticks.take 47) = .ok interruptedCapture := by
  have h1 := edges_append initState glitchState [0, 0] (exampleFrame.ticks.take 47) edges_glitch
  rw [List.cons_append, List.cons_append, List.nil_append] at h1
  rw [h1]
  exact prefix_run glitchState exampleFrame (by decide) (Or.inl rfl) rfl rfl rfl rfl 22
    (by decide)

/-- The rest of the example frame, captured after the poll of `interruptedCapture`,
raises frame-ready over a buffer whose first four entries were zeroed. -/
theorem interrupted_rest :
    ∃ s3, edges afterClear remainingTicks = .ok s3 ∧ s3.bufferReady = true ∧
      s3.lastAvailable = false ∧ decodedIR s3 = ⟨15, 0, 1⟩ := by
  have hp : (edges afterClear remainingTicks).toOption.map
      (fun s => (s.bufferReady, s.lastAvailable, (decodedIR s).systemCode,
        (decodedIR s).address, (decodedIR s).command)) = some (true, false, 15, 0, 1) := by
    decide
  cases h : edges afterClear remainingTicks with
  | error e =>
    rw [h] at hp
    cases hp
  | ok s3 =>
    rw [h] at hp
    simp only [Except.toOption, Option.map_some', Option.some.injEq, Prod.mk.injEq] at hp
    obtain ⟨h1, h2, h3, h4, h5⟩ := hp
    refine ⟨s3, rfl, h1, h2, ?_⟩
    cases hd : decodedIR s3
    rw [hd] at h3 h4 h5
    simp only [] at h3 h4 h5
    subst h3 h4 h5
    rfl

/-! ## The first poll after a frame, in general -/

theorem reachable_ticks (s : State) (n : Nat) (h : Reachable s) :
    Reachable (overflowTicks s n) := by
  induction n with
  | zero => exact h
  | succ n ih => exact Reachable.step _ _ .overflow ih rfl

theorem reachable_poll (s s1 : State) (r : Bool) (h : Reachable s)
    (he : IR_available s = .ok (r, s1)) : Reachable s1 := by
  refine Reachable.step s s1 .poll h ?_
  simp only [step, he]

theorem reachable_lateRegistryState : Reachable lateRegistryState :=
  Reachable.step _ _ (.init 83)
    (Reachable.step initState (withRegistry [(15, 255)]) (.disable true 15 255) Reachable.init rfl)
    rfl

theorem reachable_latePolled : Reachable latePolled := by
  have h1 : Reachable (frameDone lateRegistryState exampleFrame) :=
    reachable_edges _ _ _ reachable_lateRegistryState
      (frame_run lateRegistryState exampleFrame (by decide) (Or.inl rfl) rfl rfl rfl rfl)
  have h2 := reachable_ticks _ 3 h1
  refine reachable_poll _ _ true h2 ?_
  have hu := late_ticks (frameDone lateRegistryState exampleFrame) rfl (by decide)
  have hns : ¬ sameAsLast (overflowTicks (frameDone lateRegistryState exampleFrame) 3) := by
    intro h
    have := h.2.2
    rw [hu] at this
    cases this
  rw [IR_available_ready _ (by rw [hu]; rfl), if_neg hns]
  rfl

theorem reachable_lateRepeatReady : Reachable lateRepeatReady := by
  have hu := late_ticks (frameDone lateRegistryState exampleFrame) rfl (by decide)
  obtain ⟨-, -, p3, p4, p5, p6⟩ :=
    pollAccepted_fields (overflowTicks (frameDone lateRegistryState exampleFrame) 3)
  have h1 : Reachable (frameDone latePolled exampleFrame) :=
    reachable_edges _ _ _ reachable_latePolled
      (frame_run latePolled exampleFrame (by decide)
        (Or.inl (p3.trans (by rw [hu]; rfl))) (p4.trans (by rw [hu])) (p5.trans (by rw [hu]))
        (p6.trans (by rw [hu])) rfl)
  exact reachable_ticks _ 3 h1

/-- The poll of `lateRepeatReady` is suppressed; it stores the address 63 of the
zeroed buffer, while the captured buffer holds the address 0. -/
theorem lateRepeatReady_poll :
    lateRepeatReady.bufferReady = true ∧ lateRepeatReady.clearBuffer = true ∧
    IR_available lateRepeatReady = .ok (false, pollSuppressed lateRepeatReady) ∧
    decoded lateRepeatReady.durationBuffer 8 6 = 0 ∧
    (pollSuppressed lateRepeatReady).IR.address = 63 := by
  have hu := late_ticks (frameDone latePolled exampleFrame) rfl (by decide)
  have hb : lateRepeatReady.bufferReady = true := by
    show (overflowTicks (frameDone latePolled exampleFrame) 3).bufferReady = true
    rw [hu]; rfl
  have hc : lateRepeatReady.clearBuffer = true := by
    show (overflowTicks (frameDone latePolled exampleFrame) 3).clearBuffer = true
    rw [hu]
  refine ⟨hb, hc, poll_suppress lateRepeatReady hb (by decide) (by decide) (by decide),
    by decide, by decide⟩

/-! ## The claims -/

/-- C1: a valid frame received by an idle decoder whose last poll reported nothing
raises frame-ready, and the next poll returns true with the three fields equal to
the transmitted bits 20..23, 26..31 and 32..39, least significant bit first. -/
theorem C1_decode_valid_frame (s : State) (f : Frame) (hf : f.valid)
    (hst : s.state = SLEEP_STATE) (hi : s.bufferIndex = 0) (hc : s.nonSavingCounter = 0)
    (hl : s.level = true) (hr : s.bufferReady = false) (hla : s.lastAvailable = false) :
    ∃ s1 s2, edges s f.ticks = .ok s1 ∧ s1.bufferReady = true ∧
      IR_available s1 = .ok (true, s2) ∧
      s2.IR.systemCode = f.field 20 4 ∧ s2.IR.address = f.field 26 6 ∧
      s2.IR.command = f.field 32 8 := by
  refine ⟨frameDone s f, pollAccepted (frameDone s f),
    frame_run s f hf (Or.inl hst) hi hc hl hr, rfl, ?_, ?_⟩
  · rw [IR_available_ready _ rfl]
    have : ¬ sameAsLast (frameDone s f) := by
      intro h
      have := h.2.2
      simp [frameDone, hla] at this
    rw [if_neg this]
  · have hsc : serviceClear (frameDone s f) = frameDone s f := serviceClear_of_not _ rfl
    obtain ⟨h1, h2, h3⟩ := decoded_captured f
    simp only [pollAccepted, decodedIR, hsc]
    exact ⟨h1, h2, h3⟩

/-- C1 at the worked example: the example frame, received from the initial state,
decodes to system code 13, address 0 and command 1. -/
theorem C1_decode_valid_frame_witness :
    exampleFrame.valid ∧
    (exampleFrame.field 20 4 = 13 ∧ exampleFrame.field 26 6 = 0 ∧
      exampleFrame.field 32 8 = 1) ∧
    ∃ s1 s2, edges initState exampleFrame.ticks = .ok s1 ∧ s1.bufferReady = true ∧
      IR_available s1 = .ok (true, s2) ∧
      s2.IR.systemCode = exampleFrame.field 20 4 ∧ s2.IR.address = exampleFrame.field 26 6 ∧
      s2.IR.command = exampleFrame.field 32 8 :=
  ⟨by decide, by decide,
    C1_decode_valid_frame initState exampleFrame (by decide) rfl rfl rfl rfl rfl rfl⟩

/-- C2: with frame-ready set and no clear request pending, whenever the poll returns,
bit `k` of each stored field is the complement of the space entry of that bit (entry
`2k+1`, `8+2k+1`, `20+2k+1`), all higher bits are 0, and buffers that agree on the
odd-indexed entries give the same stored fields.  The poll does return when the
registry is well formed. -/
theorem C2_field_extraction (s : State) (hr : s.bufferReady = true)
    (hc : s.clearBuffer = false) :
    (registryOk s → ∃ r s1, IR_available s = .ok (r, s1)) ∧
    ∀ r s1, IR_available s = .ok (r, s1) →
      (∀ k (h : k < 4), s1.IR.systemCode.testBit k = !s.durationBuffer ⟨2 * k + 1, by omega⟩) ∧
      (∀ k, 4 ≤ k → s1.IR.systemCode.testBit k = false) ∧
      (∀ k (h : k < 6), s1.IR.address.testBit k = !s.durationBuffer ⟨8 + 2 * k + 1, by omega⟩) ∧
      (∀ k, 6 ≤ k → s1.IR.address.testBit k = false) ∧
      (∀ k (h : k < 8), s1.IR.command.testBit k = !s.durationBuffer ⟨20 + 2 * k + 1, by omega⟩) ∧
      (∀ k, 8 ≤ k → s1.IR.command.testBit k = false) ∧
      (∀ t : State, t.bufferReady = true → t.clearBuffer = false →
        (∀ i : Fin 36, i.val % 2 = 1 → t.durationBuffer i = s.durationBuffer i) →
        ∀ r2 t1, IR_available t = .ok (r2, t1) → t1.IR = s1.IR) := by
  refine ⟨fun hreg => ?_, fun r s1 h => ?_⟩
  · rw [IR_available_ready s hr, isRepDisabled_ok s _ _ hreg]
    split
    · cases decide (registryHas s (decodedIR s).systemCode (decodedIR s).command)
      · exact ⟨_, _, rfl⟩
      · exact ⟨_, _, rfl⟩
    · exact ⟨_, _, rfl⟩
  have hIR := IR_available_ready_IR s hr r s1 h
  have hsc : serviceClear s = s := serviceClear_of_not s hc
  refine ⟨?_, ?_, ?_, ?_, ?_, ?_, ?_⟩
  · intro k hk
    have h36 : 2 * k + 1 + 0 < BUFFER_SIZE := by simp only [BUFFER_SIZE]; omega
    simp [hIR, decodedIR, hsc, testBit_decoded, hk, spaceEntry, h36]
  · intro k hk
    have : ¬ k < 4 := by omega
    simp [hIR, decodedIR, hsc, testBit_decoded, this]
  · intro k hk
    have h36 : 2 * k + 1 + 8 < BUFFER_SIZE := by simp only [BUFFER_SIZE]; omega
    have he : (⟨2 * k + 1 + 8, h36⟩ : Fin 36) = ⟨8 + 2 * k + 1, by omega⟩ := by
      apply Fin.ext; simp only []; omega
    simp [hIR, decodedIR, hsc, testBit_decoded, hk, spaceEntry, h36, he]
  · intro k hk
    have : ¬ k < 6 := by omega
    simp [hIR, decodedIR, hsc, testBit_decoded, this]
  · intro k hk
    have h36 : 2 * k + 1 + 20 < BUFFER_SIZE := by simp only [BUFFER_SIZE]; omega
    have he : (⟨2 * k + 1 + 20, h36⟩ : Fin 36) = ⟨20 + 2 * k + 1, by omega⟩ := by
      apply Fin.ext; simp only []; omega
    simp [hIR, decodedIR, hsc, testBit_decoded, hk, spaceEntry, h36, he]
  · intro k hk
    have : ¬ k < 8 := by omega
    simp [hIR, decodedIR, hsc, testBit_decoded, this]
  · intro t htr htc hagree r2 t1 ht
    rw [IR_available_ready_IR t htr r2 t1 ht, hIR]
    simp only [decodedIR, hsc, serviceClear_of_not t htc]
    rw [decoded_congr _ _ 0 4 rfl hagree, decoded_congr _ _ 8 6 rfl hagree,
      decoded_congr _ _ 20 8 rfl hagree]

/-- C2 at the state reached by capturing the example frame from the initial state. -/
theorem C2_field_extraction_witness :
    exampleReady.bufferReady = true ∧ exampleReady.clearBuffer = false ∧
    (registryOk exampleReady → ∃ r s1, IR_available exampleReady = .ok (r, s1)) ∧
    ∀ r s1, IR_available exampleReady = .ok (r, s1) →
      (∀ k (h : k < 4),
        s1.IR.systemCode.testBit k = !exampleReady.durationBuffer ⟨2 * k + 1, by omega⟩) ∧
      (∀ k, 4 ≤ k → s1.IR.systemCode.testBit k = false) ∧
      (∀ k (h : k < 6),
        s1.IR.address.testBit k = !exampleReady.durationBuffer ⟨8 + 2 * k + 1, by omega⟩) ∧
      (∀ k, 6 ≤ k → s1.IR.address.testBit k = false) ∧
      (∀ k (h : k < 8),
        s1.IR.command.testBit k = !exampleReady.durationBuffer ⟨20 + 2 * k + 1, by omega⟩) ∧
      (∀ k, 8 ≤ k → s1.IR.command.testBit k = false) ∧
      (∀ t : State, t.bufferReady = true → t.clearBuffer = false →
        (∀ i : Fin 36, i.val % 2 = 1 → t.durationBuffer i = exampleReady.durationBuffer i) →
        ∀ r2 t1, IR_available t = .ok (r2, t1) → t1.IR = s1.IR) :=
  ⟨rfl, rfl, C2_field_extraction exampleReady rfl rfl⟩

/-- C4, counterexample.  First part: with the pair (13, 1) in the registry, the
example frame is reported, its repeat is suppressed, `IR_enableRepetition(13, 1)` is
called with its first allocation failing, and the poll after a further identical
frame returns false.  Second part: on a well-formed, duplicate-free registry of 128
entries the call never returns when its first allocation succeeds, whatever the
fuel. -/
theorem C4_enable_may_not_remove :
    (∃ s1 s2 s3 s4 s5 s6 s7,
      edges suppressingState exampleFrame.ticks = .ok s1 ∧ IR_available s1 = .ok (true, s2) ∧
      edges s2 exampleFrame.ticks = .ok s3 ∧ IR_available s3 = .ok (false, s4) ∧
      IR_enableRepetition 256 false true 13 1 s4 = .ok s5 ∧
      edges s5 exampleFrame.ticks = .ok s6 ∧ IR_available s6 = .ok (false, s7)) ∧
    (registryOk halfRegistry ∧ (registryEntries halfRegistry).Nodup ∧
      registryHas halfRegistry 1 0 ∧
      ∀ fuel, IR_enableRepetition fuel true true 1 0 halfRegistry = .error .outOfFuel) := by
  have hv : exampleFrame.valid := by decide
  have hreg : registryOk suppressingState := by decide
  have hhas : registryHas suppressingState (exampleFrame.field 20 4)
      (exampleFrame.field 32 8) := by decide
  obtain ⟨r1, r2, -, r4, r5⟩ := suppression_run suppressingState exampleFrame exampleFrame hv hv
    rfl rfl rfl rfl rfl rfl hreg hhas ⟨rfl, rfl⟩
  obtain ⟨t1, t2, t3, t4, t5, t6, t7, t8, t9, t10⟩ :=
    suppressed_state suppressingState exampleFrame exampleFrame
  obtain ⟨-, hro, hrh⟩ := registry_congr suppressingState _ t1 t2
  have hf1 : exampleFrame.field 20 4 = 13 := by decide
  have hf2 : exampleFrame.field 32 8 = 1 := by decide
  constructor
  · refine ⟨_, _, _, _, _, _, _, r1, r2, r4, r5, ?_, frame_run _ exampleFrame hv (Or.inr t3) t4 t5 t6 t7,
      repeat_poll_suppressed _ exampleFrame (hro.2 hreg) t8 t9 t10 ((hrh _ _).2 hhas)⟩
    rw [enable_present 256 false true 13 1 _ (hro.2 hreg)
      ((hrh 13 1).2 (by rw [← hf1, ← hf2]; exact hhas))]
    rfl
  · have hreg2 : registryOk halfRegistry := registryOk_withRegistry _ (by simp)
    have hent : registryEntries halfRegistry = (List.range 128).map fun j => (1, j) :=
      registryEntries_withRegistry _
    have hhas2 : registryHas halfRegistry 1 0 := by
      simp [registryHas, hent]
    refine ⟨hreg2, ?_, hhas2, fun fuel => ?_⟩
    · rw [hent]
      exact List.Nodup.map (fun x y h => by simpa using h) (List.nodup_range 128)
    · exact enable_diverges fuel 1 0 true halfRegistry hreg2 hhas2 (by
        simp [halfRegistry, withRegistry])

/-- C4 (amended): for a pair in a well-formed, duplicate-free registry of fewer than
128 entries, starting from an idle decoder whose last poll reported nothing: the
poll after a valid frame F1 carrying the pair returns true, every poll before the
next frame returns false, the poll after a valid frame F2 with the same pair
returns false; if `IR_enableRepetition` is then called for the pair with both
allocations succeeding (and fuel for 256 loop tests) it returns, and the poll after
a further valid frame with the same pair returns true. -/
theorem C4_repeat_suppression (s : State) (f1 f2 f3 : Frame) (fuel : Nat)
    (hv1 : f1.valid) (hv2 : f2.valid) (hv3 : f3.valid)
    (hst : s.state = SLEEP_STATE) (hi : s.bufferIndex = 0) (hc : s.nonSavingCounter = 0)
    (hl : s.level = true) (hr : s.bufferReady = false) (hla : s.lastAvailable = false)
    (hreg : registryOk s) (hnd : (registryEntries s).Nodup)
    (hhas : registryHas s (f1.field 20 4) (f1.field 32 8))
    (h2 : f2.field 20 4 = f1.field 20 4 ∧ f2.field 32 8 = f1.field 32 8)
    (h3 : f3.field 20 4 = f1.field 20 4 ∧ f3.field 32 8 = f1.field 32 8)
    (hn : s.numOfButtons < 128) (hfuel : 256 ≤ fuel) :
    ∃ s1 s2, edges s f1.ticks = .ok s1 ∧ IR_available s1 = .ok (true, s2) ∧
      (∀ n, laterPoll s2 n = .ok (false, s2)) ∧
      ∃ s3 s4, edges s2 f2.ticks = .ok s3 ∧ IR_available s3 = .ok (false, s4) ∧
      ∃ s5, IR_enableRepetition fuel true true (f1.field 20 4) (f1.field 32 8) s4 = .ok s5 ∧
      ∃ s6 s7, edges s5 f3.ticks = .ok s6 ∧ IR_available s6 = .ok (true, s7) := by
  obtain ⟨r1, r2, r3, r4, r5⟩ := suppression_run s f1 f2 hv1 hv2 hst hi hc hl hr hla hreg hhas h2
  obtain ⟨t1, t2, t3, t4, t5, t6, t7, t8, t9, t10⟩ := suppressed_state s f1 f2
  obtain ⟨hre, hro, hrh⟩ := registry_congr s _ t1 t2
  have hreg4 := hro.2 hreg
  have hhas4 := (hrh _ _).2 hhas
  have hnd4 : (registryEntries
      (pollSuppressed (frameDone (pollAccepted (frameDone s f1)) f2))).Nodup := by
    rw [hre]; exact hnd
  have hen := enable_removes fuel (f1.field 20 4) (f1.field 32 8) _ hreg4 hnd4 hhas4
    (by rw [t1]; exact hn) hfuel
  obtain ⟨g1, -, g3⟩ := removed_registry (f1.field 20 4) (f1.field 32 8) _ hreg4 hnd4 hhas4
  exact ⟨_, _, r1, r2, r3, _, _, r4, r5, _, hen, _, _,
    frame_run _ f3 hv3 (Or.inr t3) t4 t5 t6 t7,
    repeat_poll_accepted _ f3 g1 (by rw [h3.1, h3.2]; exact g3)⟩

/-- C4 (amended) at the example frame sent three times with the pair (13, 1) in the
registry. -/
theorem C4_repeat_suppression_witness :
    registryOk suppressingState ∧ (registryEntries suppressingState).Nodup ∧
    registryHas suppressingState (exampleFrame.field 20 4) (exampleFrame.field 32 8) ∧
    ∃ s1 s2, edges suppressingState exampleFrame.ticks = .ok s1 ∧
      IR_available s1 = .ok (true, s2) ∧
      (∀ n, laterPoll s2 n = .ok (false, s2)) ∧
      ∃ s3 s4, edges s2 exampleFrame.ticks = .ok s3 ∧ IR_available s3 = .ok (false, s4) ∧
      ∃ s5, IR_enableRepetition 256 true true (exampleFrame.field 20 4)
          (exampleFrame.field 32 8) s4 = .ok s5 ∧
      ∃ s6 s7, edges s5 exampleFrame.ticks = .ok s6 ∧ IR_available s6 = .ok (true, s7) :=
  ⟨by decide, by decide, by decide,
    C4_repeat_suppression suppressingState exampleFrame exampleFrame exampleFrame 256
      (by decide) (by decide) (by decide) rfl rfl rfl rfl rfl rfl (by decide) (by decide)
      (by decide) ⟨rfl, rfl⟩ ⟨rfl, rfl⟩ (by decide) (by decide)⟩

/-- C5, counterexample: with the pair (13, 1) in the registry, the example frame
(address 0) is captured and reported, then a frame with the same pair and address 5
is captured; the poll of the repeat returns false and changes the stored address
from 0 to 5. -/
theorem C5_suppressed_repeat_changes_address :
    ∃ s0 s1 s2 s3 s4, IR_disableRepetition true 13 1 initState = .ok s0 ∧
      edges s0 exampleFrame.ticks = .ok s1 ∧ IR_available s1 = .ok (true, s2) ∧
      edges s2 otherAddressFrame.ticks = .ok s3 ∧ s3.bufferReady = true ∧
      IR_available s3 = .ok (false, s4) ∧ s3.IR.address = 0 ∧ s4.IR.address = 5 :=
  ⟨_, _, _, _, _, disable_example, repeatReady_run.1, repeatReady_run.2.1, repeatReady_run.2.2.1,
    rfl, repeatReady_run.2.2.2, by decide, by decide⟩

/-- C5 (amended): in every reachable state in which `IR_available` is called with
frame-ready set and returns false, `IR.systemCode` and `IR.command` after the call
equal their values before the call, and `IR.address` is overwritten with the
address that this call decodes: the address bits of the newly captured buffer when
no buffer-clear request is pending, and 63 when one is pending, because the buffer
is then zeroed before it is decoded. -/
theorem C5_suppressed_repeat_keeps_pair (s s1 : State) (hreach : Reachable s)
    (hr : s.bufferReady = true) (he : IR_available s = .ok (false, s1)) :
    s1.IR.systemCode = s.IR.systemCode ∧ s1.IR.command = s.IR.command ∧
    s1.IR.address = decoded (serviceClear s).durationBuffer 8 6 ∧
    (s.clearBuffer = false → s1.IR.address = decoded s.durationBuffer 8 6) ∧
    (s.clearBuffer = true → s1.IR.address = 63) := by
  obtain ⟨-, hl1, hl2⟩ := reachable_inv s hreach
  have hIR := IR_available_ready_IR s hr false s1 he
  rw [IR_available_ready s hr] at he
  split at he
  · rename_i hsame
    rw [hIR]
    refine ⟨hsame.1.trans hl1.symm, hsame.2.1.trans hl2.symm, rfl, ?_, ?_⟩
    · intro hcb
      show decoded (serviceClear s).durationBuffer 8 6 = _
      rw [serviceClear_of_not s hcb]
    · intro hcb
      have := (decodedIR_cleared s hcb).2
      rw [this]
  · cases he

/-- C5 (amended) at the repeat with the other address, where no clear request is
pending (system code 13 and command 1 are kept and the stored address becomes that
of the captured buffer), and at a repeat with a clear request pending (the stored
address becomes 63 while the captured buffer holds the address 0). -/
theorem C5_suppressed_repeat_keeps_pair_witness :
    (Reachable repeatReady ∧ repeatReady.bufferReady = true ∧
      repeatReady.clearBuffer = false ∧
      IR_available repeatReady = .ok (false, pollSuppressed repeatReady) ∧
      (pollSuppressed repeatReady).IR.systemCode = repeatReady.IR.systemCode ∧
      (pollSuppressed repeatReady).IR.command = repeatReady.IR.command ∧
      (pollSuppressed repeatReady).IR.address = decoded repeatReady.durationBuffer 8 6) ∧
    (Reachable lateRepeatReady ∧ lateRepeatReady.bufferReady = true ∧
      lateRepeatReady.clearBuffer = true ∧
      IR_available lateRepeatReady = .ok (false, pollSuppressed lateRepeatReady) ∧
      decoded lateRepeatReady.durationBuffer 8 6 = 0 ∧
      (pollSuppressed lateRepeatReady).IR.systemCode = lateRepeatReady.IR.systemCode ∧
      (pollSuppressed lateRepeatReady).IR.command = lateRepeatReady.IR.command ∧
      (pollSuppressed lateRepeatReady).IR.address = 63) :=
  ⟨⟨reachable_repeatReady, rfl, rfl, repeatReady_run.2.2.2,
      (C5_suppressed_repeat_keeps_pair repeatReady (pollSuppressed repeatReady)
        reachable_repeatReady rfl repeatReady_run.2.2.2).1,
      (C5_suppressed_repeat_keeps_pair repeatReady (pollSuppressed repeatReady)
        reachable_repeatReady rfl repeatReady_run.2.2.2).2.1,
      (C5_suppressed_repeat_keeps_pair repeatReady (pollSuppressed repeatReady)
        reachable_repeatReady rfl repeatReady_run.2.2.2).2.2.2.1 rfl⟩,
    reachable_lateRepeatReady, lateRepeatReady_poll.1, lateRepeatReady_poll.2.1,
    lateRepeatReady_poll.2.2.1, lateRepeatReady_poll.2.2.2.1,
    (C5_suppressed_repeat_keeps_pair lateRepeatReady (pollSuppressed lateRepeatReady)
      reachable_lateRepeatReady lateRepeatReady_poll.1 lateRepeatReady_poll.2.2.1).1,
    (C5_suppressed_repeat_keeps_pair lateRepeatReady (pollSuppressed lateRepeatReady)
      reachable_lateRepeatReady lateRepeatReady_poll.1 lateRepeatReady_poll.2.2.1).2.1,
    (C5_suppressed_repeat_keeps_pair lateRepeatReady (pollSuppressed lateRepeatReady)
      reachable_lateRepeatReady lateRepeatReady_poll.1 lateRepeatReady_poll.2.2.1).2.2.2.2
      lateRepeatReady_poll.2.1⟩

/-- C6: in each of the phases 1 to 7, with frame-ready clear, an edge whose tick
count (0..255) the phase does not accept resets the decoder: phase Idle,
`bufferIndex` 0, preamble counter 0, level mark, available false, frame-ready
still clear. -/
theorem C6_rejection_resets (s : State) (tcnt : Nat) (hr : s.bufferReady = false)
    (hp : 1 ≤ s.state ∧ s.state ≤ 7) (ht : tcnt < 256)
    (hrej : accepts s.state s.level tcnt = false) :
    ∃ s1, edge s tcnt = .ok s1 ∧ s1.state = SLEEP_STATE ∧ s1.bufferIndex = 0 ∧
      s1.nonSavingCounter = 0 ∧ s1.level = true ∧ s1.available = false ∧
      s1.bufferReady = false := by
  have hS : inWindow LOGIC_SHORT tcnt = decide (2 ≤ tcnt ∧ tcnt ≤ 5) := by
    rw [Bool.eq_iff_iff]; simpa using inWindow_short_iff tcnt ht
  have hL : inWindow LOGIC_LONG tcnt = decide (8 ≤ tcnt ∧ tcnt ≤ 11) := by
    rw [Bool.eq_iff_iff]; simpa using inWindow_long_iff tcnt ht
  have hP : inWindow LEADING_PULSE tcnt = decide (25 ≤ tcnt ∧ tcnt ≤ 28) := by
    rw [Bool.eq_iff_iff]; simpa using inWindow_leading_iff tcnt ht
  have hG : inWindow INITIAL_SPACE tcnt = decide (12 ≤ tcnt ∧ tcnt ≤ 15) := by
    rw [Bool.eq_iff_iff]; simpa using inWindow_initial_iff tcnt ht
  have hF : inWindow FINAL_PULSE tcnt = decide (2 ≤ tcnt ∧ tcnt ≤ 5) := by
    rw [Bool.eq_iff_iff]; simpa using inWindow_final_iff tcnt ht
  obtain ⟨h1, h7⟩ := hp
  have hs : ∃ p, s.state = p := ⟨_, rfl⟩
  obtain ⟨p, hpe⟩ := hs
  rw [hpe] at hrej h1 h7
  refine ⟨{ setSleepState { s with TCNT0 := tcnt } with TCNT0 := 0 }, ?_, rfl, rfl, rfl, rfl, rfl,
    by simp [setSleepState, hr]⟩
  interval_cases p <;> simp only [accepts, Bool.or_eq_false_iff, Bool.and_eq_false_iff] at hrej
  case «1» => simp [edge, INT0_vect, INT0_switch, hpe, hr, hP, hrej, setSleepState]
  case «2» => simp [edge, INT0_vect, INT0_switch, hpe, hr, hG, hrej, setSleepState]
  case «7» => simp [edge, INT0_vect, INT0_switch, hpe, hr, hF, hrej, setSleepState]
  all_goals
    rcases hrej with ⟨ha, hb | hb⟩ <;>
      simp [edge, INT0_vect, INT0_switch, fieldCase, hpe, hr, hS, hL, ha, hb, setSleepState]

/-- C6 at the state waiting for the end of the leading mark, with an edge after 100
ticks. -/
theorem C6_rejection_resets_witness :
    leadingState.bufferReady = false ∧ (1 ≤ leadingState.state ∧ leadingState.state ≤ 7) ∧
    (100 < 256) ∧ accepts leadingState.state leadingState.level 100 = false ∧
    ∃ s1, edge leadingState 100 = .ok s1 ∧ s1.state = SLEEP_STATE ∧ s1.bufferIndex = 0 ∧
      s1.nonSavingCounter = 0 ∧ s1.level = true ∧ s1.available = false ∧
      s1.bufferReady = false :=
  ⟨rfl, by decide, by decide, by decide,
    C6_rejection_resets leadingState 100 rfl (by decide) (by decide) (by decide)⟩

/-- C7: while frame-ready is set, an edge with any tick count leaves every variable
of the decoder unchanged; only the timer register is zeroed. -/
theorem C7_exclusivity_window (s : State) (tcnt : Nat) (hr : s.bufferReady = true) :
    edge s tcnt = .ok { s with TCNT0 := 0 } := by
  simp [edge, INT0_vect, hr]

/-- C7 at the state reached by capturing the example frame. -/
theorem C7_exclusivity_window_witness :
    exampleReady.bufferReady = true ∧
    edge exampleReady 200 = .ok { exampleReady with TCNT0 := 0 } :=
  ⟨rfl, C7_exclusivity_window exampleReady 200 rfl⟩

/-- C8: in every reachable state, the final-pulse phase is entered only with
`bufferIndex` = 36 and preamble counter = 60, and whenever the edge handler raises
frame-ready it does so from that phase, with exactly 36 entries written. -/
theorem C8_buffer_full_at_frame_ready (s : State) (h : Reachable s) :
    (s.state = FINAL_PULSE_STATE → s.bufferIndex = 36 ∧ s.nonSavingCounter = 60) ∧
    (∀ t s1, edge s t = .ok s1 → s.bufferReady = false → s1.bufferReady = true →
      s.state = FINAL_PULSE_STATE ∧ s.bufferIndex = 36 ∧ s.nonSavingCounter = 60) := by
  obtain ⟨hp, -⟩ := reachable_inv s h
  have h7 := hp.2.2.2.2.2.2
  refine ⟨fun hs => ?_, fun t s1 he hr hr1 => ?_⟩
  · have := h7 hs
    exact ⟨this.2, this.1⟩
  · have hs := edge_raises_ready s s1 t he hr hr1
    have := h7 hs
    exact ⟨hs, this.2, this.1⟩

/-- C8 at the state waiting for the final mark of the example frame. -/
theorem C8_buffer_full_at_frame_ready_witness :
    Reachable finalPulseState ∧ finalPulseState.state = FINAL_PULSE_STATE ∧
    (finalPulseState.state = FINAL_PULSE_STATE →
      finalPulseState.bufferIndex = 36 ∧ finalPulseState.nonSavingCounter = 60) ∧
    (∀ t s1, edge finalPulseState t = .ok s1 → finalPulseState.bufferReady = false →
      s1.bufferReady = true →
      finalPulseState.state = FINAL_PULSE_STATE ∧ finalPulseState.bufferIndex = 36 ∧
        finalPulseState.nonSavingCounter = 60) :=
  ⟨reachable_finalPulseState, rfl, C8_buffer_full_at_frame_ready finalPulseState
    reachable_finalPulseState⟩

/-- C9, evaluation at the failing input: after `IR_init(65520)` and the first edge of
a transmission, the idle-tick counter is 1 and the decoder is in the leading-pulse
phase; three overflow ticks, and any further number of them, leave that phase
unchanged. -/
theorem C9_wrapped_interval_never_times_out :
    edge (IR_init 65520 initState) 0 = .ok wrappedIntervalState ∧
    wrappedIntervalState.ovfCounter = 1 ∧
    (overflowTicks wrappedIntervalState 3).state = LEADING_PULSE_STATE ∧
    ∀ n, (overflowTicks wrappedIntervalState n).state = LEADING_PULSE_STATE := by
  have key : ∀ n, (overflowTicks wrappedIntervalState n).state = LEADING_PULSE_STATE ∧
      (overflowTicks wrappedIntervalState n).ovfCounter = 1 ∧
      (overflowTicks wrappedIntervalState n).clearBTime = 65520 := by
    intro n
    induction n with
    | zero => exact ⟨rfl, rfl, rfl⟩
    | succ n ih =>
      obtain ⟨h1, h2, h3⟩ := ih
      have hN : NUM_OF_CLEAR_BUFFER_OVFS 65520 = 0 := by decide
      have e := overflow_requests_clear (overflowTicks wrappedIntervalState n)
        (by rw [h2]; decide) (by rw [h3, hN]; exact Nat.zero_le _)
      rw [overflowTicks, e]
      exact ⟨h1, rfl, h3⟩
  refine ⟨?_, rfl, (key 3).1, fun n => (key n).1⟩
  simp [edge, INT0_vect, INT0_switch, initState, IR_init, wrappedIntervalState, SLEEP_STATE]

/-- C10, counterexample: a well-formed, duplicate-free registry of 255 entries that
does not hold (0, 0).  `IR_disableRepetition(0, 0)` wraps the entry count to 0; when
`realloc` returns a block the handler then writes before the start of the block
(undefined behaviour), and when `realloc` returns `NULL` the call leaves an empty
registry, which a second call changes to a registry of one entry. -/
theorem C10_full_registry_not_idempotent :
    registryOk fullRegistry ∧ (registryEntries fullRegistry).Nodup ∧
    ¬ registryHas fullRegistry 0 0 ∧
    IR_disableRepetition true 0 0 fullRegistry = .error .undefinedBehaviour ∧
    ∃ s1 s2, IR_disableRepetition false 0 0 fullRegistry = .ok s1 ∧ s1.numOfButtons = 0 ∧
      IR_disableRepetition true 0 0 s1 = .ok s2 ∧ s2.numOfButtons = 1 := by
  have hreg : registryOk fullRegistry := registryOk_withRegistry _ (by simp)
  have hent : registryEntries fullRegistry = (List.range 255).map fun j => (1, j) :=
    registryEntries_withRegistry _
  have hno : ¬ registryHas fullRegistry 0 0 := by
    simp [registryHas, hent]
  have hn : fullRegistry.numOfButtons = 255 := by
    simp [fullRegistry, withRegistry]
  refine ⟨hreg, ?_, hno, ?_, ?_⟩
  · rw [hent]
    exact List.Nodup.map (fun x y h => by simpa using h) (List.nodup_range 255)
  · simp only [IR_disableRepetition, isRepDisabled_ok _ 0 0 hreg, hno, decide_False, hn]
    simp [realloc, fullRegistry, withRegistry]
  · refine ⟨{ fullRegistry with numOfButtons := 0, buttonsPtr := none },
      { fullRegistry with numOfButtons := 1, buttonsPtr := some [0, 0] }, ?_, rfl, rfl, rfl⟩
    simp only [IR_disableRepetition, isRepDisabled_ok _ 0 0 hreg, hno, decide_False, hn]
    simp [realloc]

/-- C10 (amended): on a well-formed, duplicate-free registry, when the pair is
already contained, or the registry has fewer than 255 entries and the allocation
succeeds, `IR_disableRepetition` returns, a second call leaves the same state
(same entry count and entries) whatever the allocator does, and the registry then
holds exactly one entry equal to the pair. -/
theorem C10_disable_idempotent (ok : Bool) (a b : Nat) (s : State) (hreg : registryOk s)
    (hnd : (registryEntries s).Nodup)
    (hcase : registryHas s a b ∨ (s.numOfButtons < 255 ∧ ok = true)) :
    ∃ s1, IR_disableRepetition ok a b s = .ok s1 ∧
      (∀ ok2, IR_disableRepetition ok2 a b s1 = .ok s1) ∧
      registryOk s1 ∧ occurrences s1 a b = 1 := by
  by_cases hhas : registryHas s a b
  · exact ⟨s, disable_present ok a b s hreg hhas,
      fun ok2 => disable_present ok2 a b s hreg hhas, hreg,
      filter_eq_length_of_nodup _ _ hnd hhas⟩
  · rcases hcase with h | ⟨hn, rfl⟩
    · exact absurd h hhas
    · have hlen : (registryEntries s).length = s.numOfButtons := by simp [registryEntries]
      have hent := registryEntries_pack
        { s with
          numOfButtons := s.numOfButtons + 1
          buttonsPtr := some (pack (registryEntries s ++ [(a, b)])) }
        (registryEntries s ++ [(a, b)]) (by simp [hlen]) rfl
      have hreg1 : registryOk { s with
          numOfButtons := s.numOfButtons + 1
          buttonsPtr := some (pack (registryEntries s ++ [(a, b)])) } := by
        simp only [registryOk, blockBytes, Option.getD_some, pack_length, List.length_append,
          hlen, List.length_singleton]
        exact ⟨by omega, trivial⟩
      refine ⟨_, disable_absent a b s hreg hhas hn, fun ok2 => ?_, hreg1, ?_⟩
      · exact disable_present ok2 a b _ hreg1 (by simp [registryHas, hent])
      · simp only [occurrences, hent, List.filter_append, List.length_append,
          filter_eq_length_of_not_mem _ _ hhas]
        simp

/-- C10 (amended) at the initial state, for the pair (13, 1) and a successful
allocation. -/
theorem C10_disable_idempotent_witness :
    registryOk initState ∧ (registryEntries initState).Nodup ∧
    (registryHas initState 13 1 ∨ (initState.numOfButtons < 255 ∧ true = true)) ∧
    ∃ s1, IR_disableRepetition true 13 1 initState = .ok s1 ∧
      (∀ ok2, IR_disableRepetition ok2 13 1 s1 = .ok s1) ∧
      registryOk s1 ∧ occurrences s1 13 1 = 1 :=
  ⟨by decide, by decide, Or.inr ⟨by decide, rfl⟩,
    C10_disable_idempotent true 13 1 initState (by decide) (by decide)
      (Or.inr ⟨by decide, rfl⟩)⟩

/-- C11, failing input: a well-formed, duplicate-free registry of 128 entries that
holds (1, 127).  `IR_enableRepetition(1, 127)` with its first allocation
succeeding never returns, whatever the second allocation does: the 8-bit counter of
the copy loop wraps from 255 to 0 and never reaches the bound 256, so every amount
of fuel runs out. -/
theorem C11_enable_never_returns_at_128 :
    registryOk halfRegistry ∧ (registryEntries halfRegistry).Nodup ∧
    halfRegistry.numOfButtons = 128 ∧ registryHas halfRegistry 1 127 ∧
    ∀ fuel ok2, IR_enableRepetition fuel true ok2 1 127 halfRegistry = .error .outOfFuel := by
  have hreg : registryOk halfRegistry := registryOk_withRegistry _ (by simp)
  have hent : registryEntries halfRegistry = (List.range 128).map fun j => (1, j) :=
    registryEntries_withRegistry _
  have hhas : registryHas halfRegistry 1 127 := by
    simp [registryHas, hent]
  have hn : halfRegistry.numOfButtons = 128 := by
    simp [halfRegistry, withRegistry]
  refine ⟨hreg, ?_, hn, hhas, fun fuel ok2 =>
    enable_diverges fuel 1 127 ok2 halfRegistry hreg hhas (by omega)⟩
  rw [hent]
  exact List.Nodup.map (fun x y h => by simpa using h) (List.nodup_range 128)

/-- C12, counterexample: a well-formed registry of 255 entries that does not hold
(2, 7).  `IR_disableRepetition(2, 7)` wraps the 8-bit entry count to 0: when the
allocation succeeds the pair is stored before the start of the block (undefined
behaviour), and whenever the call returns the entry count is 0, not 256, and the
registry holds neither (2, 7) nor the pair (1, 0) it held before. -/
theorem C12_full_registry_cannot_grow :
    registryOk fullRegistry ∧ fullRegistry.numOfButtons = 255 ∧
    registryHas fullRegistry 1 0 ∧ ¬ registryHas fullRegistry 2 7 ∧
    IR_disableRepetition true 2 7 fullRegistry = .error .undefinedBehaviour ∧
    ∀ ok s1, IR_disableRepetition ok 2 7 fullRegistry = .ok s1 →
      s1.numOfButtons = 0 ∧ ¬ registryHas s1 2 7 ∧ ¬ registryHas s1 1 0 := by
  have hreg : registryOk fullRegistry := registryOk_withRegistry _ (by simp)
  have hent : registryEntries fullRegistry = (List.range 255).map fun j => (1, j) :=
    registryEntries_withRegistry _
  have hno : ¬ registryHas fullRegistry 2 7 := by
    simp [registryHas, hent]
  have hn : fullRegistry.numOfButtons = 255 := by
    simp [fullRegistry, withRegistry]
  have herr : IR_disableRepetition true 2 7 fullRegistry = .error .undefinedBehaviour := by
    simp only [IR_disableRepetition, isRepDisabled_ok _ 2 7 hreg, hno, decide_False, hn]
    simp [realloc, fullRegistry, withRegistry]
  refine ⟨hreg, hn, by simp [registryHas, hent], hno, herr, ?_⟩
  intro ok s1 h
  cases ok with
  | true => rw [herr] at h; cases h
  | false =>
    have e : IR_disableRepetition false 2 7 fullRegistry =
        .ok { fullRegistry with numOfButtons := 0, buttonsPtr := none } := by
      simp only [IR_disableRepetition, isRepDisabled_ok _ 2 7 hreg, hno, decide_False, hn]
      simp [realloc]
    rw [e] at h
    cases h
    simp [registryHas, registryEntries]

/-- C12 (amended): for every well-formed registry of fewer than 255 entries and
every pair not contained in it, `IR_disableRepetition` with a successful
allocation returns and leaves a well-formed registry that contains the pair and
every pair contained before; the entries are the former entries followed by the
pair, and the entry count is one greater than before. -/
theorem C12_disable_grows_by_one (a b : Nat) (s : State) (hreg : registryOk s)
    (hno : ¬ registryHas s a b) (hn : s.numOfButtons < 255) :
    ∃ s1, IR_disableRepetition true a b s = .ok s1 ∧ registryOk s1 ∧
      registryHas s1 a b ∧ (∀ x y, registryHas s x y → registryHas s1 x y) ∧
      registryEntries s1 = registryEntries s ++ [(a, b)] ∧
      s1.numOfButtons = s.numOfButtons + 1 := by
  obtain ⟨h1, h2⟩ := appended_registry a b s hn
  refine ⟨_, disable_absent a b s hreg hno hn, h1, ?_, ?_, h2, rfl⟩
  · simp [registryHas, h2]
  · intro x y hxy
    simp only [registryHas, h2, List.mem_append]
    exact Or.inl hxy

/-- C12 (amended) at the registry that holds the single pair (13, 1), for the new
pair (2, 7). -/
theorem C12_disable_grows_by_one_witness :
    registryOk suppressingState ∧ ¬ registryHas suppressingState 2 7 ∧
    suppressingState.numOfButtons < 255 ∧
    ∃ s1, IR_disableRepetition true 2 7 suppressingState = .ok s1 ∧ registryOk s1 ∧
      registryHas s1 2 7 ∧
      (∀ x y, registryHas suppressingState x y → registryHas s1 x y) ∧
      registryEntries s1 = registryEntries suppressingState ++ [(2, 7)] ∧
      s1.numOfButtons = suppressingState.numOfButtons + 1 :=
  ⟨by decide, by decide, by decide,
    C12_disable_grows_by_one 2 7 suppressingState (by decide) (by decide) (by decide)⟩

/-- C13: for every argument and every prior state, after `IR_init` the stored clear
interval is the larger of the argument and 83, and all 36 buffer entries are
false. -/
theorem C13_init_floor_and_zero (clearBufferTime : Nat) (s : State) :
    (IR_init clearBufferTime s).clearBTime = max clearBufferTime 83 ∧
    ∀ i : Fin 36, (IR_init clearBufferTime s).durationBuffer i = false := by
  constructor
  · simp only [IR_init]
    split <;> omega
  · intro i
    simp only [IR_init, zeroBuffer_eq]

/-- C14, failing input: the edges `0, 0` (the second is rejected as a leading mark
and leaves a clear request pending) followed by the first 47 edges of the example
frame, whose system code is 13, reach a state in which the clear request is
pending, the phase is SystemCodeField and four entries are stored, the fourth
being `true`.  A poll in that state returns false and zeroes the stored entries;
the capture goes on from buffer index 4, the rest of the frame raises frame-ready
and the next poll returns true with `IR.systemCode = 15`. -/
theorem C14_clear_zeroes_capture_in_progress :
    edges initState (0 :: 0 :: exampleFrame.ticks.take 47) = .ok interruptedCapture ∧
    exampleFrame.ticks = exampleFrame.ticks.take 47 ++ remainingTicks ∧
    Reachable interruptedCapture ∧ interruptedCapture.clearBuffer = true ∧
    interruptedCapture.state = SYSTEM_CODE_STATE ∧ interruptedCapture.bufferIndex = 4 ∧
    interruptedCapture.durationBuffer ⟨3, by decide⟩ = true ∧
    IR_available interruptedCapture = .ok (false, afterClear) ∧
    afterClear.durationBuffer ⟨3, by decide⟩ = false ∧
    afterClear.state = SYSTEM_CODE_STATE ∧ afterClear.bufferIndex = 4 ∧
    exampleFrame.valid ∧ exampleFrame.field 20 4 = 13 ∧
    ∃ s3 s4, edges afterClear remainingTicks = .ok s3 ∧ IR_available s3 = .ok (true, s4) ∧
      s4.IR = ⟨15, 0, 1⟩ := by
  obtain ⟨s3, h1, h2, h3, h4⟩ := interrupted_rest
  refine ⟨edges_interruptedCapture, by decide, reachable_interruptedCapture, rfl, rfl, rfl,
    by decide, idle_polls interruptedCapture rfl rfl 0, by decide, rfl, rfl, by decide,
    by decide, s3, pollAccepted s3, h1, ?_, h4⟩
  rw [IR_available_ready s3 h2]
  have : ¬ sameAsLast s3 := fun h => by
    have := h.2.2
    rw [h3] at this
    cases this
  rw [if_neg this]

/-- C15: for a tick count `t` in 0..255 each comparison of the edge handler is
a symmetric tolerance of 256 µs around its nominal duration on 128 µs ticks:
leading mark iff `|128 t - 3380| ≤ 256` iff `t` in 25..28, leading gap iff
`|128 t - 1690| ≤ 256` iff `t` in 12..15, short interval and final mark iff
`|128 t - 420| ≤ 256` iff `t` in 2..5, long interval iff `|128 t - 1270| ≤ 256`
iff `t` in 8..11.  The product `TICK * t` fits a signed 16-bit `int`, no bound
`nominal ± timeRange` wraps, and no tick count is both short and long.  The
handler acts on exactly these outcomes: from the leading-mark phase it enters the
leading-gap phase iff `t` is in 25..28, from the leading-gap phase it enters the
preamble iff `t` is in 12..15, from the final-mark phase it raises frame-ready iff
`t` is in 2..5, and in a field phase it stores `true` iff `t` is in 2..5 and
stores `false` on a space iff `t` is in 8..11. -/
theorem C15_timing_windows (t : Nat) (ht : t < 256) :
    ((inWindow LEADING_PULSE t = true ↔ |(128 : Int) * t - 3380| ≤ 256) ∧
      (inWindow LEADING_PULSE t = true ↔ 25 ≤ t ∧ t ≤ 28)) ∧
    ((inWindow INITIAL_SPACE t = true ↔ |(128 : Int) * t - 1690| ≤ 256) ∧
      (inWindow INITIAL_SPACE t = true ↔ 12 ≤ t ∧ t ≤ 15)) ∧
    ((inWindow LOGIC_SHORT t = true ↔ |(128 : Int) * t - 420| ≤ 256) ∧
      (inWindow LOGIC_SHORT t = true ↔ 2 ≤ t ∧ t ≤ 5)) ∧
    ((inWindow FINAL_PULSE t = true ↔ |(128 : Int) * t - 420| ≤ 256) ∧
      (inWindow FINAL_PULSE t = true ↔ 2 ≤ t ∧ t ≤ 5)) ∧
    ((inWindow LOGIC_LONG t = true ↔ |(128 : Int) * t - 1270| ≤ 256) ∧
      (inWindow LOGIC_LONG t = true ↔ 8 ≤ t ∧ t ≤ 11)) ∧
    (TICK * t ≤ 32767 ∧
      ∀ nominal ∈ [LEADING_PULSE, INITIAL_SPACE, FINAL_PULSE, LOGIC_SHORT, LOGIC_LONG],
        timeRange ≤ nominal ∧ nominal + timeRange < 65536) ∧
    ¬ (inWindow LOGIC_SHORT t = true ∧ inWindow LOGIC_LONG t = true) ∧
    ∀ s : State, s.bufferReady = false →
      (s.state = LEADING_PULSE_STATE →
        ((∃ s1, edge s t = .ok s1 ∧ s1.state = LEADING_SPACE_STATE) ↔ 25 ≤ t ∧ t ≤ 28)) ∧
      (s.state = LEADING_SPACE_STATE →
        ((∃ s1, edge s t = .ok s1 ∧ s1.state = NON_SAVING_STATE) ↔ 12 ≤ t ∧ t ≤ 15)) ∧
      (s.state = FINAL_PULSE_STATE →
        ((∃ s1, edge s t = .ok s1 ∧ s1.bufferReady = true) ↔ 2 ≤ t ∧ t ≤ 5)) ∧
      (∀ h : s.bufferIndex < 36,
        s.state = SYSTEM_CODE_STATE ∨ s.state = ADDRESS_STATE ∨ s.state = COMMAND_STATE →
        ((∃ s1, edge s t = .ok s1 ∧ s1.bufferIndex = s.bufferIndex + 1 ∧
            s1.durationBuffer ⟨s.bufferIndex, h⟩ = true) ↔ 2 ≤ t ∧ t ≤ 5) ∧
        (s.level = false →
          ((∃ s1, edge s t = .ok s1 ∧ s1.bufferIndex = s.bufferIndex + 1 ∧
            s1.durationBuffer ⟨s.bufferIndex, h⟩ = false) ↔ 8 ≤ t ∧ t ≤ 11))) := by
  have hs := inWindow_short_iff t ht
  have hl := inWindow_long_iff t ht
  have hp := inWindow_leading_iff t ht
  have hi := inWindow_initial_iff t ht
  have hf := inWindow_final_iff t ht
  refine ⟨⟨?_, hp⟩, ⟨?_, hi⟩, ⟨?_, hs⟩, ⟨?_, hf⟩, ⟨?_, hl⟩, ⟨?_, ?_⟩, ?_, ?_⟩
  · rw [hp, abs_le]; omega
  · rw [hi, abs_le]; omega
  · rw [hs, abs_le]; omega
  · rw [hf, abs_le]; omega
  · rw [hl, abs_le]; omega
  · simp only [TICK]; omega
  · simp [LEADING_PULSE, INITIAL_SPACE, FINAL_PULSE, LOGIC_SHORT, LOGIC_LONG, timeRange, TICK,
      NUM_OF_TICKS]
  · rw [hs, hl]; omega
  · intro s hr
    refine ⟨?_, ?_, ?_, ?_⟩
    · intro hst
      rw [← hp]
      by_cases hw : inWindow LEADING_PULSE t = true
      · simp [edge, INT0_vect, INT0_switch, hr, hst, hw, LEADING_PULSE_STATE,
          LEADING_SPACE_STATE]
      · simp [edge, INT0_vect, INT0_switch, hr, hst, hw, LEADING_PULSE_STATE,
          LEADING_SPACE_STATE, setSleepState, SLEEP_STATE]
    · intro hst
      rw [← hi]
      by_cases hw : inWindow INITIAL_SPACE t = true
      · simp [edge, INT0_vect, INT0_switch, hr, hst, hw, LEADING_SPACE_STATE,
          NON_SAVING_STATE]
      · simp [edge, INT0_vect, INT0_switch, hr, hst, hw, LEADING_SPACE_STATE,
          NON_SAVING_STATE, setSleepState, SLEEP_STATE]
    · intro hst
      rw [← hf]
      by_cases hw : inWindow FINAL_PULSE t = true
      · simp [edge, INT0_vect, INT0_switch, hr, hst, hw, FINAL_PULSE_STATE]
      · simp [edge, INT0_vect, INT0_switch, hr, hst, hw, FINAL_PULSE_STATE, setSleepState]
    · intro h hst
      have hne : ¬ (inWindow LOGIC_SHORT t = true ∧ inWindow LOGIC_LONG t = true) := by
        rw [hs, hl]; omega
      rw [← hs, ← hl]
      have hmod : (s.bufferIndex + 1) % 256 = s.bufferIndex + 1 := by omega
      have hidx : s.bufferIndex < BUFFER_SIZE := h
      constructor
      · rcases hst with hst | hst | hst <;>
          by_cases h1 : inWindow LOGIC_SHORT t = true <;>
          by_cases h2 : inWindow LOGIC_LONG t = true <;>
          cases hlv : s.level <;>
          simp [edge, INT0_vect, INT0_switch, fieldCase, saveInterval, hr, hst, hidx, h1, h2,
            hlv, hmod, setSleepState, SYSTEM_CODE_STATE, ADDRESS_STATE, COMMAND_STATE]
      · intro hlv
        by_cases h1 : inWindow LOGIC_SHORT t = true
        · have h2 : ¬ inWindow LOGIC_LONG t = true := fun h2 => hne ⟨h1, h2⟩
          rcases hst with hst | hst | hst <;>
            simp [edge, INT0_vect, INT0_switch, fieldCase, saveInterval, hr, hst, hidx, h1, h2,
              hlv, hmod, setSleepState, SYSTEM_CODE_STATE, ADDRESS_STATE, COMMAND_STATE]
        · by_cases h2 : inWindow LOGIC_LONG t = true <;>
            rcases hst with hst | hst | hst <;>
            simp [edge, INT0_vect, INT0_switch, fieldCase, saveInterval, hr, hst, hidx, h1, h2,
              hlv, hmod, setSleepState, SYSTEM_CODE_STATE, ADDRESS_STATE, COMMAND_STATE]

/-- C15 at a tick count of 3, which is a short interval. -/
theorem C15_timing_windows_witness :
    (inWindow LOGIC_SHORT 3 = true ↔ 2 ≤ 3 ∧ 3 ≤ 5) :=
  (C15_timing_windows 3 (by decide)).2.2.1.2

/-- C16: in every reachable state whose phase is Preamble, SystemCodeField,
AddressField or CommandField, an edge with a tick count in the long window 8..11
is rejected when the level is mark (the phase becomes Idle, the buffer index is
reset and no entry of the buffer changes) and accepted when the level is space:
the phase does not become Idle and the level toggles to mark; in the Preamble phase
the counter advances and the buffer is untouched, in a field phase `false` is
stored at `bufferIndex`, which is inside the buffer, and `bufferIndex` advances
by one. -/
theorem C16_long_only_on_space (s : State) (t : Nat) (hreach : Reachable s)
    (hp : 3 ≤ s.state ∧ s.state ≤ 6) (ht : 8 ≤ t ∧ t ≤ 11) :
    (s.level = true →
      ∃ s1, edge s t = .ok s1 ∧ s1.state = SLEEP_STATE ∧ s1.bufferIndex = 0 ∧
        s1.durationBuffer = s.durationBuffer) ∧
    (s.level = false →
      ∃ s1, edge s t = .ok s1 ∧ s1.state ≠ SLEEP_STATE ∧ s1.level = true ∧
        (s.state = NON_SAVING_STATE →
          s1.nonSavingCounter = s.nonSavingCounter + 1 ∧ s1.bufferIndex = s.bufferIndex ∧
          s1.durationBuffer = s.durationBuffer) ∧
        (4 ≤ s.state →
          ∃ h : s.bufferIndex < 36,
            s1.durationBuffer = Function.update s.durationBuffer ⟨s.bufferIndex, h⟩ false ∧
            s1.bufferIndex = s.bufferIndex + 1)) := by
  obtain ⟨hinv, -⟩ := reachable_inv s hreach
  have hr : s.bufferReady = false := by
    cases hb : s.bufferReady with
    | false => rfl
    | true => have := reachable_ready s hreach hb; omega
  have hlong : inWindow LOGIC_LONG t = true := (inWindow_long_iff t (by omega)).2 ht
  have hshort : inWindow LOGIC_SHORT t = false := by
    cases hb : inWindow LOGIC_SHORT t with
    | false => rfl
    | true => have := (inWindow_short_iff t (by omega)).1 hb; omega
  have hfield := phaseInv_field_index s hinv
  obtain ⟨-, -, h3, -⟩ := hinv
  have hst : s.state = 3 ∨ s.state = 4 ∨ s.state = 5 ∨ s.state = 6 := by omega
  constructor
  · intro hlv
    rcases hst with hst | hst | hst | hst <;>
      simp [edge, INT0_vect, INT0_switch, fieldCase, hr, hst, hlong, hshort, hlv, setSleepState]
  · intro hlv
    rcases hst with hst | hst | hst | hst
    · have hc : s.nonSavingCounter < 60 := by have := h3 hst; omega
      have hmod : (s.nonSavingCounter + 1) % 256 = s.nonSavingCounter + 1 := by omega
      refine ⟨{ nonSavingAccept { s with TCNT0 := t } with TCNT0 := 0 }, ?_, ?_, ?_, ?_, ?_⟩
      · simp [edge, INT0_vect, INT0_switch, hr, hst, hlong, hshort, hlv]
      · simp only [nonSavingAccept, SLEEP_STATE, SYSTEM_CODE_STATE, ADDRESS_STATE,
          FINAL_PULSE_STATE]
        split <;> omega
      · simp [nonSavingAccept, hlv]
      · intro _
        simp [nonSavingAccept, hmod]
      · intro h; simp only [hst] at h; omega
    all_goals
      have hidx : s.bufferIndex < 36 := hfield ⟨by omega, by omega⟩
      have hidx2 : s.bufferIndex < BUFFER_SIZE := hidx
      have hmod : (s.bufferIndex + 1) % 256 = s.bufferIndex + 1 := by omega
      simp only [edge, INT0_vect, INT0_switch, fieldCase, saveInterval, hr, hst, hlong, hshort,
        hlv, hidx2, hmod, SLEEP_STATE, NON_SAVING_STATE, COMMAND_STATE]
      simp
      split <;> simp

/-- C16 at a reachable state of the system-code field whose level is space, for a
tick count of 10. -/
theorem C16_long_only_on_space_witness :
    ∃ s1, edge fieldSpaceState 10 = .ok s1 ∧ s1.state ≠ SLEEP_STATE ∧ s1.level = true ∧
      (fieldSpaceState.state = NON_SAVING_STATE →
        s1.nonSavingCounter = fieldSpaceState.nonSavingCounter + 1 ∧
        s1.bufferIndex = fieldSpaceState.bufferIndex ∧
        s1.durationBuffer = fieldSpaceState.durationBuffer) ∧
      (4 ≤ fieldSpaceState.state →
        ∃ h : fieldSpaceState.bufferIndex < 36,
          s1.durationBuffer =
            Function.update fieldSpaceState.durationBuffer ⟨fieldSpaceState.bufferIndex, h⟩ false ∧
          s1.bufferIndex = fieldSpaceState.bufferIndex + 1) :=
  (C16_long_only_on_space fieldSpaceState 10 reachable_fieldSpaceState (by decide)
    (by decide)).2 rfl

/-- C18: in every reachable state (edges with arbitrary tick counts, overflow
ticks, polls and registry calls) the buffer index is below 36 whenever the phase is
one of the three field phases, which are the only phases in which the edge
handler stores into `durationBuffer[bufferIndex]`; so an edge with any tick count
completes without a store outside the buffer.  `writeBit` completes exactly when
the entry it reads is inside the buffer, every entry read by the three decoding
loops has an index in 1..35, and the three loops complete on the buffer of the
state. -/
theorem C18_buffer_index_in_bounds (s : State) (hreach : Reachable s) :
    (4 ≤ s.state ∧ s.state ≤ 6 → s.bufferIndex < 36) ∧
    (∀ t, ∃ s1, edge s t = .ok s1) ∧
    (∀ buf index offset data,
      (∃ d, writeBit buf index offset data = .ok d) ↔ (index + 1) % 256 + offset < 36) ∧
    (∀ index ∈ [0, 2, 4, 6], 1 ≤ (index + 1) % 256 + 0 ∧ (index + 1) % 256 + 0 ≤ 35) ∧
    (∀ index ∈ [0, 2, 4, 6, 8, 10], 1 ≤ (index + 1) % 256 + 8 ∧ (index + 1) % 256 + 8 ≤ 35) ∧
    (∀ index ∈ [0, 2, 4, 6, 8, 10, 12, 14],
      1 ≤ (index + 1) % 256 + 20 ∧ (index + 1) % 256 + 20 ≤ 35) ∧
    (∃ systemCode address command,
      decodeField s.durationBuffer 0 [0, 2, 4, 6] = .ok systemCode ∧
      decodeField s.durationBuffer 8 [0, 2, 4, 6, 8, 10] = .ok address ∧
      decodeField s.durationBuffer 20 [0, 2, 4, 6, 8, 10, 12, 14] = .ok command) := by
  obtain ⟨hinv, -⟩ := reachable_inv s hreach
  have hidx := phaseInv_field_index s hinv
  refine ⟨hidx, fun t => edge_defined s t hidx, ?_, by decide, by decide, by decide, ?_⟩
  · intro buf index offset data
    constructor
    · rintro ⟨d, hd⟩
      by_contra hno
      have hno2 : ¬ (index + 1) % 256 + offset < BUFFER_SIZE := hno
      simp [writeBit, hno2] at hd
    · exact writeBit_defined buf index offset data
  · exact ⟨_, _, _, decodeField_systemCode _, decodeField_address _, decodeField_command _⟩

/-- C18 at a reachable state of the system-code field. -/
theorem C18_buffer_index_in_bounds_witness :
    (4 ≤ fieldMarkState.state ∧ fieldMarkState.state ≤ 6 → fieldMarkState.bufferIndex < 36) ∧
    (∀ t, ∃ s1, edge fieldMarkState t = .ok s1) :=
  ⟨(C18_buffer_index_in_bounds fieldMarkState reachable_fieldMarkState).1,
   (C18_buffer_index_in_bounds fieldMarkState reachable_fieldMarkState).2.1⟩

/-- C19: let the stored clear interval be the one `IR_init` stores for an argument
of at most 83, let a valid frame be captured by a decoder that is idle or waiting,
and let three overflow ticks follow the end of the frame before the first poll.
Then a buffer clear is pending while frame-ready is still set, and the poll (which
returns, the registry being well formed) zeroes the buffer before it decodes it:
it leaves all 36 entries false and `IR.systemCode = 15`, `IR.address = 63`,
`IR.command = 255`, whatever bits the frame carried. -/
theorem C19_late_poll_all_ones (t : Nat) (ht : t ≤ 83) (s : State) (f : Frame) (hf : f.valid)
    (hct : s.clearBTime = (IR_init t s).clearBTime)
    (hst : s.state = 0 ∨ s.state = 8) (hi : s.bufferIndex = 0) (hc : s.nonSavingCounter = 0)
    (hl : s.level = true) (hr : s.bufferReady = false) (hreg : registryOk s) :
    ∃ s1, edges s f.ticks = .ok s1 ∧
      (overflowTicks s1 3).bufferReady = true ∧ (overflowTicks s1 3).clearBuffer = true ∧
      ∃ r s2, IR_available (overflowTicks s1 3) = .ok (r, s2) ∧
        s2.IR = ⟨15, 63, 255⟩ ∧ ∀ i, s2.durationBuffer i = false := by
  have hN : NUM_OF_CLEAR_BUFFER_OVFS (frameDone s f).clearBTime = 3 := by
    have := default_threshold t ht s
    rw [← hct] at this
    exact this
  have hu := late_ticks (frameDone s f) rfl hN
  refine ⟨frameDone s f, frame_run s f hf hst hi hc hl hr, ?_, ?_, ?_⟩
  · rw [hu]; rfl
  · rw [hu]
  · have hcl : (overflowTicks (frameDone s f) 3).clearBuffer = true := by rw [hu]
    have hrd : (overflowTicks (frameDone s f) 3).bufferReady = true := by rw [hu]; rfl
    have hregu : registryOk (overflowTicks (frameDone s f) 3) := by
      rw [hu]; exact hreg
    obtain ⟨hz, hd⟩ := decodedIR_cleared _ hcl
    obtain ⟨r, s2, h1, h2, h3⟩ := poll_ready_returns _ hrd hregu
    refine ⟨r, s2, h1, by rw [h2, hd], fun i => ?_⟩
    rw [h3, hz]

/-- C19 for the example frame, received after `IR_init(83)` in the initial state. -/
theorem C19_late_poll_all_ones_witness :
    ∃ s1, edges (IR_init 83 initState) exampleFrame.ticks = .ok s1 ∧
      (overflowTicks s1 3).bufferReady = true ∧ (overflowTicks s1 3).clearBuffer = true ∧
      ∃ r s2, IR_available (overflowTicks s1 3) = .ok (r, s2) ∧
        s2.IR = ⟨15, 63, 255⟩ ∧ ∀ i, s2.durationBuffer i = false :=
  C19_late_poll_all_ones 83 (by decide) (IR_init 83 initState) exampleFrame (by decide) rfl
    (Or.inl rfl) rfl rfl rfl rfl (by decide)

end IRPanasonic
